import Mathlib

/-! Tricycle odometry: angle helpers, virtual gyro, pose estimator and replay driver.

A shallow embedding of `math2.h`, `VirtualGyro.cpp`, `Tricycle.cpp` and
`TestTricycle.cpp`, in two readings of the C++ `float` arithmetic.

In the ideal reading every operation is the exact one of a linearly ordered field `K`
(instantiate `K := ℚ` to run the definitions, `K := ℝ` for the real numbers); the
constant `M_PI`, the machine epsilon `std::numeric_limits<T>::epsilon()` and the
library functions `sinf`, `cosf` are collected in a numeric environment `FloatEnv`.
It serves the statements that rest on which value the code reads and which branch it
takes.

In the `float` reading (namespace `Binary32`) every operation is rounded as IEEE 754
prescribes, a sum or a product can overflow to an infinity or be a NaN, and a loop
need not end. It serves the statements on which rounding, overflow or termination
decide.
-/

namespace Tricycle

/-- Numeric environment of the program: the macro `M_PI`, the machine epsilon of
the numeric type and the two library functions `sinf` and `cosf`. Both constants
are positive. -/
structure FloatEnv (K : Type) [LinearOrderedField K] where
  M_PI : K
  M_PI_pos : 0 < M_PI
  epsilon : K
  epsilon_pos : 0 < epsilon
  sinf : K → K
  cosf : K → K

/-- Environment for `float`: `FLT_EPSILON = 2^-23`, with the value of `M_PI` and the
library sine and cosine supplied. -/
def floatEnv {K : Type} [LinearOrderedField K] (pi : K) (hpi : 0 < pi) (sin cos : K → K) :
    FloatEnv K :=
  ⟨pi, hpi, 1 / 8388608, by norm_num, sin, cos⟩

section Math2

variable {K : Type} [LinearOrderedField K]

/-- First loop of `AngleClamp`: `while (clapmedRad >= +M_PI) clapmedRad -= (M_PI + M_PI);` -/
def AngleClamp.loopSub [FloorRing K] (N : FloatEnv K) (clapmedRad : K) : K :=
  if _h : clapmedRad ≥ N.M_PI then
    AngleClamp.loopSub N (clapmedRad - (N.M_PI + N.M_PI))
  else clapmedRad
termination_by ⌊(clapmedRad + N.M_PI) / (N.M_PI + N.M_PI)⌋₊
decreasing_by
  have hp := N.M_PI_pos
  have h2 : (0 : K) < N.M_PI + N.M_PI := by linarith
  have e : (clapmedRad - (N.M_PI + N.M_PI) + N.M_PI) / (N.M_PI + N.M_PI) = (clapmedRad + N.M_PI) / (N.M_PI + N.M_PI) - 1 := by
    field_simp; ring
  have h1 : (1 : K) ≤ (clapmedRad + N.M_PI) / (N.M_PI + N.M_PI) := by
    rw [le_div_iff₀ h2]; linarith
  have h3 : 1 ≤ ⌊(clapmedRad + N.M_PI) / (N.M_PI + N.M_PI)⌋₊ := Nat.le_floor (by simpa using h1)
  rw [e, Nat.floor_sub_one]
  omega

/-- Second loop of `AngleClamp`: `while (clapmedRad < -M_PI) clapmedRad += (M_PI + M_PI);` -/
def AngleClamp.loopAdd [FloorRing K] (N : FloatEnv K) (clapmedRad : K) : K :=
  if _h : clapmedRad < -N.M_PI then
    AngleClamp.loopAdd N (clapmedRad + (N.M_PI + N.M_PI))
  else clapmedRad
termination_by ⌊(N.M_PI - clapmedRad) / (N.M_PI + N.M_PI)⌋₊
decreasing_by
  have hp := N.M_PI_pos
  have h2 : (0 : K) < N.M_PI + N.M_PI := by linarith
  have e : (N.M_PI - (clapmedRad + (N.M_PI + N.M_PI))) / (N.M_PI + N.M_PI) = (N.M_PI - clapmedRad) / (N.M_PI + N.M_PI) - 1 := by
    field_simp; ring
  have h1 : (1 : K) ≤ (N.M_PI - clapmedRad) / (N.M_PI + N.M_PI) := by
    rw [le_div_iff₀ h2]; linarith
  have h3 : 1 ≤ ⌊(N.M_PI - clapmedRad) / (N.M_PI + N.M_PI)⌋₊ := Nat.le_floor (by simpa using h1)
  rw [e, Nat.floor_sub_one]
  omega

/-- The function `AngleClamp` of `math2.h`: the two loops one after the other. -/
def AngleClamp [FloorRing K] (N : FloatEnv K) (angleRad : K) : K :=
  AngleClamp.loopAdd N (AngleClamp.loopSub N angleRad)

/-- First loop of `AngleDiff`: `while (diffRad > +M_PI) diffRad -= (M_PI + M_PI);` -/
def AngleDiff.loopSub [FloorRing K] (N : FloatEnv K) (diffRad : K) : K :=
  if _h : diffRad > N.M_PI then
    AngleDiff.loopSub N (diffRad - (N.M_PI + N.M_PI))
  else diffRad
termination_by ⌊(diffRad + N.M_PI) / (N.M_PI + N.M_PI)⌋₊
decreasing_by
  have hp := N.M_PI_pos
  have h2 : (0 : K) < N.M_PI + N.M_PI := by linarith
  have e : (diffRad - (N.M_PI + N.M_PI) + N.M_PI) / (N.M_PI + N.M_PI) = (diffRad + N.M_PI) / (N.M_PI + N.M_PI) - 1 := by
    field_simp; ring
  have h1 : (1 : K) ≤ (diffRad + N.M_PI) / (N.M_PI + N.M_PI) := by
    rw [le_div_iff₀ h2]; linarith [gt_iff_lt.mp _h]
  have h3 : 1 ≤ ⌊(diffRad + N.M_PI) / (N.M_PI + N.M_PI)⌋₊ := Nat.le_floor (by simpa using h1)
  rw [e, Nat.floor_sub_one]
  omega

/-- Second loop of `AngleDiff`: `while (diffRad < -M_PI) diffRad += (M_PI + M_PI);` -/
def AngleDiff.loopAdd [FloorRing K] (N : FloatEnv K) (diffRad : K) : K :=
  if _h : diffRad < -N.M_PI then
    AngleDiff.loopAdd N (diffRad + (N.M_PI + N.M_PI))
  else diffRad
termination_by ⌊(N.M_PI - diffRad) / (N.M_PI + N.M_PI)⌋₊
decreasing_by
  have hp := N.M_PI_pos
  have h2 : (0 : K) < N.M_PI + N.M_PI := by linarith
  have e : (N.M_PI - (diffRad + (N.M_PI + N.M_PI))) / (N.M_PI + N.M_PI) = (N.M_PI - diffRad) / (N.M_PI + N.M_PI) - 1 := by
    field_simp; ring
  have h1 : (1 : K) ≤ (N.M_PI - diffRad) / (N.M_PI + N.M_PI) := by
    rw [le_div_iff₀ h2]; linarith
  have h3 : 1 ≤ ⌊(N.M_PI - diffRad) / (N.M_PI + N.M_PI)⌋₊ := Nat.le_floor (by simpa using h1)
  rw [e, Nat.floor_sub_one]
  omega

/-- The function `AngleDiff` of `math2.h`. -/
def AngleDiff [FloorRing K] (N : FloatEnv K) (startRad endRad : K) : K :=
  AngleDiff.loopAdd N (AngleDiff.loopSub N (endRad - startRad))

/-- The function `almostEqual` of `math2.h`: `fabs(v1 - v2) < epsilon`. -/
def almostEqual (N : FloatEnv K) (v1 v2 : K) : Bool :=
  decide (|v1 - v2| < N.epsilon)

/-- The function `almostZero` of `math2.h`: `return (v < epsilon);`. -/
def almostZero (N : FloatEnv K) (v : K) : Bool :=
  decide (v < N.epsilon)

end Math2

section Pose

variable {K : Type} [LinearOrderedField K]

/-- The type `SPos` of `Pose.h`: a 2D position. -/
structure SPos (K : Type) where
  x : K
  y : K

/-- The type `SPose` of `Pose.h`: position and heading `q` of the robot. -/
structure SPose (K : Type) where
  x : K
  y : K
  q : K

/-- Default constructor of `SPose`: `x(0.f), y(0.f), q(0.f)`. -/
def SPose.default : SPose K := ⟨0, 0, 0⟩

end Pose

section Platform

variable {K : Type} [LinearOrderedField K]

/-- Macro `FRONT_WHEEL_RADIUS (0.2f)`. -/
def FRONT_WHEEL_RADIUS : K := 2 / 10

/-- Macro `DIST_BTW_FRONT_REAR (1.f)`. -/
def DIST_BTW_FRONT_REAR : K := 1

/-- Macro `DIST_BTW_REAR_WHEELS (0.75f)`. -/
def DIST_BTW_REAR_WHEELS : K := 75 / 100

/-- Macro `TICKS_PER_REVOLUTION (512)`. -/
def TICKS_PER_REVOLUTION : ℤ := 512

/-- Constant member of `CTricycle`, set by the constructor. -/
def CTricycle.m_fFrontWheelRadius : K := FRONT_WHEEL_RADIUS

/-- Constant member of `CTricycle`, set by the constructor. -/
def CTricycle.m_fDistBtwFrontRear : K := DIST_BTW_FRONT_REAR

/-- Constant member of `CTricycle`, set by the constructor. -/
def CTricycle.m_fDistBtwRearWheels : K := DIST_BTW_REAR_WHEELS

/-- Constant member of `CTricycle`, set by the constructor. -/
def CTricycle.m_nTicksPerRevolution : ℤ := TICKS_PER_REVOLUTION

/-- Constant member of `CTricycle`: `m_fFrontWheelCircum(2.f * M_PI * m_fFrontWheelRadius)`. -/
def CTricycle.m_fFrontWheelCircum (N : FloatEnv K) : K :=
  2 * N.M_PI * CTricycle.m_fFrontWheelRadius

/-- Constant member of `CTricycle`:
`m_fFrontDistPerTick(m_fFrontWheelCircum / m_nTicksPerRevolution)`. -/
def CTricycle.m_fFrontDistPerTick (N : FloatEnv K) : K :=
  CTricycle.m_fFrontWheelCircum N / (CTricycle.m_nTicksPerRevolution : K)

/-- Accessor `CTricycle::GetDistBtwFrontRear`. -/
def CTricycle.GetDistBtwFrontRear : K := CTricycle.m_fDistBtwFrontRear

/-- Accessor `CTricycle::GetFrontDistPerTick`. -/
def CTricycle.GetFrontDistPerTick (N : FloatEnv K) : K := CTricycle.m_fFrontDistPerTick N

end Platform

section Gyro

variable {K : Type} [LinearOrderedField K]

/-- Mutable state of the `CVirtualGyro` singleton: its two members and the two
function-local statics of `Update`. -/
structure CVirtualGyro (K : Type) where
  m_fAngVel : K
  m_fAngleRad : K
  fPrevTime : K
  fPrevSteerRad : K

/-- Constructor `CVirtualGyro() : m_fAngVel(0.f), m_fAngleRad(0.f)`, statics `0.f`. -/
def CVirtualGyro.new : CVirtualGyro K := ⟨0, 0, 0, 0⟩

/-- Accessor `CVirtualGyro::GetAngVel`. -/
def CVirtualGyro.GetAngVel (g : CVirtualGyro K) : K := g.m_fAngVel

/-- Local `fDiffTime` of `CVirtualGyro::Update`. -/
def CVirtualGyro.Update.fDiffTime (g : CVirtualGyro K) (fTime : K) : K :=
  fTime - g.fPrevTime

/-- Local `fDiffAngleRad` of `CVirtualGyro::Update` after its three assignments. -/
def CVirtualGyro.Update.fDiffAngleRad (N : FloatEnv K) (g : CVirtualGyro K) (fSteerRad : K)
    (nEncoderTicks : ℤ) : K :=
  ((nEncoderTicks : K) * CTricycle.GetFrontDistPerTick N) / 2
    / CTricycle.GetDistBtwFrontRear
    * N.sinf ((g.fPrevSteerRad + fSteerRad) / 2)

/-- The method `CVirtualGyro::Update`. -/
def CVirtualGyro.Update [FloorRing K] (N : FloatEnv K) (g : CVirtualGyro K)
    (fTime fSteerRad : K) (nEncoderTicks : ℤ) : CVirtualGyro K :=
  let fDiffTime := CVirtualGyro.Update.fDiffTime g fTime
  let fDiffAngleRad := CVirtualGyro.Update.fDiffAngleRad N g fSteerRad nEncoderTicks
  let m_fAngVel₁ := AngleDiff N g.m_fAngleRad (g.m_fAngleRad + fDiffAngleRad)
  let m_fAngVel₂ := AngleClamp N m_fAngVel₁
  let m_fAngVel₃ := if !almostZero N fDiffTime then m_fAngVel₂ / fDiffTime else m_fAngVel₂
  let m_fAngleRad₁ := g.m_fAngleRad + fDiffAngleRad
  { m_fAngVel := m_fAngVel₃
    m_fAngleRad := AngleClamp N m_fAngleRad₁
    fPrevTime := fTime
    fPrevSteerRad := fSteerRad }

end Gyro

section Odometry

variable {K : Type} [LinearOrderedField K]

/-- Mutable state of the `CTricycle` singleton: the pose and the function-local static
`fPrevTime` of `Estimate`. -/
structure CTricycle (K : Type) where
  m_pose : SPose K
  fPrevTime : K

/-- Constructor of `CTricycle`: default pose, static `fPrevTime = 0.f`. -/
def CTricycle.new : CTricycle K := ⟨SPose.default, 0⟩

/-- Local `fDiffTime` of `CTricycle::Estimate`. -/
def CTricycle.Estimate.fDiffTime (t : CTricycle K) (time : K) : K :=
  time - t.fPrevTime

/-- Local `fFrontWheelDist` of `CTricycle::Estimate`. -/
def CTricycle.Estimate.fFrontWheelDist (N : FloatEnv K) (encoder_ticks : ℤ) : K :=
  (encoder_ticks : K) * CTricycle.m_fFrontDistPerTick N

/-- Local `fFrontWheelVel` of `CTricycle::Estimate`: zero unless the guard
`!almostZero(fDiffTime)` lets the division happen. -/
def CTricycle.Estimate.fFrontWheelVel (N : FloatEnv K) (t : CTricycle K) (time : K)
    (encoder_ticks : ℤ) : K :=
  if !almostZero N (CTricycle.Estimate.fDiffTime t time) then
    CTricycle.Estimate.fFrontWheelDist N encoder_ticks / CTricycle.Estimate.fDiffTime t time
  else 0

/-- The method `CTricycle::Estimate`. The gyro singleton is read through `GetAngVel`;
the parameter `angular_velocity` is not read by the body. The returned pose is the
`m_pose` of the resulting state. -/
def CTricycle.Estimate [FloorRing K] (N : FloatEnv K) (gyro : CVirtualGyro K)
    (t : CTricycle K) (time steering_angle : K) (encoder_ticks : ℤ)
    (_angular_velocity : K) : CTricycle K :=
  let fDiffTime := CTricycle.Estimate.fDiffTime t time
  let fFrontWheelVel := CTricycle.Estimate.fFrontWheelVel N t time encoder_ticks
  let fW := gyro.GetAngVel
  let q₁ := t.m_pose.q + fW * fDiffTime
  let q₂ := AngleClamp N q₁
  let fDiffX := (fFrontWheelVel * fDiffTime) * N.cosf steering_angle * N.cosf q₂
  let fDiffY := (fFrontWheelVel * fDiffTime) * N.cosf steering_angle * N.sinf q₂
  { m_pose := ⟨t.m_pose.x + fDiffX, t.m_pose.y + fDiffY, q₂⟩
    fPrevTime := time }

/-- The two singletons of a run. -/
structure Instances (K : Type) where
  tricycle : CTricycle K
  gyro : CVirtualGyro K

/-- State at program start: both singletons freshly constructed. -/
def Instances.new : Instances K := ⟨CTricycle.new, CVirtualGyro.new⟩

/-- A call on one of the two singletons. -/
inductive Call (K : Type) where
  | Update (fTime fSteerRad : K) (nEncoderTicks : ℤ)
  | Estimate (time steering_angle : K) (encoder_ticks : ℤ) (angular_velocity : K)

end Odometry

section Contour

variable {K : Type} [LinearOrderedField K]

/-- Macro `DEG2RAD(d) (((d) * M_PI) / 180.0f)`. -/
def DEG2RAD (N : FloatEnv K) (d : K) : K := (d * N.M_PI) / 180

/-- Accessor `CTricycle::GetRobotPose`. -/
def CTricycle.GetRobotPose (t : CTricycle K) : SPose K := t.m_pose

/-- What a call of `CTricycle::GetRobotContour` leaves behind: the object itself
(`self`) and the three out-parameters. -/
structure RobotContour (K : Type) where
  self : CTricycle K
  posFW : SPos K
  posLW : SPos K
  posRW : SPos K

/-- The method `CTricycle::GetRobotContour`. No member is assigned in its body. -/
def CTricycle.GetRobotContour (N : FloatEnv K) (t : CTricycle K) : RobotContour K :=
  let fDistRearWheelFromCenter : K := CTricycle.m_fDistBtwRearWheels / 2
  let fAngle := DEG2RAD N 90 - t.m_pose.q
  { self := t
    posFW := ⟨t.m_pose.x + CTricycle.m_fDistBtwFrontRear * N.cosf t.m_pose.q,
              t.m_pose.y + CTricycle.m_fDistBtwFrontRear * N.sinf t.m_pose.q⟩
    posLW := ⟨t.m_pose.x - fDistRearWheelFromCenter * N.cosf fAngle,
              t.m_pose.y + fDistRearWheelFromCenter * N.sinf fAngle⟩
    posRW := ⟨t.m_pose.x + fDistRearWheelFromCenter * N.cosf fAngle,
              t.m_pose.y - fDistRearWheelFromCenter * N.sinf fAngle⟩ }

/-- Conversion `int(v)` of a `float` to a 32-bit `int`: the fractional part is
discarded (truncation toward zero); when the truncated value does not fit in `int`
the conversion has no defined result. -/
def floatToInt [FloorRing K] (v : K) : Option ℤ :=
  let z : ℤ := if 0 ≤ v then ⌊v⌋ else ⌈v⌉
  if -2147483648 ≤ z ∧ z ≤ 2147483647 then some z else none

/-- The static method `CTricycle::Dist2Ticks`: `return int(fDist * TICKS_PER_REVOLUTION);`.
The second parameter (default `1.f`) is not read. -/
def CTricycle.Dist2Ticks [FloorRing K] (fDist : K) (_fTimeGap : K) : Option ℤ :=
  floatToInt (fDist * (TICKS_PER_REVOLUTION : K))

end Contour

section Driver

variable {K : Type} [LinearOrderedField K]

/-- The type `SRecord` of `TestTricycle.h`. Its member `angular_velocity` is never
assigned and never read, and is left out. -/
structure SRecord (K : Type) where
  time : K
  steering_angle : K
  encoder_ticks : ℤ

/-- The free function `estimate` of `Tricycle.cpp`: forwards to the singleton. -/
def estimate [FloorRing K] (N : FloatEnv K) (w : Instances K) (time steering_angle : K)
    (encoder_ticks : ℤ) (angular_velocity : K) : Instances K :=
  { w with tricycle :=
      w.tricycle.Estimate N w.gyro time steering_angle encoder_ticks angular_velocity }

/-- One line of the pose file: `time`, `pose.x`, `pose.y`, `pose.q`. -/
structure PoseRow (K : Type) where
  time : K
  x : K
  y : K
  q : K

/-- One polygon of the contour file: centre, left wheel, front wheel, right wheel,
centre, in the order they are written. -/
structure ContourBlock (K : Type) where
  p₀ : SPos K
  p₁ : SPos K
  p₂ : SPos K
  p₃ : SPos K
  p₄ : SPos K

/-- The two result streams: what has been written to each (header lines left out) and
whether `fail()` holds of one of them. -/
structure Files (K : Type) where
  m_fsFilePose : List (PoseRow K)
  m_fsFileContour : List (ContourBlock K)
  fail : Bool

/-- The method `CTestTricycle::Write`: nothing is written when a stream has failed
(`if (m_fsFilePose.fail() || m_fsFileContour.fail()) return -1;`); otherwise one pose
row and one contour block are appended, the wheel points taken from the singleton. -/
def CTestTricycle.Write (N : FloatEnv K) (w : Instances K) (f : Files K) (time : K)
    (pose : SPose K) : Files K :=
  if f.fail then f
  else
    let c := w.tricycle.GetRobotContour N
    { f with
      m_fsFilePose := f.m_fsFilePose ++ [⟨time, pose.x, pose.y, pose.q⟩]
      m_fsFileContour := f.m_fsFileContour ++
        [⟨⟨pose.x, pose.y⟩, c.posLW, c.posFW, c.posRW, ⟨pose.x, pose.y⟩⟩] }

/-- Body of the `for` loop of `CTestTricycle::Run` for one record: `Update`, then
`estimate` with the gyro's `GetAngVel()` as fourth argument, then `Write`. -/
def CTestTricycle.Run.body [FloorRing K] (N : FloatEnv K) (s : Instances K × Files K)
    (it : SRecord K) : Instances K × Files K :=
  let w₁ : Instances K :=
    { s.1 with gyro := s.1.gyro.Update N it.time it.steering_angle it.encoder_ticks }
  let w₂ := estimate N w₁ it.time it.steering_angle it.encoder_ticks w₁.gyro.GetAngVel
  let pose := w₂.tricycle.m_pose
  (w₂, CTestTricycle.Write N w₂ s.2 it.time pose)

/-- The method `CTestTricycle::Run` from the point where the records have been read and
both result files opened: the pose before any sample is written at time `0`, then the
loop runs over `m_vRecord`. -/
def CTestTricycle.Run [FloorRing K] (N : FloatEnv K) (w : Instances K)
    (m_vRecord : List (SRecord K)) : Instances K × Files K :=
  let pose := w.tricycle.GetRobotPose
  let f := CTestTricycle.Write N w ⟨[], [], false⟩ 0 pose
  m_vRecord.foldl (CTestTricycle.Run.body N) (w, f)

/-- Things that end a call by an uncaught C++ exception. -/
inductive Thrown where
  | out_of_range

/-- One call `std::getline(iss, str, ',')` on the `istringstream` of a line. The stream
is `some cs` while it is good, with `cs` the characters not yet read, and `none` once
`eofbit` or `failbit` is set; on a stream that is not good nothing is done and `str`
keeps its value. -/
def getlineComma (iss : Option (List Char)) (str : List Char) :
    Option (List Char) × List Char :=
  match iss with
  | none => (none, str)
  | some cs =>
    match cs.span (fun c => c != ',') with
    | (field, []) => (none, field)
    | (field, _ :: rest) => (some rest, field)

/-- Body of the `while` loop of `CTestTricycle::ReadInputFile` for one line `str` of the
file. `str.at(0)` throws `std::out_of_range` on the empty string. The C library
functions `atof` and `atoi` are parameters. -/
def CTestTricycle.ReadInputFile.body (atof : List Char → K) (atoi : List Char → ℤ)
    (m_vRecord : List (SRecord K)) (str : List Char) : Except Thrown (List (SRecord K)) :=
  match str with
  | [] => .error .out_of_range
  | c :: _ =>
    if c = '#' then .ok m_vRecord
    else
      let r₁ := getlineComma (some str) str
      let time := atof r₁.2
      let r₂ := getlineComma r₁.1 r₁.2
      let steering_angle := atof r₂.2
      let r₃ := getlineComma r₂.1 r₂.2
      let encoder_ticks := atoi r₃.2
      .ok (m_vRecord ++ [⟨time, steering_angle, encoder_ticks⟩])

/-- The method `CTestTricycle::ReadInputFile` on a file that could be opened, given as
the list of its lines: the records read and the return value `0`. -/
def CTestTricycle.ReadInputFile (atof : List Char → K) (atoi : List Char → ℤ)
    (lines : List (List Char)) : Except Thrown (List (SRecord K) × ℤ) :=
  match lines.foldlM (CTestTricycle.ReadInputFile.body atof atoi) [] with
  | .error e => .error e
  | .ok m_vRecord => .ok (m_vRecord, 0)

end Driver

/-! ## The `float` reading of the program

The definitions of the namespace `Binary32` translate the same source functions with
every `float` operation rounded as IEEE 754 binary32 prescribes (round to nearest,
ties to even, overflow to an infinity, NaN for an invalid operation) and every
operation that the usual arithmetic conversions carry out in `double` rounded as
binary64. `M_PI` is the `double` constant of `<cmath>`, which `math2.h` leaves alone
when it is defined. Each operation is rounded once to the type of its operands, as
with SSE arithmetic and no contraction of a product and a sum. A loop takes a bound
(`fuel`) on the number of times its condition is evaluated and yields `none` when
the bound is reached. -/

namespace Binary32

/-- A value of an IEEE 754 binary format: a NaN, an infinity (with its sign) or a
finite number. The two zeros are not told apart; no operation of the program divides
by zero. -/
inductive Fp where
  | nan : Fp
  | inf (negative : Bool) : Fp
  | fin (value : ℚ) : Fp
deriving DecidableEq

/-- Rounding of a rational to the nearest integer, a tie to the even one. -/
def roundHalfEven (m : ℚ) : ℤ :=
  if m - ⌊m⌋ < 1 / 2 then ⌊m⌋
  else if 1 / 2 < m - ⌊m⌋ then ⌊m⌋ + 1
  else if ⌊m⌋ % 2 = 0 then ⌊m⌋ else ⌊m⌋ + 1

/-- Spacing around `q` of the binary format with `p` significand bits and least
normal exponent `emin`: `2^(e - (p - 1))` with `e = max ⌊log₂ |q|⌋ emin`. -/
def ulp (p : ℕ) (emin : ℤ) (q : ℚ) : ℚ :=
  2 ^ (max (Int.log 2 |q|) emin - ((p : ℤ) - 1))

/-- Rounding to nearest, ties to even, into the binary format with `p` significand
bits and exponents `emin .. emax`. A magnitude of at least `2^emax * (2 - 2^-p)`,
half a spacing above the largest finite number, becomes an infinity. -/
def roundTo (p : ℕ) (emin emax : ℤ) (q : ℚ) : Fp :=
  if (2 : ℚ) ^ emax * (2 - 2 ^ (-(p : ℤ))) ≤ |q| then .inf (decide (q < 0))
  else .fin (roundHalfEven (q / ulp p emin q) * ulp p emin q)

/-- Rounding to `float` (binary32). -/
def round32 (q : ℚ) : Fp := roundTo 24 (-126) 127 q

/-- Rounding to `double` (binary64). -/
def round64 (q : ℚ) : Fp := roundTo 53 (-1022) 1023 q

/-- Negation. -/
def Fp.neg : Fp → Fp
  | .nan => .nan
  | .inf s => .inf (!s)
  | .fin v => .fin (-v)

/-- Sum, rounded by `rnd`. -/
def Fp.add (rnd : ℚ → Fp) : Fp → Fp → Fp
  | .fin a, .fin b => rnd (a + b)
  | .fin _, .inf t => .inf t
  | .inf s, .fin _ => .inf s
  | .inf s, .inf t => if s = t then .inf s else .nan
  | _, _ => .nan

/-- Difference, rounded by `rnd`. -/
def Fp.sub (rnd : ℚ → Fp) (x y : Fp) : Fp := Fp.add rnd x (Fp.neg y)

/-- Product, rounded by `rnd`; zero times an infinity is a NaN. -/
def Fp.mul (rnd : ℚ → Fp) : Fp → Fp → Fp
  | .fin a, .fin b => rnd (a * b)
  | .fin a, .inf t => if a = 0 then .nan else .inf (decide (a < 0) != t)
  | .inf s, .fin b => if b = 0 then .nan else .inf (s != decide (b < 0))
  | .inf s, .inf t => .inf (s != t)
  | _, _ => .nan

/-- Quotient, rounded by `rnd`. -/
def Fp.div (rnd : ℚ → Fp) : Fp → Fp → Fp
  | .fin a, .fin b =>
      if b = 0 then (if a = 0 then .nan else .inf (decide (a < 0))) else rnd (a / b)
  | .fin _, .inf _ => .fin 0
  | .inf s, .fin b => .inf (s != decide (b < 0))
  | _, _ => .nan

/-- Comparison `<`; false when an operand is a NaN. -/
def Fp.lt : Fp → Fp → Bool
  | .fin a, .fin b => decide (a < b)
  | .fin _, .inf t => !t
  | .inf s, .fin _ => s
  | .inf s, .inf t => s && !t
  | _, _ => false

/-- Comparison `<=`; false when an operand is a NaN. -/
def Fp.le : Fp → Fp → Bool
  | .fin a, .fin b => decide (a ≤ b)
  | .fin _, .inf t => !t
  | .inf s, .fin _ => s
  | .inf s, .inf t => s || !t
  | _, _ => false

/-- Conversion of a `double` to `float`. -/
def Fp.toFloat : Fp → Fp
  | .fin v => round32 v
  | x => x

/-- Conversion of an `int` to `float`. -/
def ofInt (n : ℤ) : Fp := round32 n

/-- The `float` operation `+`. -/
def fadd (x y : Fp) : Fp := Fp.add round32 x y

/-- The `float` operation `-`. -/
def fsub (x y : Fp) : Fp := Fp.sub round32 x y

/-- The `float` operation `*`. -/
def fmul (x y : Fp) : Fp := Fp.mul round32 x y

/-- The `float` operation `/`. -/
def fdiv (x y : Fp) : Fp := Fp.div round32 x y

/-- The `double` operation `+`. -/
def dadd (x y : Fp) : Fp := Fp.add round64 x y

/-- The `double` operation `-`. -/
def dsub (x y : Fp) : Fp := Fp.sub round64 x y

/-- The `double` operation `*`. -/
def dmul (x y : Fp) : Fp := Fp.mul round64 x y

/-- The `double` operation `/`. -/
def ddiv (x y : Fp) : Fp := Fp.div round64 x y

/-- A rational that is a `float`: rounding leaves it alone. -/
def IsFloat (v : ℚ) : Prop := round32 v = .fin v

/-- The `double` constant `M_PI` of `<cmath>`, `0x1.921fb54442d18p+1`. -/
def M_PI : Fp := .fin (884279719003555 / 281474976710656)

/-- The constant `std::numeric_limits<float>::epsilon()`, `2^-23`. -/
def epsilon : Fp := .fin (1 / 8388608)

/-- The library functions `sinf` and `cosf` on finite arguments, where their values
are finite. -/
structure Libm where
  sinf : ℚ → ℚ
  cosf : ℚ → ℚ

/-- The call `sinf(x)`: a NaN when `x` is a NaN or an infinity. -/
def Libm.sin (L : Libm) : Fp → Fp
  | .fin v => .fin (L.sinf v)
  | _ => .nan

/-- The call `cosf(x)`: a NaN when `x` is a NaN or an infinity. -/
def Libm.cos (L : Libm) : Fp → Fp
  | .fin v => .fin (L.cosf v)
  | _ => .nan

/-- First loop of `AngleClamp<float>`: `while (clapmedRad >= +M_PI) clapmedRad -= (M_PI + M_PI);`.
The comparison and the subtraction are carried out in `double`, the result is stored
to the `float` variable. -/
def AngleClamp.loopSub : ℕ → Fp → Option Fp
  | 0, _ => none
  | fuel + 1, clapmedRad =>
    if Fp.le M_PI clapmedRad then
      AngleClamp.loopSub fuel (Fp.toFloat (dsub clapmedRad (dadd M_PI M_PI)))
    else some clapmedRad

/-- Second loop of `AngleClamp<float>`: `while (clapmedRad < -M_PI) clapmedRad += (M_PI + M_PI);`. -/
def AngleClamp.loopAdd : ℕ → Fp → Option Fp
  | 0, _ => none
  | fuel + 1, clapmedRad =>
    if Fp.lt clapmedRad (Fp.neg M_PI) then
      AngleClamp.loopAdd fuel (Fp.toFloat (dadd clapmedRad (dadd M_PI M_PI)))
    else some clapmedRad

/-- The function `AngleClamp<float>` of `math2.h`; `none` when one of its loops is
still running after `fuel` evaluations of its condition. -/
def AngleClamp (fuel : ℕ) (angleRad : Fp) : Option Fp :=
  (AngleClamp.loopSub fuel angleRad).bind (AngleClamp.loopAdd fuel)

/-- First loop of `AngleDiff<float>`: `while (diffRad > +M_PI) diffRad -= (M_PI + M_PI);`. -/
def AngleDiff.loopSub : ℕ → Fp → Option Fp
  | 0, _ => none
  | fuel + 1, diffRad =>
    if Fp.lt M_PI diffRad then
      AngleDiff.loopSub fuel (Fp.toFloat (dsub diffRad (dadd M_PI M_PI)))
    else some diffRad

/-- Second loop of `AngleDiff<float>`: `while (diffRad < -M_PI) diffRad += (M_PI + M_PI);`. -/
def AngleDiff.loopAdd : ℕ → Fp → Option Fp
  | 0, _ => none
  | fuel + 1, diffRad =>
    if Fp.lt diffRad (Fp.neg M_PI) then
      AngleDiff.loopAdd fuel (Fp.toFloat (dadd diffRad (dadd M_PI M_PI)))
    else some diffRad

/-- The function `AngleDiff<float>` of `math2.h`. -/
def AngleDiff (fuel : ℕ) (startRad endRad : Fp) : Option Fp :=
  (AngleDiff.loopSub fuel (fsub endRad startRad)).bind (AngleDiff.loopAdd fuel)

/-- The function `almostZero<float>`: `return (v < std::numeric_limits<T>::epsilon());`. -/
def almostZero (v : Fp) : Bool := Fp.lt v epsilon

/-- Macro `FRONT_WHEEL_RADIUS (0.2f)`. -/
def FRONT_WHEEL_RADIUS : Fp := round32 (2 / 10)

/-- Macro `DIST_BTW_FRONT_REAR (1.f)`. -/
def DIST_BTW_FRONT_REAR : Fp := round32 1

/-- Macro `DIST_BTW_REAR_WHEELS (0.75f)`. -/
def DIST_BTW_REAR_WHEELS : Fp := round32 (75 / 100)

/-- Macro `TICKS_PER_REVOLUTION (512)`. -/
def TICKS_PER_REVOLUTION : ℤ := 512

/-- Member `m_fFrontWheelRadius`. -/
def CTricycle.m_fFrontWheelRadius : Fp := FRONT_WHEEL_RADIUS

/-- Member `m_fDistBtwFrontRear`. -/
def CTricycle.m_fDistBtwFrontRear : Fp := DIST_BTW_FRONT_REAR

/-- Member `m_fDistBtwRearWheels`. -/
def CTricycle.m_fDistBtwRearWheels : Fp := DIST_BTW_REAR_WHEELS

/-- Member `m_nTicksPerRevolution`. -/
def CTricycle.m_nTicksPerRevolution : ℤ := TICKS_PER_REVOLUTION

/-- Member `m_fFrontWheelCircum(2.f * M_PI * m_fFrontWheelRadius)`: the product is
formed in `double` and stored to the `float` member. -/
def CTricycle.m_fFrontWheelCircum : Fp :=
  Fp.toFloat (dmul (dmul (round32 2) M_PI) CTricycle.m_fFrontWheelRadius)

/-- Member `m_fFrontDistPerTick(m_fFrontWheelCircum / m_nTicksPerRevolution)`. -/
def CTricycle.m_fFrontDistPerTick : Fp :=
  fdiv CTricycle.m_fFrontWheelCircum (ofInt CTricycle.m_nTicksPerRevolution)

/-- Accessor `CTricycle::GetDistBtwFrontRear`. -/
def CTricycle.GetDistBtwFrontRear : Fp := CTricycle.m_fDistBtwFrontRear

/-- Accessor `CTricycle::GetFrontDistPerTick`. -/
def CTricycle.GetFrontDistPerTick : Fp := CTricycle.m_fFrontDistPerTick

/-- Constructor `CVirtualGyro() : m_fAngVel(0.f), m_fAngleRad(0.f)`, statics `0.f`. -/
def CVirtualGyro.new : CVirtualGyro Fp := ⟨round32 0, round32 0, round32 0, round32 0⟩

/-- Accessor `CVirtualGyro::GetAngVel`. -/
def CVirtualGyro.GetAngVel (g : CVirtualGyro Fp) : Fp := g.m_fAngVel

/-- Local `fDiffAngleRad` of `CVirtualGyro::Update` after its three assignments. -/
def CVirtualGyro.Update.fDiffAngleRad (L : Libm) (g : CVirtualGyro Fp) (fSteerRad : Fp)
    (nEncoderTicks : ℤ) : Fp :=
  fmul
    (fdiv (fdiv (fmul (ofInt nEncoderTicks) CTricycle.GetFrontDistPerTick) (round32 2))
      CTricycle.GetDistBtwFrontRear)
    (L.sin (fdiv (fadd g.fPrevSteerRad fSteerRad) (round32 2)))

/-- The method `CVirtualGyro::Update`; `none` when a call of `AngleDiff` or
`AngleClamp` does not return within `fuel`. -/
def CVirtualGyro.Update (L : Libm) (fuel : ℕ) (g : CVirtualGyro Fp) (fTime fSteerRad : Fp)
    (nEncoderTicks : ℤ) : Option (CVirtualGyro Fp) :=
  let fDiffTime := fsub fTime g.fPrevTime
  let fDiffAngleRad := CVirtualGyro.Update.fDiffAngleRad L g fSteerRad nEncoderTicks
  (AngleDiff fuel g.m_fAngleRad (fadd g.m_fAngleRad fDiffAngleRad)).bind fun m_fAngVel₁ =>
  (AngleClamp fuel m_fAngVel₁).bind fun m_fAngVel₂ =>
  (AngleClamp fuel (fadd g.m_fAngleRad fDiffAngleRad)).map fun m_fAngleRad₂ =>
    { m_fAngVel := if !almostZero fDiffTime then fdiv m_fAngVel₂ fDiffTime else m_fAngVel₂
      m_fAngleRad := m_fAngleRad₂
      fPrevTime := fTime
      fPrevSteerRad := fSteerRad }

/-- Constructor of `CTricycle`: default pose, static `fPrevTime = 0.f`. -/
def CTricycle.new : CTricycle Fp := ⟨⟨round32 0, round32 0, round32 0⟩, round32 0⟩

/-- Local `fFrontWheelVel` of `CTricycle::Estimate`: `0.f` unless the guard
`!almostZero(fDiffTime)` lets the division happen. -/
def CTricycle.Estimate.fFrontWheelVel (t : CTricycle Fp) (time : Fp) (encoder_ticks : ℤ) :
    Fp :=
  if !almostZero (fsub time t.fPrevTime) then
    fdiv (fmul (ofInt encoder_ticks) CTricycle.m_fFrontDistPerTick) (fsub time t.fPrevTime)
  else round32 0

/-- Member `m_pose.q` of `CTricycle::Estimate` after `m_pose.q += fW * fDiffTime;` and
`m_pose.q = AngleClamp(m_pose.q);`. -/
def CTricycle.Estimate.q (fuel : ℕ) (gyro : CVirtualGyro Fp) (t : CTricycle Fp)
    (time : Fp) : Option Fp :=
  AngleClamp fuel (fadd t.m_pose.q (fmul (CVirtualGyro.GetAngVel gyro) (fsub time t.fPrevTime)))

/-- The method `CTricycle::Estimate`; `none` when its call of `AngleClamp` does not
return within `fuel`. The parameter `angular_velocity` is not read by the body. -/
def CTricycle.Estimate (L : Libm) (fuel : ℕ) (gyro : CVirtualGyro Fp) (t : CTricycle Fp)
    (time steering_angle : Fp) (encoder_ticks : ℤ) (_angular_velocity : Fp) :
    Option (CTricycle Fp) :=
  let fDiffTime := fsub time t.fPrevTime
  let fFrontWheelVel := CTricycle.Estimate.fFrontWheelVel t time encoder_ticks
  (CTricycle.Estimate.q fuel gyro t time).map fun q₂ =>
    let fDiffX := fmul (fmul (fmul fFrontWheelVel fDiffTime) (L.cos steering_angle)) (L.cos q₂)
    let fDiffY := fmul (fmul (fmul fFrontWheelVel fDiffTime) (L.cos steering_angle)) (L.sin q₂)
    { m_pose := ⟨fadd t.m_pose.x fDiffX, fadd t.m_pose.y fDiffY, q₂⟩
      fPrevTime := time }

/-- State at program start: both singletons freshly constructed. -/
def Instances.new : Instances Fp := ⟨CTricycle.new, CVirtualGyro.new⟩

/-- Effect of one call on the pair of singletons. -/
def Instances.step (L : Libm) (fuel : ℕ) (w : Instances Fp) : Call Fp → Option (Instances Fp)
  | .Update fTime fSteerRad nEncoderTicks =>
      (CVirtualGyro.Update L fuel w.gyro fTime fSteerRad nEncoderTicks).map fun g =>
        { w with gyro := g }
  | .Estimate time steering_angle encoder_ticks angular_velocity =>
      (CTricycle.Estimate L fuel w.gyro w.tricycle time steering_angle encoder_ticks
        angular_velocity).map fun t => { w with tricycle := t }

/-- Effect of a sequence of calls, first to last; `none` when one of them does not
return. -/
def Instances.run (L : Libm) (fuel : ℕ) : Instances Fp → List (Call Fp) → Option (Instances Fp)
  | w, [] => some w
  | w, c :: calls => (Instances.step L fuel w c).bind fun w₁ => Instances.run L fuel w₁ calls

/-- A `float` angle that is a NaN or lies in `[-M_PI, +M_PI)`. -/
def Wrapped (x : Fp) : Prop :=
  x = .nan ∨ (Fp.le (Fp.neg M_PI) x = true ∧ Fp.lt x M_PI = true)

/-- A value a `float` variable can hold: a NaN, an infinity or the rounding of a number. -/
def Fp.Rounded : Fp → Prop
  | .fin v => ∃ q, round32 q = .fin v
  | _ => True

/-- Macro `DEG2RAD(d) (((d) * M_PI) / 180.0f)`, evaluated in `double`. -/
def DEG2RAD (d : Fp) : Fp := ddiv (dmul d M_PI) (round32 180)

/-- The method `CTricycle::GetRobotContour`. No member is assigned in its body. -/
def CTricycle.GetRobotContour (L : Libm) (t : CTricycle Fp) : RobotContour Fp :=
  let fDistRearWheelFromCenter := fdiv CTricycle.m_fDistBtwRearWheels (round32 2)
  let fAngle := Fp.toFloat (dsub (DEG2RAD (round32 90)) t.m_pose.q)
  { self := t
    posFW := ⟨fadd t.m_pose.x (fmul CTricycle.m_fDistBtwFrontRear (L.cos t.m_pose.q)),
              fadd t.m_pose.y (fmul CTricycle.m_fDistBtwFrontRear (L.sin t.m_pose.q))⟩
    posLW := ⟨fsub t.m_pose.x (fmul fDistRearWheelFromCenter (L.cos fAngle)),
              fadd t.m_pose.y (fmul fDistRearWheelFromCenter (L.sin fAngle))⟩
    posRW := ⟨fadd t.m_pose.x (fmul fDistRearWheelFromCenter (L.cos fAngle)),
              fsub t.m_pose.y (fmul fDistRearWheelFromCenter (L.sin fAngle))⟩ }

/-- The two result streams of `CTestTricycle`: what has been written to each (header
lines left out) and whether `fail()` holds of it. -/
structure Streams where
  m_fsFilePose : List (PoseRow Fp)
  poseFail : Bool
  m_fsFileContour : List (ContourBlock Fp)
  contourFail : Bool

/-- The method `CTestTricycle::CreateResultFiles`: both files are opened; a file that
cannot be opened leaves its stream failed. -/
def CTestTricycle.CreateResultFiles (poseOpens contourOpens : Bool) : Streams :=
  ⟨[], !poseOpens, [], !contourOpens⟩

/-- The method `CTestTricycle::Write`: nothing is written when one of the streams has
failed; otherwise one pose row and one contour block are appended, the wheel points
taken from the singleton. -/
def CTestTricycle.Write (L : Libm) (w : Instances Fp) (f : Streams) (time : Fp)
    (pose : SPose Fp) : Streams :=
  if f.poseFail || f.contourFail then f
  else
    let c := CTricycle.GetRobotContour L w.tricycle
    { f with
      m_fsFilePose := f.m_fsFilePose ++ [⟨time, pose.x, pose.y, pose.q⟩]
      m_fsFileContour := f.m_fsFileContour ++
        [⟨⟨pose.x, pose.y⟩, c.posLW, c.posFW, c.posRW, ⟨pose.x, pose.y⟩⟩] }

/-- Body of the `for` loop of `CTestTricycle::Run` for one record: `Update`, then
`estimate` with the gyro's `GetAngVel()` as fourth argument, then `Write`. -/
def CTestTricycle.Run.body (L : Libm) (fuel : ℕ) (s : Instances Fp × Streams)
    (it : SRecord Fp) : Option (Instances Fp × Streams) :=
  (CVirtualGyro.Update L fuel s.1.gyro it.time it.steering_angle it.encoder_ticks).bind
    fun g =>
  (CTricycle.Estimate L fuel g s.1.tricycle it.time it.steering_angle it.encoder_ticks
    (CVirtualGyro.GetAngVel g)).map fun t =>
    (⟨t, g⟩, CTestTricycle.Write L ⟨t, g⟩ s.2 it.time t.m_pose)

/-- The `for` loop of `CTestTricycle::Run` over the records. -/
def CTestTricycle.Run.loop (L : Libm) (fuel : ℕ) :
    Instances Fp × Streams → List (SRecord Fp) → Option (Instances Fp × Streams)
  | s, [] => some s
  | s, it :: rest =>
      (CTestTricycle.Run.body L fuel s it).bind fun s₁ => CTestTricycle.Run.loop L fuel s₁ rest

/-- The method `CTestTricycle::Run` from the point where the records have been read:
the result files are created, the pose before any sample is written at time `0.f`,
then the loop runs over `m_vRecord`. -/
def CTestTricycle.Run (L : Libm) (fuel : ℕ) (poseOpens contourOpens : Bool)
    (w : Instances Fp) (m_vRecord : List (SRecord Fp)) : Option (Instances Fp × Streams) :=
  let f := CTestTricycle.CreateResultFiles poseOpens contourOpens
  CTestTricycle.Run.loop L fuel (w, CTestTricycle.Write L w f (round32 0) w.tricycle.m_pose)
    m_vRecord

/-- Row `row` of the pose file and polygon `blk` of the contour file belong together:
the polygon starts and ends with the `(x, y)` of the row and its wheel points are the
`GetRobotContour` of any estimator state holding the pose of the row. -/
def ContourBlock.Matches (L : Libm) (row : PoseRow Fp) (blk : ContourBlock Fp) : Prop :=
  blk.p₀ = ⟨row.x, row.y⟩ ∧ blk.p₄ = ⟨row.x, row.y⟩ ∧
    ∀ t : CTricycle Fp, t.m_pose = ⟨row.x, row.y, row.q⟩ →
      blk.p₁ = (CTricycle.GetRobotContour L t).posLW ∧
      blk.p₂ = (CTricycle.GetRobotContour L t).posFW ∧
      blk.p₃ = (CTricycle.GetRobotContour L t).posRW

/-- The two result streams are row-aligned: equally long, and the polygon at each index
matches the pose row at the same index. -/
def Streams.Aligned (L : Libm) (f : Streams) : Prop :=
  f.m_fsFilePose.length = f.m_fsFileContour.length ∧
    ∀ (i : ℕ) (row : PoseRow Fp) (blk : ContourBlock Fp),
      f.m_fsFilePose[i]? = some row → f.m_fsFileContour[i]? = some blk →
        ContourBlock.Matches L row blk

/-- One replay step on the singletons: `Update`, then `Estimate` with the updated
gyro's output as fourth argument. -/
def Instances.replayStep (L : Libm) (fuel : ℕ) (w : Instances Fp) (it : SRecord Fp) :
    Option (Instances Fp) :=
  (Instances.step L fuel w (.Update it.time it.steering_angle it.encoder_ticks)).bind
    fun w₁ => Instances.step L fuel w₁
      (.Estimate it.time it.steering_angle it.encoder_ticks (CVirtualGyro.GetAngVel w₁.gyro))

/-- The replay steps of a list of records, first to last. -/
def Instances.replay (L : Libm) (fuel : ℕ) :
    Instances Fp → List (SRecord Fp) → Option (Instances Fp)
  | w, [] => some w
  | w, it :: rest => (Instances.replayStep L fuel w it).bind fun w₁ =>
      Instances.replay L fuel w₁ rest

/-- What the first loop of `AngleClamp` or `AngleDiff` hands to the second: a NaN, the
negative infinity, or a `float` below `M_PI`. -/
def LowSide (x : Fp) : Prop :=
  x = .nan ∨ x = .inf true ∨
    ∃ v, x = .fin v ∧ Fp.Rounded (.fin v) ∧ v < 884279719003555 / 281474976710656

/-- A NaN or a `float` in `[-M_PI, +M_PI)`. -/
def InRange (r : Fp) : Prop :=
  r = .nan ∨ ∃ w, r = .fin w ∧ Fp.Rounded (.fin w) ∧
    -(884279719003555 / 281474976710656) ≤ w ∧ w < 884279719003555 / 281474976710656

/-- A run of `Estimate` calls, one per sample; a sample gives the gyro state at the time
of the call and the record, and the gyro's output is passed as fourth argument. -/
def CTricycle.EstimateEvery (L : Libm) (fuel : ℕ) :
    CTricycle Fp → List (CVirtualGyro Fp × SRecord Fp) → Option (CTricycle Fp)
  | t, [] => some t
  | t, (g, it) :: rest =>
      (CTricycle.Estimate L fuel g t it.time it.steering_angle it.encoder_ticks
        (CVirtualGyro.GetAngVel g)).bind fun t₁ => CTricycle.EstimateEvery L fuel t₁ rest

/-- The heading recurrence `q ↦ AngleClamp(q + ω * (time - prev))` along a list of
times, in `float` arithmetic. -/
def headingAfter (fuel : ℕ) (ω : Fp) : Fp → Fp → List Fp → Option Fp
  | _, q, [] => some q
  | prev, q, time :: rest =>
      (AngleClamp fuel (fadd q (fmul ω (fsub time prev)))).bind fun q₁ =>
        headingAfter fuel ω time q₁ rest

end Binary32

/-! ## The wrap loops -/

section LoopLemmas

variable {K : Type} [LinearOrderedField K] [FloorRing K]

theorem AngleClamp_loopSub_exit (N : FloatEnv K) {a : K} (h : a < N.M_PI) :
    AngleClamp.loopSub N a = a := by
  rw [AngleClamp.loopSub]
  simp [not_le.mpr h]

theorem AngleClamp_loopSub_iter (N : FloatEnv K) {a : K} (h : N.M_PI ≤ a) :
    AngleClamp.loopSub N a = AngleClamp.loopSub N (a - (N.M_PI + N.M_PI)) := by
  rw [AngleClamp.loopSub]
  simp [h]

theorem AngleClamp_loopAdd_exit (N : FloatEnv K) {a : K} (h : -N.M_PI ≤ a) :
    AngleClamp.loopAdd N a = a := by
  rw [AngleClamp.loopAdd]
  simp [not_lt.mpr h]

theorem AngleClamp_loopAdd_iter (N : FloatEnv K) {a : K} (h : a < -N.M_PI) :
    AngleClamp.loopAdd N a = AngleClamp.loopAdd N (a + (N.M_PI + N.M_PI)) := by
  rw [AngleClamp.loopAdd]
  simp [h]

theorem AngleDiff_loopSub_exit (N : FloatEnv K) {d : K} (h : d ≤ N.M_PI) :
    AngleDiff.loopSub N d = d := by
  rw [AngleDiff.loopSub]
  simp [not_lt.mpr h]

theorem AngleDiff_loopAdd_exit (N : FloatEnv K) {d : K} (h : -N.M_PI ≤ d) :
    AngleDiff.loopAdd N d = d := by
  rw [AngleDiff.loopAdd]
  simp [not_lt.mpr h]

/-- The subtracting loop of `AngleClamp` removes a whole number of turns, ends below
`M_PI`, and does not overshoot below `-M_PI` when it ran at all. -/
theorem AngleClamp_loopSub_spec (N : FloatEnv K) (a : K) :
    ∃ n : ℕ, AngleClamp.loopSub N a = a - n * (N.M_PI + N.M_PI) ∧
      AngleClamp.loopSub N a < N.M_PI ∧
      (N.M_PI ≤ a → -N.M_PI ≤ AngleClamp.loopSub N a) := by
  induction a using AngleClamp.loopSub.induct N with
  | case1 x hx ih =>
    obtain ⟨n, hn, hlt, hge⟩ := ih
    rw [AngleClamp_loopSub_iter N hx]
    refine ⟨n + 1, ?_, hlt, fun _ => ?_⟩
    · rw [hn]; push_cast; ring
    · rcases le_or_lt N.M_PI (x - (N.M_PI + N.M_PI)) with h | h
      · exact hge h
      · rw [AngleClamp_loopSub_exit N h]; linarith [ge_iff_le.mp hx]
  | case2 x hx =>
    have hx' : x < N.M_PI := not_le.mp hx
    rw [AngleClamp_loopSub_exit N hx']
    exact ⟨0, by simp, hx', fun h => absurd h hx⟩

/-- The adding loop of `AngleClamp` adds a whole number of turns, ends at or above
`-M_PI`, and does not overshoot to `M_PI` or beyond when it ran at all. -/
theorem AngleClamp_loopAdd_spec (N : FloatEnv K) (a : K) :
    ∃ n : ℕ, AngleClamp.loopAdd N a = a + n * (N.M_PI + N.M_PI) ∧
      -N.M_PI ≤ AngleClamp.loopAdd N a ∧
      (a < -N.M_PI → AngleClamp.loopAdd N a < N.M_PI) := by
  induction a using AngleClamp.loopAdd.induct N with
  | case1 x hx ih =>
    obtain ⟨n, hn, hge, hlt⟩ := ih
    rw [AngleClamp_loopAdd_iter N hx]
    refine ⟨n + 1, ?_, hge, fun _ => ?_⟩
    · rw [hn]; push_cast; ring
    · rcases lt_or_le (x + (N.M_PI + N.M_PI)) (-N.M_PI) with h | h
      · exact hlt h
      · rw [AngleClamp_loopAdd_exit N h]; linarith
  | case2 x hx =>
    have hx' : -N.M_PI ≤ x := not_lt.mp hx
    rw [AngleClamp_loopAdd_exit N hx']
    exact ⟨0, by simp, hx', fun h => absurd h hx⟩

/-- An angle already in `[-M_PI, +M_PI)` passes through `AngleClamp` unchanged. -/
theorem AngleClamp_of_mem (N : FloatEnv K) {a : K} (h₁ : -N.M_PI ≤ a) (h₂ : a < N.M_PI) :
    AngleClamp N a = a := by
  rw [AngleClamp, AngleClamp_loopSub_exit N h₂, AngleClamp_loopAdd_exit N h₁]

/-- The result of `AngleClamp` lies in `[-M_PI, +M_PI)`. -/
theorem AngleClamp_mem (N : FloatEnv K) (a : K) :
    -N.M_PI ≤ AngleClamp N a ∧ AngleClamp N a < N.M_PI := by
  obtain ⟨_, _, hlt, _⟩ := AngleClamp_loopSub_spec N a
  obtain ⟨_, _, hge, hlt'⟩ := AngleClamp_loopAdd_spec N (AngleClamp.loopSub N a)
  refine ⟨hge, ?_⟩
  rcases lt_or_le (AngleClamp.loopSub N a) (-N.M_PI) with h | h
  · exact hlt' h
  · show AngleClamp.loopAdd N (AngleClamp.loopSub N a) < N.M_PI
    rw [AngleClamp_loopAdd_exit N h]; exact hlt

end LoopLemmas

/-! ## Angle helpers: `AngleClamp`, `AngleDiff`, `almostZero` -/

section AngleClaims

variable {K : Type} [LinearOrderedField K] [FloorRing K]

/-- A difference already in `[-M_PI, +M_PI]` is returned by `AngleDiff` unchanged. -/
theorem AngleDiff_of_mem (N : FloatEnv K) {a b : K} (h₁ : -N.M_PI ≤ b - a)
    (h₂ : b - a ≤ N.M_PI) : AngleDiff N a b = b - a := by
  rw [AngleDiff, AngleDiff_loopSub_exit N h₂, AngleDiff_loopAdd_exit N h₁]

/-- Claim C7. `AngleClamp` is idempotent: clamping a clamped angle changes nothing. -/
theorem C7_AngleClamp_idempotent (N : FloatEnv K) (a : K) :
    AngleClamp N (AngleClamp N a) = AngleClamp N a :=
  AngleClamp_of_mem N (AngleClamp_mem N a).1 (AngleClamp_mem N a).2

/-- Claim C9, the code at the failing input. With the `float` epsilon `2^-23`,
`almostZero(-1)` is `true` although `|-1| < epsilon` is false. -/
theorem C9_almostZero_negative :
    almostZero (floatEnv Real.pi Real.pi_pos Real.sin Real.cos) (-1) = true ∧
      ¬ (|(-1 : ℝ)| < (floatEnv Real.pi Real.pi_pos Real.sin Real.cos).epsilon) := by
  constructor
  · simp [almostZero, floatEnv]
    norm_num
  · simp [floatEnv]
    norm_num

end AngleClaims

/-! ## The pose estimator `CTricycle::Estimate` -/

section EstimateArith

variable {K : Type} [LinearOrderedField K]

/-- The distance per tick set by the constructor is `(2 * M_PI * 0.2) / 512`. -/
theorem m_fFrontDistPerTick_eq (N : FloatEnv K) :
    CTricycle.m_fFrontDistPerTick N = (2 * N.M_PI * 0.2) / 512 := by
  simp only [CTricycle.m_fFrontDistPerTick, CTricycle.m_fFrontWheelCircum,
    CTricycle.m_fFrontWheelRadius, FRONT_WHEEL_RADIUS, CTricycle.m_nTicksPerRevolution,
    TICKS_PER_REVOLUTION]
  norm_num

end EstimateArith

section EstimateClaims

variable {K : Type} [LinearOrderedField K] [FloorRing K]

/-- Claim C2, as the code has it. The heading after `Estimate` is
`AngleClamp(heading + w * (time - fPrevTime))` where `w` is the angular velocity read
from the gyro singleton through `GetAngVel`; the fourth argument is not read, so the
result is the same for every value of it, and it agrees with the claimed formula when
the caller passes the gyro's current output. -/
theorem C2_Estimate_heading_from_gyro (N : FloatEnv K) (gyro : CVirtualGyro K)
    (t : CTricycle K) (time steering_angle : K) (encoder_ticks : ℤ) (angular_velocity : K) :
    (t.Estimate N gyro time steering_angle encoder_ticks angular_velocity).m_pose.q
        = AngleClamp N (t.m_pose.q + gyro.GetAngVel * (time - t.fPrevTime)) ∧
      (∀ other : K,
        t.Estimate N gyro time steering_angle encoder_ticks other
          = t.Estimate N gyro time steering_angle encoder_ticks angular_velocity) ∧
      (angular_velocity = gyro.GetAngVel →
        (t.Estimate N gyro time steering_angle encoder_ticks angular_velocity).m_pose.q
          = AngleClamp N (t.m_pose.q + angular_velocity * (time - t.fPrevTime))) := by
  refine ⟨rfl, fun _ => rfl, fun h => ?_⟩
  rw [h]; rfl

/-- Claim C2, counterexample. Fresh estimator and fresh gyro (angular velocity `0`),
`Estimate(1, 0, 0, 1)`: the heading stays `0`, while the claimed
`wrap(0 + 1 * (1 - 0))` is `1`. -/
theorem C2_Estimate_ignores_argument :
    (CTricycle.new.Estimate (floatEnv Real.pi Real.pi_pos Real.sin Real.cos)
        CVirtualGyro.new 1 0 0 1).m_pose.q = 0 ∧
      AngleClamp (floatEnv Real.pi Real.pi_pos Real.sin Real.cos)
        ((CTricycle.new : CTricycle ℝ).m_pose.q
          + 1 * (1 - (CTricycle.new : CTricycle ℝ).fPrevTime)) = 1 ∧
      (CTricycle.new.Estimate (floatEnv Real.pi Real.pi_pos Real.sin Real.cos)
        CVirtualGyro.new 1 0 0 1).m_pose.q
        ≠ AngleClamp (floatEnv Real.pi Real.pi_pos Real.sin Real.cos)
            ((CTricycle.new : CTricycle ℝ).m_pose.q
              + 1 * (1 - (CTricycle.new : CTricycle ℝ).fPrevTime)) := by
  have hp := Real.pi_gt_three
  have h₁ : (CTricycle.new.Estimate (floatEnv Real.pi Real.pi_pos Real.sin Real.cos)
      CVirtualGyro.new 1 0 0 1).m_pose.q = 0 := by
    simp only [CTricycle.Estimate, CTricycle.Estimate.fDiffTime, CVirtualGyro.GetAngVel,
      CVirtualGyro.new, CTricycle.new, SPose.default]
    rw [AngleClamp_of_mem] <;> simp [floatEnv, Real.pi_pos, Real.pi_pos.le]
  have h₂ : AngleClamp (floatEnv Real.pi Real.pi_pos Real.sin Real.cos)
      ((CTricycle.new : CTricycle ℝ).m_pose.q
        + 1 * (1 - (CTricycle.new : CTricycle ℝ).fPrevTime)) = 1 := by
    simp only [CTricycle.new, SPose.default]
    rw [AngleClamp_of_mem] <;> simp [floatEnv] <;> linarith
  refine ⟨h₁, h₂, ?_⟩
  rw [h₁, h₂]
  exact zero_ne_one

end EstimateClaims

/-! ## The virtual gyro `CVirtualGyro::Update` -/

section GyroClaims

variable {K : Type} [LinearOrderedField K] [FloorRing K]

end GyroClaims

/-! ## End-to-end scenario -/

section Scenario

variable {K : Type} [LinearOrderedField K] [FloorRing K]

/-- The angle `0` is left alone by `AngleClamp`. -/
theorem AngleClamp_zero (N : FloatEnv K) : AngleClamp N 0 = 0 :=
  AngleClamp_of_mem N (by linarith [N.M_PI_pos]) N.M_PI_pos

/-- The difference of an angle with itself is `0`. -/
theorem AngleDiff_self (N : FloatEnv K) (a : K) : AngleDiff N a a = 0 := by
  have hp := N.M_PI_pos
  rw [AngleDiff_of_mem] <;> simp <;> linarith

/-- When the sine of the averaged steering angle is `0`, `Update` computes a zero
`deltaAngle`: the angular velocity becomes `0` and the angle is only re-clamped. -/
theorem Update_of_sin_zero (N : FloatEnv K) (g : CVirtualGyro K) (fTime fSteerRad : K)
    (n : ℤ) (hs : N.sinf ((g.fPrevSteerRad + fSteerRad) / 2) = 0) :
    g.Update N fTime fSteerRad n = ⟨0, AngleClamp N g.m_fAngleRad, fTime, fSteerRad⟩ := by
  have hδ : CVirtualGyro.Update.fDiffAngleRad N g fSteerRad n = 0 := by
    simp [CVirtualGyro.Update.fDiffAngleRad, hs]
  simp only [CVirtualGyro.Update, hδ, add_zero, AngleDiff_self, AngleClamp_zero]
  simp

/-- Claim C13. End-to-end scenario over the reals: from the freshly constructed
singletons, replaying `(time=0, steering=0, ticks=0)` then `(time=1, steering=0,
ticks=100)` through `Update`-then-`Estimate` gives gyro angular velocity `0` after
each of the two steps and the final pose `x = 100 * (2 * π * 0.2) / 512`, `y = 0`,
`heading = 0`; that `x` lies between `0.2454` and `0.2455`. -/
theorem C13_end_to_end_scenario :
    (CTestTricycle.Run (floatEnv Real.pi Real.pi_pos Real.sin Real.cos) Instances.new
        [⟨0, 0, 0⟩]).1.gyro.GetAngVel = 0 ∧
    (CTestTricycle.Run (floatEnv Real.pi Real.pi_pos Real.sin Real.cos) Instances.new
        [⟨0, 0, 0⟩, ⟨1, 0, 100⟩]).1.gyro.GetAngVel = 0 ∧
    (CTestTricycle.Run (floatEnv Real.pi Real.pi_pos Real.sin Real.cos) Instances.new
        [⟨0, 0, 0⟩, ⟨1, 0, 100⟩]).1.tricycle.m_pose
      = ⟨100 * ((2 * Real.pi * 0.2) / 512), 0, 0⟩ ∧
    (0.2454 : ℝ) < 100 * ((2 * Real.pi * 0.2) / 512) ∧
    100 * ((2 * Real.pi * 0.2) / 512) < (0.2455 : ℝ) := by
  have hz : almostZero (floatEnv Real.pi Real.pi_pos Real.sin Real.cos) (1 - 0) = false := by
    simp [almostZero, floatEnv]; norm_num
  have hz0 : almostZero (floatEnv Real.pi Real.pi_pos Real.sin Real.cos) (0 - 0) = true := by
    simp [almostZero, floatEnv]
  have hc := AngleClamp_zero (floatEnv Real.pi Real.pi_pos Real.sin Real.cos)
  have hU₁ : (⟨0, 0, 0, 0⟩ : CVirtualGyro ℝ).Update
      (floatEnv Real.pi Real.pi_pos Real.sin Real.cos) 0 0 0 = ⟨0, 0, 0, 0⟩ := by
    rw [Update_of_sin_zero _ _ _ _ _ (by simp [floatEnv]), hc]
  have hU₂ : (⟨0, 0, 0, 0⟩ : CVirtualGyro ℝ).Update
      (floatEnv Real.pi Real.pi_pos Real.sin Real.cos) 1 0 100 = ⟨0, 0, 1, 0⟩ := by
    rw [Update_of_sin_zero _ _ _ _ _ (by simp [floatEnv]), hc]
  have h₁ := Real.pi_gt_d6
  have h₂ := Real.pi_lt_d6
  refine ⟨?_, ?_, ?_, by linarith, by linarith⟩
  · simp only [CTestTricycle.Run, List.foldl, CTestTricycle.Run.body, estimate, Instances.new,
      CVirtualGyro.new, hU₁, CVirtualGyro.GetAngVel]
  · simp only [CTestTricycle.Run, List.foldl, CTestTricycle.Run.body, estimate, Instances.new,
      CVirtualGyro.new, hU₁, hU₂, CVirtualGyro.GetAngVel]
  · simp only [CTestTricycle.Run, List.foldl, CTestTricycle.Run.body, estimate, Instances.new,
      CVirtualGyro.new, CTricycle.new, SPose.default, CTricycle.GetRobotPose, hU₁, hU₂,
      CVirtualGyro.GetAngVel, CTricycle.Estimate,
      CTricycle.Estimate.fFrontWheelVel, CTricycle.Estimate.fDiffTime,
      CTricycle.Estimate.fFrontWheelDist, hz, hz0, m_fFrontDistPerTick_eq, zero_mul,
      add_zero, hc]
    simp [floatEnv]

end Scenario

/-! ## The robot contour `CTricycle::GetRobotContour` and `Dist2Ticks` -/

section ContourClaims

end ContourClaims

section TicksClaims

variable {K : Type} [LinearOrderedField K] [FloorRing K]

/-- Claim C16, as the code has it. When the product `distance * 512` truncates into the
range of `int`, `Dist2Ticks(distance, timeGap)` is that product truncated toward zero:
its floor when the distance is not negative and its ceiling when the distance is
negative; the result does not depend on `timeGap`. -/
theorem C16_Dist2Ticks_truncates (fDist fTimeGap : K) :
    (0 ≤ fDist → fDist * 512 < 2147483648 →
        CTricycle.Dist2Ticks fDist fTimeGap = some ⌊fDist * 512⌋) ∧
      (fDist < 0 → -2147483649 < fDist * 512 →
        CTricycle.Dist2Ticks fDist fTimeGap = some ⌈fDist * 512⌉) ∧
      (∀ other : K, CTricycle.Dist2Ticks fDist other = CTricycle.Dist2Ticks fDist fTimeGap) := by
  have hc : ((TICKS_PER_REVOLUTION : ℤ) : K) = 512 := by
    simp [TICKS_PER_REVOLUTION]
  refine ⟨fun h₀ hlt => ?_, fun h₀ hgt => ?_, fun _ => rfl⟩
  · have hv : (0 : K) ≤ fDist * 512 := by positivity
    have h₁ : (0 : ℤ) ≤ ⌊fDist * 512⌋ := Int.floor_nonneg.mpr hv
    have h₂ : ⌊fDist * 512⌋ < 2147483648 := by
      have : ((⌊fDist * 512⌋ : ℤ) : K) < ((2147483648 : ℤ) : K) := by
        push_cast; exact lt_of_le_of_lt (Int.floor_le _) hlt
      exact_mod_cast this
    simp only [CTricycle.Dist2Ticks, floatToInt, hc, hv, if_true]
    rw [if_pos ⟨by omega, by omega⟩]
  · have hv : ¬ (0 : K) ≤ fDist * 512 := by
      rw [not_le]; exact mul_neg_of_neg_of_pos h₀ (by norm_num)
    have h₁ : ⌈fDist * 512⌉ ≤ 0 := by
      rw [Int.ceil_le]; push_cast; exact le_of_lt (not_le.mp hv)
    have h₂ : -2147483649 < ⌈fDist * 512⌉ := by
      have : ((-2147483649 : ℤ) : K) < ((⌈fDist * 512⌉ : ℤ) : K) := by
        push_cast; exact lt_of_lt_of_le hgt (Int.le_ceil _)
      exact_mod_cast this
    simp only [CTricycle.Dist2Ticks, floatToInt, hc, hv, if_false]
    rw [if_pos ⟨by omega, by omega⟩]

/-- Claim C16, counterexample. `Dist2Ticks(-1/1024, 1)`: the product is `-0.5`, the
code returns `0`, and the floor of the product is `-1`. -/
theorem C16_Dist2Ticks_negative :
    CTricycle.Dist2Ticks (-1 / 1024 : ℚ) 1 = some 0 ∧
      ⌊(-1 / 1024 : ℚ) * 512⌋ = -1 ∧
      CTricycle.Dist2Ticks (-1 / 1024 : ℚ) 1 ≠ some ⌊(-1 / 1024 : ℚ) * 512⌋ := by
  have hv : (-1 / 1024 : ℚ) * 512 = -1 / 2 := by norm_num
  have hf : ⌊(-1 / 2 : ℚ)⌋ = -1 := by
    rw [Int.floor_eq_iff]; norm_num
  have hc : ⌈(-1 / 2 : ℚ)⌉ = 0 := by
    rw [Int.ceil_eq_iff]; norm_num
  have hd : CTricycle.Dist2Ticks (-1 / 1024 : ℚ) 1 = some 0 := by
    have hn : ¬ (0 : ℚ) ≤ -1 / 2 := by norm_num
    have ht : ((TICKS_PER_REVOLUTION : ℤ) : ℚ) = 512 := by simp [TICKS_PER_REVOLUTION]
    simp only [CTricycle.Dist2Ticks, floatToInt, ht, hv, hn, if_false, hc]
    rfl
  refine ⟨hd, by rw [hv, hf], ?_⟩
  rw [hd, hv, hf]
  decide

end TicksClaims

/-! ## Reading the input file -/

section InputClaims

/-- Claim C17, the code at the failing input. On the three lines `0,0,0`, an empty
line, `1,0,100`, the call `str.at(0)` on the empty line throws `std::out_of_range` and
`ReadInputFile` does not return, whatever `atof` and `atoi` compute. -/
theorem C17_ReadInputFile_empty_line {K : Type} (atof : List Char → K)
    (atoi : List Char → ℤ) :
    CTestTricycle.ReadInputFile atof atoi
        [['0', ',', '0', ',', '0'], [], ['1', ',', '0', ',', '1', '0', '0']]
      = Except.error Thrown.out_of_range := by
  simp [CTestTricycle.ReadInputFile, CTestTricycle.ReadInputFile.body, List.foldlM,
    bind, Except.bind]

end InputClaims

/-! ## The `float` reading: rounding, the wrap loops, `Estimate`, `Update`, `Run` -/

namespace Binary32

/-! ## Rounding -/

theorem roundHalfEven_of_close (m : ℚ) (n : ℤ) (h : |m - n| < 1 / 2) :
    roundHalfEven m = n := by
  rw [abs_lt] at h
  obtain ⟨h₁, h₂⟩ := h
  rcases le_or_lt (n : ℚ) m with hm | hm
  · have hf : ⌊m⌋ = n := by
      rw [Int.floor_eq_iff]; constructor <;> linarith
    simp only [roundHalfEven, hf]
    rw [if_pos (by linarith)]
  · have hf : ⌊m⌋ = n - 1 := by
      rw [Int.floor_eq_iff]; push_cast; constructor <;> linarith
    simp only [roundHalfEven, hf]
    push_cast
    rw [if_neg (by linarith), if_pos (by linarith)]
    ring

theorem roundHalfEven_mem (m : ℚ) : roundHalfEven m = ⌊m⌋ ∨ roundHalfEven m = ⌊m⌋ + 1 := by
  unfold roundHalfEven
  split_ifs <;> simp

theorem roundHalfEven_le (m : ℚ) (n : ℤ) (h : m ≤ n) : roundHalfEven m ≤ n := by
  have hf : ⌊m⌋ ≤ n := Int.floor_le_iff.mpr (lt_of_le_of_lt h (by simp))
  rcases lt_or_eq_of_le hf with hlt | heq
  · rcases roundHalfEven_mem m with h | h <;> omega
  · have hm : m = n := le_antisymm h (by rw [← heq]; exact Int.floor_le m)
    rw [hm]
    exact le_of_eq (roundHalfEven_of_close _ n (by simp))

theorem le_roundHalfEven (m : ℚ) (n : ℤ) (h : (n : ℚ) ≤ m) : n ≤ roundHalfEven m := by
  have hf : n ≤ ⌊m⌋ := Int.le_floor.mpr h
  rcases roundHalfEven_mem m with h | h <;> omega

theorem ulp_pos (p : ℕ) (emin : ℤ) (q : ℚ) : 0 < ulp p emin q := by
  unfold ulp; positivity

theorem ulp_eq (p : ℕ) (emin : ℤ) (q : ℚ) (e : ℤ) (he : emin ≤ e)
    (h₁ : (2 : ℚ) ^ e ≤ |q|) (h₂ : |q| < (2 : ℚ) ^ (e + 1)) :
    ulp p emin q = 2 ^ (e - ((p : ℤ) - 1)) := by
  have hpos : (0 : ℚ) < |q| := lt_of_lt_of_le (by positivity) h₁
  have hl : Int.log 2 |q| = e := by
    apply le_antisymm
    · have := (Int.lt_zpow_iff_log_lt (b := 2) (by norm_num) hpos).mp (by exact_mod_cast h₂)
      omega
    · exact (Int.zpow_le_iff_le_log (b := 2) (by norm_num) hpos).mp (by exact_mod_cast h₁)
  rw [ulp, hl, max_eq_left he]

/-- Evaluation of a rounding at a number with exponent `e`, to the significand `n`. -/
theorem roundTo_eq_of (p : ℕ) (emin emax : ℤ) (q : ℚ) (e n : ℤ) (he : emin ≤ e)
    (h₀ : |q| < (2 : ℚ) ^ emax * (2 - 2 ^ (-(p : ℤ))))
    (h₁ : (2 : ℚ) ^ e ≤ |q|) (h₂ : |q| < (2 : ℚ) ^ (e + 1))
    (h₃ : |q / 2 ^ (e - ((p : ℤ) - 1)) - n| < 1 / 2) :
    roundTo p emin emax q = .fin (n * 2 ^ (e - ((p : ℤ) - 1))) := by
  rw [roundTo, if_neg (not_le.mpr h₀), ulp_eq p emin q e he h₁ h₂,
    roundHalfEven_of_close _ n h₃]

theorem roundHalfEven_of_tie (m : ℚ) (n : ℤ) (hn : n % 2 = 0) (h : |m - n| = 1 / 2) :
    roundHalfEven m = n := by
  rcases abs_eq (by norm_num : (0 : ℚ) ≤ 1 / 2) |>.mp h with h' | h'
  · have hf : ⌊m⌋ = n := by
      rw [Int.floor_eq_iff]; constructor <;> linarith
    simp only [roundHalfEven, hf]
    rw [if_neg (by linarith), if_neg (by linarith), if_pos hn]
  · have hf : ⌊m⌋ = n - 1 := by
      rw [Int.floor_eq_iff]; push_cast; constructor <;> linarith
    simp only [roundHalfEven, hf]
    push_cast
    rw [if_neg (by linarith), if_neg (by linarith), if_neg (by omega)]
    ring

/-- Evaluation of a rounding at a tie: the even significand `n` is taken. -/
theorem roundTo_eq_of_tie (p : ℕ) (emin emax : ℤ) (q : ℚ) (e n : ℤ) (he : emin ≤ e)
    (h₀ : |q| < (2 : ℚ) ^ emax * (2 - 2 ^ (-(p : ℤ))))
    (h₁ : (2 : ℚ) ^ e ≤ |q|) (h₂ : |q| < (2 : ℚ) ^ (e + 1)) (hn : n % 2 = 0)
    (h₃ : |q / 2 ^ (e - ((p : ℤ) - 1)) - n| = 1 / 2) :
    roundTo p emin emax q = .fin (n * 2 ^ (e - ((p : ℤ) - 1))) := by
  rw [roundTo, if_neg (not_le.mpr h₀), ulp_eq p emin q e he h₁ h₂,
    roundHalfEven_of_tie _ n hn h₃]

theorem roundHalfEven_zero : roundHalfEven 0 = 0 := by
  have := roundHalfEven_of_close 0 0 (by norm_num)
  simpa using this

theorem round32_zero : round32 0 = .fin 0 := by
  simp [round32, roundTo, roundHalfEven_zero]
  norm_num

/-- A magnitude past the overflow threshold rounds to an infinity. -/
theorem round32_overflow (q : ℚ) (h : (2 : ℚ) ^ (128 : ℤ) ≤ |q|) :
    round32 q = .inf (decide (q < 0)) := by
  rw [round32, roundTo, if_pos]
  refine le_trans ?_ h
  norm_num

/-! ## Roundings of the constants -/

theorem round32_one :
    round32 (1) = .fin 1 := by
  have h := roundTo_eq_of 24 (-126) 127 (1) (0) (8388608)
    (by norm_num) (by norm_num [abs_of_pos, abs_of_neg]) (by norm_num [abs_of_pos, abs_of_neg])
    (by norm_num [abs_of_pos, abs_of_neg]) (by norm_num [abs_lt])
  rw [round32, h]; norm_num

theorem round32_two :
    round32 (2) = .fin 2 := by
  have h := roundTo_eq_of 24 (-126) 127 (2) (1) (8388608)
    (by norm_num) (by norm_num [abs_of_pos, abs_of_neg]) (by norm_num [abs_of_pos, abs_of_neg])
    (by norm_num [abs_of_pos, abs_of_neg]) (by norm_num [abs_lt])
  rw [round32, h]; norm_num

theorem round32_fiveTwelve :
    round32 (512) = .fin 512 := by
  have h := roundTo_eq_of 24 (-126) 127 (512) (9) (8388608)
    (by norm_num) (by norm_num [abs_of_pos, abs_of_neg]) (by norm_num [abs_of_pos, abs_of_neg])
    (by norm_num [abs_of_pos, abs_of_neg]) (by norm_num [abs_lt])
  rw [round32, h]; norm_num

/-- The literal `0.2f` is `0x1.99999ap-3`. -/
theorem round32_radius :
    round32 (2 / 10) = .fin (13421773 / 67108864) := by
  have h := roundTo_eq_of 24 (-126) 127 (2 / 10) (-3) (13421773)
    (by norm_num) (by norm_num [abs_of_pos, abs_of_neg]) (by norm_num [abs_of_pos, abs_of_neg])
    (by norm_num [abs_of_pos, abs_of_neg]) (by norm_num [abs_lt])
  rw [round32, h]; norm_num

theorem round64_twoPi :
    round64 ((884279719003555 / 140737488355328)) = .fin (884279719003555 / 140737488355328) := by
  have h := roundTo_eq_of 53 (-1022) 1023 ((884279719003555 / 140737488355328)) (2) (7074237752028440)
    (by norm_num) (by norm_num [abs_of_pos, abs_of_neg]) (by norm_num [abs_of_pos, abs_of_neg])
    (by norm_num [abs_of_pos, abs_of_neg]) (by norm_num [abs_lt])
  rw [round64, h]; norm_num

theorem round64_circum :
    round64 ((11868601656969501403015 / 9444732965739290427392)) = .fin (2829695142977119 / 2251799813685248) := by
  have h := roundTo_eq_of 53 (-1022) 1023 ((11868601656969501403015 / 9444732965739290427392)) (0) (5659390285954238)
    (by norm_num) (by norm_num [abs_of_pos, abs_of_neg]) (by norm_num [abs_of_pos, abs_of_neg])
    (by norm_num [abs_of_pos, abs_of_neg]) (by norm_num [abs_lt])
  rw [round64, h]; norm_num

theorem round32_circum :
    round32 ((2829695142977119 / 2251799813685248)) = .fin (2635359 / 2097152) := by
  have h := roundTo_eq_of 24 (-126) 127 ((2829695142977119 / 2251799813685248)) (0) (10541436)
    (by norm_num) (by norm_num [abs_of_pos, abs_of_neg]) (by norm_num [abs_of_pos, abs_of_neg])
    (by norm_num [abs_of_pos, abs_of_neg]) (by norm_num [abs_lt])
  rw [round32, h]; norm_num

theorem round32_distPerTick :
    round32 ((2635359 / 1073741824)) = .fin (2635359 / 1073741824) := by
  have h := roundTo_eq_of 24 (-126) 127 ((2635359 / 1073741824)) (-9) (10541436)
    (by norm_num) (by norm_num [abs_of_pos, abs_of_neg]) (by norm_num [abs_of_pos, abs_of_neg])
    (by norm_num [abs_of_pos, abs_of_neg]) (by norm_num [abs_lt])
  rw [round32, h]; norm_num

theorem round64_hang :
    round64 ((18889467298998675536477 / 140737488355328)) = .fin (2251799976706347 / 16777216) := by
  have h := roundTo_eq_of 53 (-1022) 1023 ((18889467298998675536477 / 140737488355328)) (27) (4503599953412694)
    (by norm_num) (by norm_num [abs_of_pos, abs_of_neg]) (by norm_num [abs_of_pos, abs_of_neg])
    (by norm_num [abs_of_pos, abs_of_neg]) (by norm_num [abs_lt])
  rw [round64, h]; norm_num

theorem round32_hang :
    round32 ((2251799976706347 / 16777216)) = .fin 134217744 := by
  have h := roundTo_eq_of 24 (-126) 127 ((2251799976706347 / 16777216)) (27) (8388609)
    (by norm_num) (by norm_num [abs_of_pos, abs_of_neg]) (by norm_num [abs_of_pos, abs_of_neg])
    (by norm_num [abs_of_pos, abs_of_neg]) (by norm_num [abs_lt])
  rw [round32, h]; norm_num

theorem round64_four :
    round64 ((-(321329765582243 / 140737488355328))) = .fin (-(321329765582243 / 140737488355328)) := by
  have h := roundTo_eq_of 53 (-1022) 1023 ((-(321329765582243 / 140737488355328))) (1) (-5141276249315888)
    (by norm_num) (by norm_num [abs_of_pos, abs_of_neg]) (by norm_num [abs_of_pos, abs_of_neg])
    (by norm_num [abs_of_pos, abs_of_neg]) (by norm_num [abs_lt])
  rw [round64, h]; norm_num

theorem round32_four :
    round32 ((-(321329765582243 / 140737488355328))) = .fin (-(9576373 / 4194304)) := by
  have h := roundTo_eq_of 24 (-126) 127 ((-(321329765582243 / 140737488355328))) (1) (-9576373)
    (by norm_num) (by norm_num [abs_of_pos, abs_of_neg]) (by norm_num [abs_of_pos, abs_of_neg])
    (by norm_num [abs_of_pos, abs_of_neg]) (by norm_num [abs_lt])
  rw [round32, h]; norm_num

theorem round32_big :
    round32 (170141183460469231731687303715884105728) = .fin 170141183460469231731687303715884105728 := by
  have h := roundTo_eq_of 24 (-126) 127 (170141183460469231731687303715884105728) (127) (8388608)
    (by norm_num) (by norm_num [abs_of_pos, abs_of_neg]) (by norm_num [abs_of_pos, abs_of_neg])
    (by norm_num [abs_of_pos, abs_of_neg]) (by norm_num [abs_lt])
  rw [round32, h]; norm_num

theorem round32_negBig :
    round32 ((-170141183460469231731687303715884105728)) = .fin (-170141183460469231731687303715884105728) := by
  have h := roundTo_eq_of 24 (-126) 127 ((-170141183460469231731687303715884105728)) (127) (-8388608)
    (by norm_num) (by norm_num [abs_of_pos, abs_of_neg]) (by norm_num [abs_of_pos, abs_of_neg])
    (by norm_num [abs_of_pos, abs_of_neg]) (by norm_num [abs_lt])
  rw [round32, h]; norm_num

theorem round32_hangInput :
    round32 (134217744) = .fin 134217744 := by
  have h := roundTo_eq_of 24 (-126) 127 (134217744) (27) (8388609)
    (by norm_num) (by norm_num [abs_of_pos, abs_of_neg]) (by norm_num [abs_of_pos, abs_of_neg])
    (by norm_num [abs_of_pos, abs_of_neg]) (by norm_num [abs_lt])
  rw [round32, h]; norm_num

theorem round32_fourSelf :
    round32 (4) = .fin 4 := by
  have h := roundTo_eq_of 24 (-126) 127 (4) (2) (8388608)
    (by norm_num) (by norm_num [abs_of_pos, abs_of_neg]) (by norm_num [abs_of_pos, abs_of_neg])
    (by norm_num [abs_of_pos, abs_of_neg]) (by norm_num [abs_lt])
  rw [round32, h]; norm_num

theorem round32_negOne :
    round32 ((-1)) = .fin (-1) := by
  have h := roundTo_eq_of 24 (-126) 127 ((-1)) (0) (-8388608)
    (by norm_num) (by norm_num [abs_of_pos, abs_of_neg]) (by norm_num [abs_of_pos, abs_of_neg])
    (by norm_num [abs_of_pos, abs_of_neg]) (by norm_num [abs_lt])
  rw [round32, h]; norm_num

/-- The product `100 * m_fFrontDistPerTick` is `0x1.f6a7a4p-3`, about `0.24543694`. -/
theorem round32_hundredTicks :
    round32 ((65883975 / 268435456)) = .fin (8235497 / 33554432) := by
  have h := roundTo_eq_of 24 (-126) 127 ((65883975 / 268435456)) (-3) (16470994)
    (by norm_num) (by norm_num [abs_of_pos, abs_of_neg]) (by norm_num [abs_of_pos, abs_of_neg])
    (by norm_num [abs_of_pos, abs_of_neg]) (by norm_num [abs_lt])
  rw [round32, h]; norm_num

theorem round32_twoTicks :
    round32 ((2635359 / 536870912)) = .fin (2635359 / 536870912) := by
  have h := roundTo_eq_of 24 (-126) 127 ((2635359 / 536870912)) (-8) (10541436)
    (by norm_num) (by norm_num [abs_of_pos, abs_of_neg]) (by norm_num [abs_of_pos, abs_of_neg])
    (by norm_num [abs_of_pos, abs_of_neg]) (by norm_num [abs_lt])
  rw [round32, h]; norm_num

theorem round32_negDistPerTick :
    round32 ((-(2635359 / 1073741824))) = .fin (-(2635359 / 1073741824)) := by
  have h := roundTo_eq_of 24 (-126) 127 ((-(2635359 / 1073741824))) (-9) (-10541436)
    (by norm_num) (by norm_num [abs_of_pos, abs_of_neg]) (by norm_num [abs_of_pos, abs_of_neg])
    (by norm_num [abs_of_pos, abs_of_neg]) (by norm_num [abs_lt])
  rw [round32, h]; norm_num

theorem round32_piFloat :
    round32 ((13176795 / 4194304)) = .fin (13176795 / 4194304) := by
  have h := roundTo_eq_of 24 (-126) 127 ((13176795 / 4194304)) (1) (13176795)
    (by norm_num) (by norm_num [abs_of_pos, abs_of_neg]) (by norm_num [abs_of_pos, abs_of_neg])
    (by norm_num [abs_of_pos, abs_of_neg]) (by norm_num [abs_lt])
  rw [round32, h]; norm_num

theorem round32_halfPiFloat :
    round32 ((13176795 / 8388608)) = .fin (13176795 / 8388608) := by
  have h := roundTo_eq_of 24 (-126) 127 ((13176795 / 8388608)) (0) (13176795)
    (by norm_num) (by norm_num [abs_of_pos, abs_of_neg]) (by norm_num [abs_of_pos, abs_of_neg])
    (by norm_num [abs_of_pos, abs_of_neg]) (by norm_num [abs_lt])
  rw [round32, h]; norm_num

theorem round32_hundred :
    round32 (100) = .fin 100 := by
  have h := roundTo_eq_of 24 (-126) 127 (100) (6) (13107200)
    (by norm_num) (by norm_num [abs_of_pos, abs_of_neg]) (by norm_num [abs_of_pos, abs_of_neg])
    (by norm_num [abs_of_pos, abs_of_neg]) (by norm_num [abs_lt])
  rw [round32, h]; norm_num

theorem round32_three :
    round32 (3) = .fin 3 := by
  have h := roundTo_eq_of 24 (-126) 127 (3) (1) (12582912)
    (by norm_num) (by norm_num [abs_of_pos, abs_of_neg]) (by norm_num [abs_of_pos, abs_of_neg])
    (by norm_num [abs_of_pos, abs_of_neg]) (by norm_num [abs_lt])
  rw [round32, h]; norm_num

theorem round32_secondStep :
    round32 ((7200843 / 4194304)) = .fin (7200843 / 4194304) := by
  have h := roundTo_eq_of 24 (-126) 127 ((7200843 / 4194304)) (0) (14401686)
    (by norm_num) (by norm_num [abs_of_pos, abs_of_neg]) (by norm_num [abs_of_pos, abs_of_neg])
    (by norm_num [abs_of_pos, abs_of_neg]) (by norm_num [abs_lt])
  rw [round32, h]; norm_num

theorem round64_eight :
    round64 ((241620187839069 / 140737488355328)) = .fin (241620187839069 / 140737488355328) := by
  have h := roundTo_eq_of 53 (-1022) 1023 ((241620187839069 / 140737488355328)) (0) (7731846010850208)
    (by norm_num) (by norm_num [abs_of_pos, abs_of_neg]) (by norm_num [abs_of_pos, abs_of_neg])
    (by norm_num [abs_of_pos, abs_of_neg]) (by norm_num [abs_lt])
  rw [round64, h]; norm_num

theorem round32_eight :
    round32 ((241620187839069 / 140737488355328)) = .fin (14401685 / 8388608) := by
  have h := roundTo_eq_of 24 (-126) 127 ((241620187839069 / 140737488355328)) (0) (14401685)
    (by norm_num) (by norm_num [abs_of_pos, abs_of_neg]) (by norm_num [abs_of_pos, abs_of_neg])
    (by norm_num [abs_of_pos, abs_of_neg]) (by norm_num [abs_lt])
  rw [round32, h]; norm_num

theorem round32_half :
    round32 ((1 / 2)) = .fin (1 / 2) := by
  have h := roundTo_eq_of 24 (-126) 127 ((1 / 2)) (-1) (8388608)
    (by norm_num) (by norm_num [abs_of_pos, abs_of_neg]) (by norm_num [abs_of_pos, abs_of_neg])
    (by norm_num [abs_of_pos, abs_of_neg]) (by norm_num [abs_lt])
  rw [round32, h]; norm_num

theorem round32_halfHundredTicks :
    round32 ((8235497 / 67108864)) = .fin (8235497 / 67108864) := by
  have h := roundTo_eq_of 24 (-126) 127 ((8235497 / 67108864)) (-4) (16470994)
    (by norm_num) (by norm_num [abs_of_pos, abs_of_neg]) (by norm_num [abs_of_pos, abs_of_neg])
    (by norm_num [abs_of_pos, abs_of_neg]) (by norm_num [abs_lt])
  rw [round32, h]; norm_num

/-- The angle step of the record `(3, 1, 100)`: `0x1.e1f89ep-5`. -/
theorem round32_delta :
    round32 ((33120805346361 / 562949953421312)) = .fin (15793231 / 268435456) := by
  have h := roundTo_eq_of 24 (-126) 127 ((33120805346361 / 562949953421312)) (-5) (15793231)
    (by norm_num) (by norm_num [abs_of_pos, abs_of_neg]) (by norm_num [abs_of_pos, abs_of_neg])
    (by norm_num [abs_of_pos, abs_of_neg]) (by norm_num [abs_lt])
  rw [round32, h]; norm_num

theorem round32_deltaSelf :
    round32 ((15793231 / 268435456)) = .fin (15793231 / 268435456) := by
  have h := roundTo_eq_of 24 (-126) 127 ((15793231 / 268435456)) (-5) (15793231)
    (by norm_num) (by norm_num [abs_of_pos, abs_of_neg]) (by norm_num [abs_of_pos, abs_of_neg])
    (by norm_num [abs_of_pos, abs_of_neg]) (by norm_num [abs_lt])
  rw [round32, h]; norm_num

/-- The angular velocity of the record `(3, 1, 100)`: `0x1.41506ap-6`. -/
theorem round32_angVel :
    round32 ((15793231 / 805306368)) = .fin (10528821 / 536870912) := by
  have h := roundTo_eq_of 24 (-126) 127 ((15793231 / 805306368)) (-6) (10528821)
    (by norm_num) (by norm_num [abs_of_pos, abs_of_neg]) (by norm_num [abs_of_pos, abs_of_neg])
    (by norm_num [abs_of_pos, abs_of_neg]) (by norm_num [abs_lt])
  rw [round32, h]; norm_num

/-- The heading step of the record `(3, 1, 100)`, a tie: `0x1.e1f8a0p-5`. -/
theorem round32_headingStep :
    round32 ((31586463 / 536870912)) = .fin (987077 / 16777216) := by
  have h := roundTo_eq_of_tie 24 (-126) 127 ((31586463 / 536870912)) (-5) (15793232)
    (by norm_num) (by norm_num [abs_of_pos, abs_of_neg]) (by norm_num [abs_of_pos, abs_of_neg])
    (by norm_num [abs_of_pos, abs_of_neg]) (by norm_num) (by norm_num [abs_of_pos, abs_of_neg])
  rw [round32, h]; norm_num

theorem round32_headingSelf :
    round32 ((987077 / 16777216)) = .fin (987077 / 16777216) := by
  have h := roundTo_eq_of 24 (-126) 127 ((987077 / 16777216)) (-5) (15793232)
    (by norm_num) (by norm_num [abs_of_pos, abs_of_neg]) (by norm_num [abs_of_pos, abs_of_neg])
    (by norm_num [abs_of_pos, abs_of_neg]) (by norm_num [abs_lt])
  rw [round32, h]; norm_num

/-! ## The operations on finite operands -/

@[simp] theorem fadd_fin (a b : ℚ) : fadd (.fin a) (.fin b) = round32 (a + b) := rfl

@[simp] theorem fsub_fin (a b : ℚ) : fsub (.fin a) (.fin b) = round32 (a + -b) := rfl

@[simp] theorem fmul_fin (a b : ℚ) : fmul (.fin a) (.fin b) = round32 (a * b) := rfl

theorem fdiv_fin (a b : ℚ) (hb : b ≠ 0) : fdiv (.fin a) (.fin b) = round32 (a / b) := by
  simp [fdiv, Fp.div, hb]

@[simp] theorem dadd_fin (a b : ℚ) : dadd (.fin a) (.fin b) = round64 (a + b) := rfl

@[simp] theorem dsub_fin (a b : ℚ) : dsub (.fin a) (.fin b) = round64 (a + -b) := rfl

@[simp] theorem dmul_fin (a b : ℚ) : dmul (.fin a) (.fin b) = round64 (a * b) := rfl

@[simp] theorem toFloat_fin (v : ℚ) : Fp.toFloat (.fin v) = round32 v := rfl

/-- The `double` sum `M_PI + M_PI` is exact. -/
theorem dadd_M_PI : dadd M_PI M_PI = .fin (884279719003555 / 140737488355328) := by
  rw [M_PI, dadd_fin]
  norm_num [round64_twoPi]

/-- One pass of a subtracting loop body on a finite value. -/
theorem subTurn_fin (v : ℚ) :
    Fp.toFloat (dsub (.fin v) (dadd M_PI M_PI))
      = Fp.toFloat (round64 (v - 884279719003555 / 140737488355328)) := by
  rw [dadd_M_PI, dsub_fin, sub_eq_add_neg]

/-- One pass of an adding loop body on a finite value. -/
theorem addTurn_fin (v : ℚ) :
    Fp.toFloat (dadd (.fin v) (dadd M_PI M_PI))
      = Fp.toFloat (round64 (v + 884279719003555 / 140737488355328)) := by
  rw [dadd_M_PI, dadd_fin]

/-- The constructor's `m_fFrontDistPerTick` is `0x1.41b2f8p-9`, about `0.0024543693`. -/
theorem m_fFrontDistPerTick_val :
    CTricycle.m_fFrontDistPerTick = .fin (2635359 / 1073741824) := by
  simp only [CTricycle.m_fFrontDistPerTick, CTricycle.m_fFrontWheelCircum,
    CTricycle.m_fFrontWheelRadius, FRONT_WHEEL_RADIUS, CTricycle.m_nTicksPerRevolution,
    TICKS_PER_REVOLUTION, ofInt, M_PI, round32_two, round32_radius, dmul_fin]
  norm_num [round64_twoPi, round64_circum, round32_circum, round32_fiveTwelve, fdiv_fin,
    round32_distPerTick]

/-! ## The loops on a value inside the interval -/

theorem AngleClamp_float_of_mem (fuel : ℕ) (x : Fp) (h₁ : Fp.le M_PI x = false)
    (h₂ : Fp.lt x (Fp.neg M_PI) = false) : AngleClamp (fuel + 1) x = some x := by
  simp [AngleClamp, AngleClamp.loopSub, AngleClamp.loopAdd, h₁, h₂]

theorem AngleDiff_float_of_mem (fuel : ℕ) (a b : Fp) (h₁ : Fp.lt M_PI (fsub b a) = false)
    (h₂ : Fp.lt (fsub b a) (Fp.neg M_PI) = false) :
    AngleDiff (fuel + 1) a b = some (fsub b a) := by
  simp [AngleDiff, AngleDiff.loopSub, AngleDiff.loopAdd, h₁, h₂]

/-! ## The subtracting loop of `AngleClamp` at `2^27 + 16` -/

theorem AngleClamp_loopSub_hang (fuel : ℕ) :
    AngleClamp.loopSub fuel (.fin 134217744) = none := by
  induction fuel with
  | zero => rfl
  | succ n ih =>
    have hle : Fp.le M_PI (.fin 134217744) = true := by
      simp only [M_PI, Fp.le]; norm_num
    have hstep : Fp.toFloat (dsub (.fin 134217744) (dadd M_PI M_PI)) = .fin 134217744 := by
      rw [subTurn_fin]
      norm_num [round64_hang, round32_hang]
    rw [AngleClamp.loopSub, if_pos hle, hstep, ih]

/-! ## Bounds on a rounding -/

/-- A number lies below the next power of two above its exponent. -/
theorem abs_lt_zpow_exponent (emin : ℤ) (q : ℚ) :
    |q| < (2 : ℚ) ^ (max (Int.log 2 |q|) emin + 1) := by
  have h₁ : |q| < (2 : ℚ) ^ (Int.log 2 |q| + 1) := by
    have := Int.lt_zpow_succ_log_self (b := 2) (by norm_num) |q|
    exact_mod_cast this
  refine lt_of_lt_of_le h₁ (zpow_le_zpow_right₀ (by norm_num) ?_)
  have := le_max_left (Int.log 2 |q|) emin
  omega

/-- The exponent of a positive number below `2^(e+1)` is at most `e`. -/
theorem exponent_le (emin e : ℤ) (q : ℚ) (hq : 0 < q) (he : emin ≤ e)
    (h : q < (2 : ℚ) ^ (e + 1)) : max (Int.log 2 |q|) emin ≤ e := by
  apply max_le _ he
  have hpos : (0 : ℚ) < |q| := abs_pos.mpr hq.ne'
  have := (Int.lt_zpow_iff_log_lt (b := 2) (by norm_num) hpos).mp
    (by rw [abs_of_pos hq]; exact_mod_cast h)
  omega

/-- A rounding does not pass a number of the format that lies above its argument: for
`f = n * 2^(e - (p - 1))` with `0 ≤ f < 2^(e+1)`, `q ≤ f` gives a result `≤ f`. -/
theorem roundTo_le_of_le (p : ℕ) (emin emax : ℤ) (q : ℚ) (e n : ℤ) (he : emin ≤ e)
    (hn : 0 ≤ n) (h₁ : (n : ℚ) * 2 ^ (e - ((p : ℤ) - 1)) < 2 ^ (e + 1))
    (h₀ : (n : ℚ) * 2 ^ (e - ((p : ℤ) - 1)) < (2 : ℚ) ^ emax * (2 - 2 ^ (-(p : ℤ))))
    (h : q ≤ n * 2 ^ (e - ((p : ℤ) - 1))) :
    roundTo p emin emax q = .inf true ∨
      ∃ w, roundTo p emin emax q = .fin w ∧ w ≤ n * 2 ^ (e - ((p : ℤ) - 1)) := by
  unfold roundTo
  split_ifs with hov
  · left
    have hq : q < 0 := by
      by_contra hq
      rw [abs_of_nonneg (not_lt.mp hq)] at hov
      linarith
    simp [hq]
  · right
    refine ⟨_, rfl, ?_⟩
    have hu := ulp_pos p emin q
    rcases le_or_lt q 0 with hq | hq
    · have hr : roundHalfEven (q / ulp p emin q) ≤ 0 :=
        roundHalfEven_le _ 0 (by simpa using div_nonpos_of_nonpos_of_nonneg hq hu.le)
      have hr' : (roundHalfEven (q / ulp p emin q) : ℚ) ≤ 0 := by exact_mod_cast hr
      have hf : (0 : ℚ) ≤ n * 2 ^ (e - ((p : ℤ) - 1)) :=
        mul_nonneg (by exact_mod_cast hn) (by positivity)
      exact le_trans (mul_nonpos_of_nonpos_of_nonneg hr' hu.le) hf
    · have hE := exponent_le emin e q hq he (lt_of_le_of_lt h h₁)
      obtain ⟨d, hd⟩ := Int.eq_ofNat_of_zero_le (sub_nonneg.mpr hE)
      have hpow : (2 : ℚ) ^ (e - ((p : ℤ) - 1))
          = ((2 ^ d : ℤ) : ℚ) * ulp p emin q := by
        unfold ulp
        push_cast
        rw [← zpow_natCast, ← zpow_add₀ (by norm_num)]
        congr 1
        omega
      rw [hpow, ← mul_assoc] at h ⊢
      have hr : roundHalfEven (q / ulp p emin q) ≤ n * 2 ^ d :=
        roundHalfEven_le _ _ (by
          rw [div_le_iff₀ hu]
          push_cast
          exact_mod_cast h)
      have hr' : (roundHalfEven (q / ulp p emin q) : ℚ) ≤ ((n * 2 ^ d : ℤ) : ℚ) := by
        exact_mod_cast hr
      push_cast at hr' ⊢
      exact mul_le_mul_of_nonneg_right hr' hu.le

/-- A finite result of rounding a number `≤ 0` is `≤ 0`. -/
theorem roundTo_nonpos (p : ℕ) (emin emax : ℤ) (q w : ℚ) (hq : q ≤ 0)
    (h : roundTo p emin emax q = .fin w) : w ≤ 0 := by
  unfold roundTo at h
  split_ifs at h with hov
  have hu := ulp_pos p emin q
  have hr : roundHalfEven (q / ulp p emin q) ≤ 0 :=
    roundHalfEven_le _ 0 (by simpa using div_nonpos_of_nonpos_of_nonneg hq hu.le)
  have hr' : (roundHalfEven (q / ulp p emin q) : ℚ) ≤ 0 := by exact_mod_cast hr
  rw [Fp.fin.injEq] at h
  rw [← h]
  exact mul_nonpos_of_nonpos_of_nonneg hr' hu.le

/-- The `float` values of magnitude at least 2 are multiples of `2^-22`. -/
theorem round32_grid (q v : ℚ) (h : round32 q = .fin v) (h₁ : 2 ≤ |v|) :
    ∃ N : ℤ, v = N / 4194304 := by
  unfold round32 roundTo at h
  split_ifs at h with hov
  rw [Fp.fin.injEq] at h
  have hu := ulp_pos 24 (-126) q
  have hq := abs_lt_zpow_exponent (-126) q
  set E := max (Int.log 2 |q|) (-126) with hE
  have hudef : ulp 24 (-126) q = 2 ^ (E - 23) := by
    unfold ulp; rw [← hE]; norm_num
  -- the significand is at most `2^24` in magnitude
  have hm : |q / ulp 24 (-126) q| < 16777216 := by
    rw [abs_div, abs_of_pos hu, div_lt_iff₀ hu, hudef]
    have : (16777216 : ℚ) * 2 ^ (E - 23) = 2 ^ (E + 1) := by
      rw [show (16777216 : ℚ) = 2 ^ (24 : ℤ) by norm_num, ← zpow_add₀ (by norm_num)]
      congr 1; omega
    rw [this]; exact hq
  rw [abs_lt] at hm
  have hr₁ : roundHalfEven (q / ulp 24 (-126) q) ≤ 16777216 :=
    roundHalfEven_le _ _ (by push_cast; linarith)
  have hr₂ : -16777216 ≤ roundHalfEven (q / ulp 24 (-126) q) :=
    le_roundHalfEven _ _ (by push_cast; linarith)
  set N₀ := roundHalfEven (q / ulp 24 (-126) q) with hN₀
  rcases le_or_lt 1 E with h1 | h1
  · obtain ⟨d, hd⟩ := Int.eq_ofNat_of_zero_le (sub_nonneg.mpr h1)
    refine ⟨N₀ * 2 ^ d, ?_⟩
    rw [← h, hudef]
    have : (2 : ℚ) ^ (E - 23) = 2 ^ (d : ℤ) / 4194304 := by
      rw [show (4194304 : ℚ) = 2 ^ (22 : ℤ) by norm_num, ← zpow_sub₀ (by norm_num)]
      congr 1; omega
    rw [this, zpow_natCast]
    push_cast
    ring
  · -- spacing at most `2^-23`: the magnitude is at most 2, so it is 2
    have hu' : ulp 24 (-126) q ≤ 1 / 8388608 := by
      rw [hudef, show (1 / 8388608 : ℚ) = 2 ^ (-23 : ℤ) by norm_num]
      exact zpow_le_zpow_right₀ (by norm_num) (by omega)
    have hN : |(N₀ : ℚ)| ≤ 16777216 := by
      rw [abs_le]; constructor
      · exact_mod_cast hr₂
      · exact_mod_cast hr₁
    have hv : |v| ≤ 2 := by
      rw [← h, abs_mul, abs_of_pos hu]
      calc |(N₀ : ℚ)| * ulp 24 (-126) q ≤ 16777216 * (1 / 8388608) :=
            mul_le_mul hN hu' hu.le (by norm_num)
        _ = 2 := by norm_num
    have hv2 : |v| = 2 := le_antisymm hv h₁
    rcases abs_eq (by norm_num : (0 : ℚ) ≤ 2) |>.mp hv2 with h' | h'
    · exact ⟨8388608, by rw [h']; norm_num⟩
    · exact ⟨-8388608, by rw [h']; norm_num⟩

/-! ## The `float` values next to `M_PI` -/

theorem Fp.Rounded_round32 (q : ℚ) : Fp.Rounded (round32 q) := by
  cases h : round32 q with
  | nan => trivial
  | inf s => trivial
  | fin v => exact ⟨q, h⟩

theorem Fp.Rounded_toFloat (x : Fp) : Fp.Rounded (Fp.toFloat x) := by
  cases x with
  | nan => trivial
  | inf s => trivial
  | fin v => exact Fp.Rounded_round32 v

theorem Fp.Rounded_fadd (x y : Fp) : Fp.Rounded (fadd x y) := by
  cases x <;> cases y <;> simp only [fadd, Fp.add] <;> first
    | trivial
    | exact Fp.Rounded_round32 _
    | (split_ifs <;> trivial)

theorem Fp.Rounded_fsub (x y : Fp) : Fp.Rounded (fsub x y) := by
  cases x <;> cases y <;> simp only [fsub, Fp.sub, Fp.neg, Fp.add] <;> first
    | trivial
    | exact Fp.Rounded_round32 _
    | (split_ifs <;> trivial)

/-- No `float` lies strictly between `0x1.921fb4p+1` and `M_PI`. -/
theorem rounded_le_pred (v : ℚ) (hv : Fp.Rounded (.fin v))
    (h : v ≤ 884279719003555 / 281474976710656) : v ≤ 13176794 / 4194304 := by
  rcases lt_or_le v 2 with h2 | h2
  · linarith
  · obtain ⟨q, hq⟩ := hv
    obtain ⟨N, hN⟩ := round32_grid q v hq (by rw [abs_of_nonneg (by linarith)]; exact h2)
    have h₁ : (N : ℚ) < 13176795 := by
      have : (N : ℚ) = v * 4194304 := by rw [hN]; ring
      rw [this]; linarith
    have h₂ : N ≤ 13176794 := by
      have : N < 13176795 := by exact_mod_cast h₁
      omega
    have h₃ : (N : ℚ) ≤ 13176794 := by exact_mod_cast h₂
    rw [hN]; linarith

/-- No `float` lies strictly between `-M_PI` and `-0x1.921fb4p+1`. -/
theorem rounded_ge_neg_pred (v : ℚ) (hv : Fp.Rounded (.fin v))
    (h : -(884279719003555 / 281474976710656) ≤ v) : -(13176794 / 4194304) ≤ v := by
  rcases lt_or_le (-2) v with h2 | h2
  · linarith
  · obtain ⟨q, hq⟩ := hv
    obtain ⟨N, hN⟩ := round32_grid q v hq (by rw [abs_of_nonpos (by linarith)]; linarith)
    have h₁ : -13176795 < (N : ℚ) := by
      have : (N : ℚ) = v * 4194304 := by rw [hN]; ring
      rw [this]; linarith
    have h₂ : -13176794 ≤ N := by
      have : -13176795 < N := by exact_mod_cast h₁
      omega
    have h₃ : -13176794 ≤ (N : ℚ) := by exact_mod_cast h₂
    rw [hN]; linarith

/-- A `float` below `-M_PI` is at most `-0x1.921fb6p+1`. -/
theorem rounded_le_neg_succ (v : ℚ) (hv : Fp.Rounded (.fin v))
    (h : v < -(884279719003555 / 281474976710656)) : v ≤ -(13176795 / 4194304) := by
  obtain ⟨q, hq⟩ := hv
  obtain ⟨N, hN⟩ := round32_grid q v hq (by rw [abs_of_nonpos (by linarith)]; linarith)
  have h₁ : (N : ℚ) < -13176794 := by
    have : (N : ℚ) = v * 4194304 := by rw [hN]; ring
    rw [this]; linarith
  have h₂ : N ≤ -13176795 := by
    have : N < -13176794 := by exact_mod_cast h₁
    omega
  have h₃ : (N : ℚ) ≤ -13176795 := by exact_mod_cast h₂
  rw [hN]; linarith

/-- One pass of an adding loop body, entered below `-M_PI`, ends at most at
`0x1.921fb4p+1`, the largest `float` below `M_PI`. -/
theorem addTurn_le (v : ℚ) (hv : Fp.Rounded (.fin v))
    (h : v < -(884279719003555 / 281474976710656)) :
    Fp.toFloat (dadd (.fin v) (dadd M_PI M_PI)) = .inf true ∨
      ∃ w, Fp.toFloat (dadd (.fin v) (dadd M_PI M_PI)) = .fin w ∧ Fp.Rounded (.fin w) ∧
        w ≤ 13176794 / 4194304 := by
  have hv' := rounded_le_neg_succ v hv h
  rw [addTurn_fin]
  have h64 := roundTo_le_of_le 53 (-1022) 1023 (v + 884279719003555 / 140737488355328) 1
    7074237555169840 (by norm_num) (by norm_num) (by norm_num) (by norm_num)
    (by norm_num; linarith)
  rcases h64 with h64 | ⟨w₁, h64, hw₁⟩
  · left; rw [round64, h64]; rfl
  · rw [round64, h64, toFloat_fin]
    have hw₁' : w₁ ≤ 442139847198115 / 140737488355328 := by
      refine le_trans hw₁ (le_of_eq ?_); norm_num
    rcases le_or_lt w₁ (13176794 / 4194304) with hle | hgt
    · have h32 := roundTo_le_of_le 24 (-126) 127 w₁ 1 13176794 (by norm_num) (by norm_num)
        (by norm_num) (by norm_num) (by norm_num; linarith)
      rcases h32 with h32 | ⟨w, h32, hw⟩
      · left; rw [round32, h32]
      · right
        refine ⟨w, by rw [round32, h32], ⟨w₁, by rw [round32, h32]⟩, ?_⟩
        refine le_trans hw (le_of_eq ?_); norm_num
    · right
      have hpos : 0 < w₁ := by linarith
      have h32 := roundTo_eq_of 24 (-126) 127 w₁ 1 13176794 (by norm_num)
        (by rw [abs_of_pos hpos]; norm_num; linarith)
        (by rw [abs_of_pos hpos]; norm_num; linarith)
        (by rw [abs_of_pos hpos]; norm_num; linarith)
        (by
          rw [abs_lt]
          norm_num
          constructor <;> linarith)
      refine ⟨_, by rw [round32, h32], ⟨w₁, by rw [round32, h32]⟩, ?_⟩
      norm_num

/-! ## Range of the wrap loops -/

theorem AngleClamp_loopAdd_range (fuel : ℕ) :
    ∀ x r, LowSide x → AngleClamp.loopAdd fuel x = some r → InRange r := by
  induction fuel with
  | zero => intro x r _ h; simp [AngleClamp.loopAdd] at h
  | succ n ih =>
    intro x r hx h
    rw [AngleClamp.loopAdd] at h
    rcases hx with rfl | rfl | ⟨v, rfl, hv, hlt⟩
    · simp [Fp.lt, Fp.neg, M_PI] at h
      exact Or.inl h.symm
    · have hc' : Fp.lt (.inf true) (Fp.neg M_PI) = true := rfl
      have hs : Fp.toFloat (dadd (.inf true) (dadd M_PI M_PI)) = .inf true := by
        rw [dadd_M_PI]; rfl
      rw [if_pos hc', hs] at h
      exact ih _ r (Or.inr (Or.inl rfl)) h
    · by_cases hc : v < -(884279719003555 / 281474976710656)
      · have hc' : Fp.lt (.fin v) (Fp.neg M_PI) = true := by
          simp only [Fp.lt, Fp.neg, M_PI]; exact decide_eq_true hc
        rw [if_pos hc'] at h
        rcases addTurn_le v hv hc with hs | ⟨w, hs, hw, hle⟩
        · rw [hs] at h
          exact ih _ r (Or.inr (Or.inl rfl)) h
        · rw [hs] at h
          exact ih _ r (Or.inr (Or.inr ⟨w, rfl, hw, by
            refine lt_of_le_of_lt hle ?_; norm_num⟩)) h
      · have hc' : Fp.lt (.fin v) (Fp.neg M_PI) = false := by
          simp only [Fp.lt, Fp.neg, M_PI]; exact decide_eq_false hc
        rw [hc'] at h
        simp only [Bool.false_eq_true, if_false, Option.some.injEq] at h
        exact Or.inr ⟨v, h.symm, hv, not_lt.mp hc, hlt⟩

theorem AngleClamp_loopSub_low (fuel : ℕ) :
    ∀ x y, Fp.Rounded x → AngleClamp.loopSub fuel x = some y → LowSide y := by
  induction fuel with
  | zero => intro x y _ h; simp [AngleClamp.loopSub] at h
  | succ n ih =>
    intro x y hx h
    rw [AngleClamp.loopSub] at h
    by_cases hc : Fp.le M_PI x = true
    · rw [if_pos hc] at h
      exact ih _ y (Fp.Rounded_toFloat _) h
    · rw [if_neg hc, Option.some.injEq] at h
      subst h
      cases x with
      | nan => exact Or.inl rfl
      | inf s =>
        cases s with
        | true => exact Or.inr (Or.inl rfl)
        | false => exact absurd (by simp [Fp.le, M_PI]) hc
      | fin v =>
        refine Or.inr (Or.inr ⟨v, rfl, hx, ?_⟩)
        by_contra hv
        exact hc (by simp only [Fp.le, M_PI]; exact decide_eq_true (not_lt.mp hv))

/-- Whenever `AngleClamp<float>` returns, on a value a `float` variable can hold, the
result is a NaN or lies in `[-M_PI, +M_PI)`. -/
theorem AngleClamp_range (fuel : ℕ) (x r : Fp) (hx : Fp.Rounded x)
    (h : AngleClamp fuel x = some r) : InRange r := by
  rw [AngleClamp, Option.bind_eq_some] at h
  obtain ⟨y, hy, hr⟩ := h
  exact AngleClamp_loopAdd_range fuel y r (AngleClamp_loopSub_low fuel x y hx hy) hr

theorem AngleDiff_loopAdd_eq (fuel : ℕ) :
    ∀ x, AngleDiff.loopAdd fuel x = AngleClamp.loopAdd fuel x := by
  induction fuel with
  | zero => intro x; rfl
  | succ n ih => intro x; rw [AngleDiff.loopAdd, AngleClamp.loopAdd, ih]

theorem AngleDiff_loopSub_low (fuel : ℕ) :
    ∀ x y, Fp.Rounded x → AngleDiff.loopSub fuel x = some y → LowSide y := by
  induction fuel with
  | zero => intro x y _ h; simp [AngleDiff.loopSub] at h
  | succ n ih =>
    intro x y hx h
    rw [AngleDiff.loopSub] at h
    by_cases hc : Fp.lt M_PI x = true
    · rw [if_pos hc] at h
      exact ih _ y (Fp.Rounded_toFloat _) h
    · rw [if_neg hc, Option.some.injEq] at h
      subst h
      cases x with
      | nan => exact Or.inl rfl
      | inf s =>
        cases s with
        | true => exact Or.inr (Or.inl rfl)
        | false => exact absurd (by simp [Fp.lt, M_PI]) hc
      | fin v =>
        refine Or.inr (Or.inr ⟨v, rfl, hx, ?_⟩)
        have hle : v ≤ 884279719003555 / 281474976710656 := by
          by_contra hv
          exact hc (by simp only [Fp.lt, M_PI]; exact decide_eq_true (not_le.mp hv))
        refine lt_of_le_of_lt (rounded_le_pred v hx hle) ?_
        norm_num

/-- Whenever `AngleDiff<float>` returns, the result is a NaN or lies in `[-M_PI, +M_PI)`. -/
theorem AngleDiff_range (fuel : ℕ) (a b r : Fp) (h : AngleDiff fuel a b = some r) :
    InRange r := by
  rw [AngleDiff, Option.bind_eq_some] at h
  obtain ⟨y, hy, hr⟩ := h
  rw [AngleDiff_loopAdd_eq] at hr
  exact AngleClamp_loopAdd_range fuel y r
    (AngleDiff_loopSub_low fuel _ y (Fp.Rounded_fsub b a) hy) hr

theorem InRange.wrapped {r : Fp} (h : InRange r) : Wrapped r := by
  rcases h with rfl | ⟨w, rfl, _, h₁, h₂⟩
  · exact Or.inl rfl
  · refine Or.inr ⟨?_, ?_⟩
    · simp only [Fp.le, Fp.neg, M_PI]; exact decide_eq_true h₁
    · simp only [Fp.lt, M_PI]; exact decide_eq_true h₂

/-! ## `AngleClamp<float>` and `AngleDiff<float>` -/

/-- The call `AngleClamp<float>(4.f)`: one pass of the subtracting loop, then
`-0x1.243f6ap+1`, about `-2.2831852`. -/
theorem AngleClamp_four : AngleClamp 2 (.fin 4) = some (.fin (-(9576373 / 4194304))) := by
  have hstep : Fp.toFloat (dsub (.fin 4) (dadd M_PI M_PI)) = .fin (-(9576373 / 4194304)) := by
    rw [subTurn_fin]
    norm_num [round64_four, round32_four]
  have h₁ : Fp.le M_PI (.fin 4) = true := by simp only [M_PI, Fp.le]; norm_num
  have h₂ : Fp.le M_PI (.fin (-(9576373 / 4194304))) = false := by
    simp only [M_PI, Fp.le]; norm_num
  have h₃ : Fp.lt (.fin (-(9576373 / 4194304))) (Fp.neg M_PI) = false := by
    simp only [M_PI, Fp.lt, Fp.neg]; norm_num
  simp [AngleClamp, AngleClamp.loopSub, AngleClamp.loopAdd, h₁, h₂, h₃, hstep]

/-- The call `AngleDiff<float>(0.f, 4.f)` takes the same steps. -/
theorem AngleDiff_zero_four :
    AngleDiff 2 (.fin 0) (.fin 4) = some (.fin (-(9576373 / 4194304))) := by
  have hd : fsub (.fin 4) (.fin 0) = .fin 4 := by
    rw [fsub_fin]; norm_num [round32_fourSelf]
  have hstep : Fp.toFloat (dsub (.fin 4) (dadd M_PI M_PI)) = .fin (-(9576373 / 4194304)) := by
    rw [subTurn_fin]
    norm_num [round64_four, round32_four]
  have h₁ : Fp.lt M_PI (.fin 4) = true := by simp only [M_PI, Fp.lt]; norm_num
  have h₂ : Fp.lt M_PI (.fin (-(9576373 / 4194304))) = false := by
    simp only [M_PI, Fp.lt]; norm_num
  have h₃ : Fp.lt (.fin (-(9576373 / 4194304))) (Fp.neg M_PI) = false := by
    simp only [M_PI, Fp.lt, Fp.neg]; norm_num
  simp [AngleDiff, AngleDiff.loopSub, AngleDiff.loopAdd, hd, h₁, h₂, h₃, hstep]

/-- The number `-9576373 / 2^22` is not `4` plus a whole number of turns, neither with
the program's `M_PI` for `pi` nor with the real number. -/
theorem not_whole_turns :
    (¬ ∃ k : ℤ, (-(9576373 / 4194304) : ℚ)
        = 4 + k * (2 * (884279719003555 / 281474976710656))) ∧
      ¬ ∃ k : ℤ, ((-(9576373 / 4194304) : ℚ) : ℝ) = 4 + k * (2 * Real.pi) := by
  constructor
  · rintro ⟨k, hk⟩
    have h₁ : -2 < k := by
      by_contra h
      have : (k : ℚ) ≤ -2 := by exact_mod_cast not_lt.mp h
      linarith
    have h₂ : k < 0 := by
      by_contra h
      have : (0 : ℚ) ≤ k := by exact_mod_cast not_lt.mp h
      linarith
    have h₃ : k = -1 := by omega
    subst h₃
    norm_num at hk
  · rintro ⟨k, hk⟩
    rcases eq_or_ne k 0 with rfl | hk0
    · norm_num at hk
    · have hk' : (k : ℝ) ≠ 0 := by exact_mod_cast hk0
      have hpi : Real.pi = (((-(9576373 / 4194304) - 4) / (2 * k) : ℚ) : ℝ) := by
        push_cast
        field_simp
        push_cast at hk
        linarith
      exact irrational_pi.ne_rat _ hpi

theorem AngleClamp_loopSub_nan (fuel : ℕ) :
    ∀ x, AngleClamp.loopSub fuel x = some .nan → x = .nan := by
  induction fuel with
  | zero => intro x h; simp [AngleClamp.loopSub] at h
  | succ n ih =>
    intro x h
    rw [AngleClamp.loopSub] at h
    split_ifs at h with hc
    · have := ih _ h
      cases x with
      | nan => rfl
      | inf s => rw [dadd_M_PI] at this; cases s <;> simp [dsub, Fp.sub, Fp.add, Fp.neg, Fp.toFloat] at this
      | fin v =>
        rw [subTurn_fin] at this
        exfalso
        revert this
        unfold round64 roundTo
        split_ifs
        · simp [Fp.toFloat]
        · rw [toFloat_fin]; unfold round32 roundTo; split_ifs <;> simp
    · simpa using h

theorem AngleClamp_loopAdd_nan (fuel : ℕ) :
    ∀ x, AngleClamp.loopAdd fuel x = some .nan → x = .nan := by
  induction fuel with
  | zero => intro x h; simp [AngleClamp.loopAdd] at h
  | succ n ih =>
    intro x h
    rw [AngleClamp.loopAdd] at h
    split_ifs at h with hc
    · have := ih _ h
      cases x with
      | nan => rfl
      | inf s => rw [dadd_M_PI] at this; cases s <;> simp [dadd, Fp.add, Fp.toFloat] at this
      | fin v =>
        rw [addTurn_fin] at this
        exfalso
        revert this
        unfold round64 roundTo
        split_ifs
        · simp [Fp.toFloat]
        · rw [toFloat_fin]; unfold round32 roundTo; split_ifs <;> simp
    · simpa using h

/-- Claim C19. `AngleClamp<float>` does not terminate on every finite input. The number
`2^27 + 16 = 134217744` is a `float`; it is at least `M_PI`, and the loop body
`clapmedRad -= (M_PI + M_PI)` rounds back to the same `float`, so the subtracting loop
never ends: whatever the bound on the number of loop tests, no result is produced. -/
theorem C19_AngleClamp_never_returns :
    IsFloat 134217744 ∧ Fp.le M_PI (.fin 134217744) = true ∧
      Fp.toFloat (dsub (.fin 134217744) (dadd M_PI M_PI)) = .fin 134217744 ∧
      ∀ fuel : ℕ, AngleClamp fuel (.fin 134217744) = none := by
  refine ⟨round32_hangInput, ?_, ?_, fun fuel => ?_⟩
  · simp only [M_PI, Fp.le]; norm_num
  · rw [subTurn_fin]
    norm_num [round64_hang, round32_hang]
  · rw [AngleClamp, AngleClamp_loopSub_hang]; rfl

/-- Claim C6, as stated, fails: `4` is a `float`, `AngleClamp<float>(4.f)` returns
`-9576373 / 2^22` (about `-2.2831852`), and that number is not `4` plus an integer
multiple of `2 * pi`, whether `pi` is the program's `M_PI` or the real number. -/
theorem C6_AngleClamp_not_whole_turns :
    IsFloat 4 ∧ AngleClamp 2 (.fin 4) = some (.fin (-(9576373 / 4194304))) ∧
      (¬ ∃ k : ℤ, (-(9576373 / 4194304) : ℚ)
          = 4 + k * (2 * (884279719003555 / 281474976710656))) ∧
      ¬ ∃ k : ℤ, ((-(9576373 / 4194304) : ℚ) : ℝ) = 4 + k * (2 * Real.pi) :=
  ⟨round32_fourSelf, AngleClamp_four, not_whole_turns.1, not_whole_turns.2⟩

/-- Claim C6, amended. For every value `a` a `float` variable can hold: whenever
`AngleClamp<float>(a)` returns, the result is a NaN or lies in `[-M_PI, +M_PI)`; it is a
NaN only when `a` is; and an `a` that already lies in `[-M_PI, +M_PI)` is returned
unchanged. -/
theorem C6_AngleClamp_float_range (fuel : ℕ) (a r : Fp) (ha : Fp.Rounded a)
    (h : AngleClamp fuel a = some r) :
    Wrapped r ∧ (r = .nan → a = .nan) ∧
      (Fp.le (Fp.neg M_PI) a = true → Fp.lt a M_PI = true → r = a) := by
  refine ⟨(AngleClamp_range fuel a r ha h).wrapped, ?_, ?_⟩
  · rintro rfl
    rw [AngleClamp, Option.bind_eq_some] at h
    obtain ⟨y, hy, hr⟩ := h
    have := AngleClamp_loopAdd_nan fuel y hr
    subst this
    exact AngleClamp_loopSub_nan fuel a hy
  · intro h₁ h₂
    cases fuel with
    | zero => simp [AngleClamp, AngleClamp.loopSub] at h
    | succ n =>
      have h₁' : Fp.le M_PI a = false := by
        cases a with
        | nan => rfl
        | inf s => cases s <;> simp [Fp.le, Fp.lt, Fp.neg, M_PI] at h₁ h₂ ⊢
        | fin v =>
          simp only [Fp.lt, M_PI, decide_eq_true_eq] at h₂
          simp only [Fp.le, M_PI]
          exact decide_eq_false (not_le.mpr h₂)
      have h₂' : Fp.lt a (Fp.neg M_PI) = false := by
        cases a with
        | nan => rfl
        | inf s => cases s <;> simp [Fp.le, Fp.lt, Fp.neg, M_PI] at h₁ h₂ ⊢
        | fin v =>
          simp only [Fp.le, Fp.neg, M_PI, decide_eq_true_eq] at h₁
          simp only [Fp.lt, Fp.neg, M_PI]
          exact decide_eq_false (not_lt.mpr h₁)
      rw [AngleClamp_float_of_mem n a h₁' h₂', Option.some.injEq] at h
      exact h.symm

/-- The amended claim C6 at `a = 4`. -/
theorem C6_AngleClamp_float_range_witness :
    Fp.Rounded (.fin 4) ∧ AngleClamp 2 (.fin 4) = some (.fin (-(9576373 / 4194304))) ∧
      (Wrapped (.fin (-(9576373 / 4194304))) ∧
        ((Fp.fin (-(9576373 / 4194304)) : Fp) = .nan → (Fp.fin 4 : Fp) = .nan) ∧
        (Fp.le (Fp.neg M_PI) (.fin 4) = true → Fp.lt (.fin 4) M_PI = true →
          (Fp.fin (-(9576373 / 4194304)) : Fp) = .fin 4)) :=
  ⟨⟨4, round32_fourSelf⟩, AngleClamp_four,
    C6_AngleClamp_float_range 2 (.fin 4) _ ⟨4, round32_fourSelf⟩ AngleClamp_four⟩

/-- Claim C8, as stated, fails: `AngleDiff<float>(0.f, 4.f)` returns `-9576373 / 2^22`
(about `-2.2831852`), which does not differ from `4 - 0` by an integer multiple of
`2 * pi`, whether `pi` is the program's `M_PI` or the real number. -/
theorem C8_AngleDiff_not_whole_turns :
    IsFloat 0 ∧ IsFloat 4 ∧
      AngleDiff 2 (.fin 0) (.fin 4) = some (.fin (-(9576373 / 4194304))) ∧
      (¬ ∃ k : ℤ, (-(9576373 / 4194304) : ℚ)
          = (4 - 0) + k * (2 * (884279719003555 / 281474976710656))) ∧
      ¬ ∃ k : ℤ, ((-(9576373 / 4194304) : ℚ) : ℝ) = (4 - 0) + k * (2 * Real.pi) := by
  refine ⟨round32_zero, round32_fourSelf, AngleDiff_zero_four, ?_, ?_⟩
  · simpa using not_whole_turns.1
  · simpa using not_whole_turns.2

/-- Claim C8, amended. Whenever `AngleDiff<float>(a, b)` returns, the result is a NaN
or lies strictly between `-M_PI` and `+M_PI` (no `float` equals the `double` `M_PI`);
and when the `float` difference `b - a` already lies in `[-M_PI, +M_PI]` it is returned
as it is. -/
theorem C8_AngleDiff_float_range (fuel : ℕ) (a b r : Fp) (h : AngleDiff fuel a b = some r) :
    (r = .nan ∨ (Fp.lt (Fp.neg M_PI) r = true ∧ Fp.lt r M_PI = true)) ∧
      (Fp.le (Fp.neg M_PI) (fsub b a) = true → Fp.le (fsub b a) M_PI = true →
        r = fsub b a) := by
  constructor
  · rcases AngleDiff_range fuel a b r h with rfl | ⟨w, rfl, hw, h₁, h₂⟩
    · exact Or.inl rfl
    · right
      have := rounded_ge_neg_pred w hw h₁
      constructor
      · simp only [Fp.lt, Fp.neg, M_PI]
        exact decide_eq_true (by linarith)
      · simp only [Fp.lt, M_PI]; exact decide_eq_true h₂
  · intro h₁ h₂
    cases fuel with
    | zero => simp [AngleDiff, AngleDiff.loopSub] at h
    | succ n =>
      have h₁' : Fp.lt M_PI (fsub b a) = false := by
        cases hd : fsub b a with
        | nan => rfl
        | inf s => rw [hd] at h₁ h₂; cases s <;> simp [Fp.le, Fp.lt, Fp.neg, M_PI] at h₁ h₂ ⊢
        | fin v =>
          rw [hd] at h₂
          simp only [Fp.le, M_PI, decide_eq_true_eq] at h₂
          simp only [Fp.lt, M_PI]
          exact decide_eq_false (not_lt.mpr h₂)
      have h₂' : Fp.lt (fsub b a) (Fp.neg M_PI) = false := by
        cases hd : fsub b a with
        | nan => rfl
        | inf s => rw [hd] at h₁ h₂; cases s <;> simp [Fp.le, Fp.lt, Fp.neg, M_PI] at h₁ h₂ ⊢
        | fin v =>
          rw [hd] at h₁
          simp only [Fp.le, Fp.neg, M_PI, decide_eq_true_eq] at h₁
          simp only [Fp.lt, Fp.neg, M_PI]
          exact decide_eq_false (not_lt.mpr h₁)
      rw [AngleDiff_float_of_mem n a b h₁' h₂', Option.some.injEq] at h
      exact h.symm

/-- The amended claim C8 at `a = 0`, `b = 4`. -/
theorem C8_AngleDiff_float_range_witness :
    AngleDiff 2 (.fin 0) (.fin 4) = some (.fin (-(9576373 / 4194304))) ∧
      (((Fp.fin (-(9576373 / 4194304)) : Fp) = .nan ∨
          (Fp.lt (Fp.neg M_PI) (.fin (-(9576373 / 4194304))) = true ∧
            Fp.lt (.fin (-(9576373 / 4194304))) M_PI = true)) ∧
        (Fp.le (Fp.neg M_PI) (fsub (.fin 4) (.fin 0)) = true →
          Fp.le (fsub (.fin 4) (.fin 0)) M_PI = true →
          (Fp.fin (-(9576373 / 4194304)) : Fp) = fsub (.fin 4) (.fin 0))) :=
  ⟨AngleDiff_zero_four, C8_AngleDiff_float_range 2 (.fin 0) (.fin 4) _ AngleDiff_zero_four⟩

/-! ## `CTricycle::Estimate` and `CVirtualGyro::Update` in `float` arithmetic -/

@[simp] theorem Libm.sin_fin (L : Libm) (v : ℚ) : L.sin (.fin v) = .fin (L.sinf v) := rfl

@[simp] theorem Libm.cos_fin (L : Libm) (v : ℚ) : L.cos (.fin v) = .fin (L.cosf v) := rfl

@[simp] theorem ofInt_zero : ofInt 0 = .fin 0 := by
  simp [ofInt, round32_zero]

theorem almostZero_of_nonpos (d : ℚ) (h : d ≤ 0) : almostZero (.fin d) = true := by
  simp only [almostZero, Fp.lt, epsilon]
  exact decide_eq_true (lt_of_le_of_lt h (by norm_num))

theorem AngleClamp_fin_of_mem (fuel : ℕ) (q : ℚ)
    (h₁ : -(884279719003555 / 281474976710656) ≤ q)
    (h₂ : q < 884279719003555 / 281474976710656) :
    AngleClamp (fuel + 1) (.fin q) = some (.fin q) := by
  apply AngleClamp_float_of_mem
  · simp only [Fp.le, M_PI]; exact decide_eq_false (not_le.mpr h₂)
  · simp only [Fp.lt, Fp.neg, M_PI]; exact decide_eq_false (not_lt.mpr h₁)

theorem AngleClamp_nan (fuel : ℕ) : AngleClamp (fuel + 1) .nan = some .nan :=
  AngleClamp_float_of_mem fuel .nan rfl rfl

/-- With no ticks the front wheel velocity is zero, whatever the finite time gap. -/
theorem fFrontWheelVel_zero_ticks (t : CTricycle Fp) (time : Fp) (d : ℚ)
    (hd : fsub time t.fPrevTime = .fin d) :
    CTricycle.Estimate.fFrontWheelVel t time 0 = .fin 0 := by
  unfold CTricycle.Estimate.fFrontWheelVel
  rw [hd, m_fFrontDistPerTick_val]
  by_cases hz : almostZero (.fin d) = true
  · simp [hz, round32_zero]
  · have hd0 : d ≠ 0 := by
      rintro rfl
      exact hz (almostZero_of_nonpos 0 le_rfl)
    simp [hz, fdiv_fin _ _ hd0, round32_zero]

/-- A position summand built on a zero travelled distance is zero, and adding it leaves
a `float` coordinate as it is. -/
theorem fadd_zero_travel (x d c₁ c₂ : ℚ) (hx : IsFloat x) :
    fadd (.fin x) (fmul (fmul (fmul (.fin 0) (.fin d)) (.fin c₁)) (.fin c₂)) = .fin x := by
  simp only [fmul_fin, zero_mul, round32_zero, fadd_fin, add_zero]
  exact hx

/-- Zero motion on a finite time gap: with no ticks and a gyro output of zero, a call of
`Estimate` on a state of finite `float` components with the heading in
`[-M_PI, +M_PI)` leaves the pose as it is. -/
theorem Estimate_zero_motion (L : Libm) (fuel : ℕ) (gyro : CVirtualGyro Fp)
    (t : CTricycle Fp) (time : Fp) (angular_velocity : Fp) (x y q d s : ℚ)
    (hpose : t.m_pose = ⟨.fin x, .fin y, .fin q⟩)
    (hx : IsFloat x) (hy : IsFloat y) (hq : IsFloat q)
    (h₁ : -(884279719003555 / 281474976710656) ≤ q)
    (h₂ : q < 884279719003555 / 281474976710656)
    (hd : fsub time t.fPrevTime = .fin d)
    (hw : CVirtualGyro.GetAngVel gyro = .fin 0) :
    CTricycle.Estimate L (fuel + 1) gyro t time (.fin s) 0 angular_velocity
      = some ⟨⟨.fin x, .fin y, .fin q⟩, time⟩ := by
  have hq' : CTricycle.Estimate.q (fuel + 1) gyro t time = some (.fin q) := by
    unfold CTricycle.Estimate.q
    rw [hw, hd, hpose]
    simp only [fmul_fin, zero_mul, round32_zero, fadd_fin, add_zero]
    rw [show round32 q = .fin q from hq]
    exact AngleClamp_fin_of_mem fuel q h₁ h₂
  unfold CTricycle.Estimate
  rw [hq', fFrontWheelVel_zero_ticks t time d hd, hd, hpose]
  simp only [Option.map_some', Libm.cos_fin, Libm.sin_fin, fadd_zero_travel _ _ _ _ hx,
    fadd_zero_travel _ _ _ _ hy]

/-- A rounded difference of `a < b` is at most zero. -/
theorem fsub_nonpos (time prev : Fp) (d : ℚ) (hlt : Fp.lt time prev = true)
    (hd : fsub time prev = .fin d) : d ≤ 0 := by
  cases time with
  | nan => simp [Fp.lt] at hlt
  | inf s =>
    cases prev with
    | nan => simp [Fp.lt] at hlt
    | inf s' =>
      exfalso
      simp only [fsub, Fp.sub, Fp.add, Fp.neg] at hd
      split_ifs at hd
    | fin b => simp [fsub, Fp.sub, Fp.add, Fp.neg] at hd
  | fin a =>
    cases prev with
    | nan => simp [Fp.lt] at hlt
    | inf s => simp [fsub, Fp.sub, Fp.add, Fp.neg] at hd
    | fin b =>
      simp only [Fp.lt, decide_eq_true_eq] at hlt
      rw [fsub_fin] at hd
      exact roundTo_nonpos 24 (-126) 127 (a + -b) d (by linarith) hd

/-- A call of `Estimate` on a finite gap that the guard `almostZero` takes for zero, with
a finite new heading: the velocity stays `0.f` and the position is left as it is. -/
theorem Estimate_frozen (L : Libm) (fuel : ℕ) (gyro : CVirtualGyro Fp)
    (t : CTricycle Fp) (time : Fp) (encoder_ticks : ℤ) (angular_velocity : Fp)
    (x y d s q₂ : ℚ)
    (hx : t.m_pose.x = .fin x) (hy : t.m_pose.y = .fin y)
    (hx' : IsFloat x) (hy' : IsFloat y)
    (hd : fsub time t.fPrevTime = .fin d)
    (hz : almostZero (.fin d) = true)
    (hq : AngleClamp fuel (fadd t.m_pose.q
      (fmul (CVirtualGyro.GetAngVel gyro) (fsub time t.fPrevTime))) = some (.fin q₂)) :
    CTricycle.Estimate L fuel gyro t time (.fin s) encoder_ticks angular_velocity
      = some ⟨⟨.fin x, .fin y, .fin q₂⟩, time⟩ := by
  have hv : CTricycle.Estimate.fFrontWheelVel t time encoder_ticks = .fin 0 := by
    unfold CTricycle.Estimate.fFrontWheelVel
    simp [hd, hz, round32_zero]
  unfold CTricycle.Estimate
  rw [show CTricycle.Estimate.q fuel gyro t time = some (.fin q₂) from hq, hv, hd, hx, hy]
  simp only [Option.map_some', Libm.cos_fin, Libm.sin_fin, fadd_zero_travel _ _ _ _ hx',
    fadd_zero_travel _ _ _ _ hy']

/-- A call of `Estimate` whose time lies before the stored one, on a finite gap and
with a finite new heading: the guard `almostZero` holds and the position is left as it
is. -/
theorem Estimate_out_of_order (L : Libm) (fuel : ℕ) (gyro : CVirtualGyro Fp)
    (t : CTricycle Fp) (time : Fp) (encoder_ticks : ℤ) (angular_velocity : Fp)
    (x y d s q₂ : ℚ)
    (hx : t.m_pose.x = .fin x) (hy : t.m_pose.y = .fin y)
    (hx' : IsFloat x) (hy' : IsFloat y)
    (hlt : Fp.lt time t.fPrevTime = true)
    (hd : fsub time t.fPrevTime = .fin d)
    (hq : AngleClamp fuel (fadd t.m_pose.q
      (fmul (CVirtualGyro.GetAngVel gyro) (fsub time t.fPrevTime))) = some (.fin q₂)) :
    CTricycle.Estimate L fuel gyro t time (.fin s) encoder_ticks angular_velocity
      = some ⟨⟨.fin x, .fin y, .fin q₂⟩, time⟩ :=
  Estimate_frozen L fuel gyro t time encoder_ticks angular_velocity x y d s q₂ hx hy hx' hy'
    hd (almostZero_of_nonpos d (fsub_nonpos time t.fPrevTime d hlt hd)) hq

/-- A call of `Estimate` with no ticks on a finite gap, with a finite new heading: the
position is left as it is, whatever the gyro output. -/
theorem Estimate_no_ticks (L : Libm) (fuel : ℕ) (gyro : CVirtualGyro Fp)
    (t : CTricycle Fp) (time : Fp) (angular_velocity : Fp) (x y d s q₂ : ℚ)
    (hx : t.m_pose.x = .fin x) (hy : t.m_pose.y = .fin y)
    (hx' : IsFloat x) (hy' : IsFloat y)
    (hd : fsub time t.fPrevTime = .fin d)
    (hq : AngleClamp fuel (fadd t.m_pose.q
      (fmul (CVirtualGyro.GetAngVel gyro) (fsub time t.fPrevTime))) = some (.fin q₂)) :
    CTricycle.Estimate L fuel gyro t time (.fin s) 0 angular_velocity
      = some ⟨⟨.fin x, .fin y, .fin q₂⟩, time⟩ := by
  unfold CTricycle.Estimate
  rw [show CTricycle.Estimate.q fuel gyro t time = some (.fin q₂) from hq,
    fFrontWheelVel_zero_ticks t time d hd, hd, hx, hy]
  simp only [Option.map_some', Libm.cos_fin, Libm.sin_fin, fadd_zero_travel _ _ _ _ hx',
    fadd_zero_travel _ _ _ _ hy']

/-- The heading that a returning call of `Estimate` leaves is the result of the heading
update, and the stored time is the time of the call. -/
theorem Estimate_heading (L : Libm) (fuel : ℕ) (gyro : CVirtualGyro Fp) (t t₁ : CTricycle Fp)
    (time steering_angle : Fp) (n : ℤ) (av : Fp)
    (h : CTricycle.Estimate L fuel gyro t time steering_angle n av = some t₁) :
    AngleClamp fuel (fadd t.m_pose.q
        (fmul (CVirtualGyro.GetAngVel gyro) (fsub time t.fPrevTime))) = some t₁.m_pose.q ∧
      t₁.fPrevTime = time := by
  unfold CTricycle.Estimate at h
  simp only [Option.map_eq_some'] at h
  obtain ⟨q, hq, rfl⟩ := h
  exact ⟨hq, rfl⟩

/-- When the heading update of `Estimate` returns, so does the call, with that heading. -/
theorem Estimate_of_heading (L : Libm) (fuel : ℕ) (gyro : CVirtualGyro Fp) (t : CTricycle Fp)
    (time steering_angle : Fp) (n : ℤ) (av q₂ : Fp)
    (h : AngleClamp fuel (fadd t.m_pose.q
        (fmul (CVirtualGyro.GetAngVel gyro) (fsub time t.fPrevTime))) = some q₂) :
    ∃ t₁, CTricycle.Estimate L fuel gyro t time steering_angle n av = some t₁ ∧
      t₁.m_pose.q = q₂ ∧ t₁.fPrevTime = time := by
  unfold CTricycle.Estimate
  rw [show CTricycle.Estimate.q fuel gyro t time = some q₂ from h]
  exact ⟨_, rfl, rfl, rfl⟩

/-! ## Scenarios with a time gap that overflows or is negative -/

theorem fsub_big_overflow :
    fsub (.fin (2 ^ 127)) (.fin (-(2 ^ 127))) = .inf false := by
  rw [fsub_fin, round32_overflow _ (by norm_num [abs_of_pos])]
  norm_num

theorem fsub_negBig_overflow :
    fsub (.fin (-(2 ^ 127))) (.fin (2 ^ 127)) = .inf true := by
  rw [fsub_fin, round32_overflow _ (by norm_num [abs_of_neg])]
  norm_num

theorem IsFloat_big : IsFloat (2 ^ 127) := by
  unfold IsFloat; norm_num [round32_big]

theorem IsFloat_negBig : IsFloat (-(2 ^ 127)) := by
  unfold IsFloat; norm_num [round32_negBig]

theorem GetAngVel_new : CVirtualGyro.GetAngVel CVirtualGyro.new = .fin 0 := by
  simp [CVirtualGyro.GetAngVel, CVirtualGyro.new, round32_zero]

theorem CTricycle_new_eq : CTricycle.new = ⟨⟨.fin 0, .fin 0, .fin 0⟩, .fin 0⟩ := by
  simp [CTricycle.new, round32_zero]

/-- From the fresh state, a call of `Estimate` with no ticks, gyro output zero and
steering zero at a finite `float` time `T` only stores the time. -/
theorem Estimate_new_at (L : Libm) (T : ℚ) (hT : IsFloat T) :
    CTricycle.Estimate L 1 CVirtualGyro.new CTricycle.new (.fin T) (.fin 0) 0 (.fin 0)
      = some ⟨⟨.fin 0, .fin 0, .fin 0⟩, .fin T⟩ := by
  rw [CTricycle_new_eq]
  exact Estimate_zero_motion L 0 _ _ _ _ 0 0 0 T 0 rfl round32_zero round32_zero
    round32_zero (by norm_num) (by norm_num)
    (by rw [fsub_fin]; simpa using hT) GetAngVel_new

/-- With the stored time `-2^127`, a call at time `2^127` has the gap `+inf`; with no
ticks and gyro output zero the heading `0 + 0 * inf` and both coordinates become NaN. -/
theorem Estimate_gap_overflow (L : Libm) :
    CTricycle.Estimate L 1 CVirtualGyro.new ⟨⟨.fin 0, .fin 0, .fin 0⟩, .fin (-(2 ^ 127))⟩
        (.fin (2 ^ 127)) (.fin 0) 0 (.fin 0)
      = some ⟨⟨.nan, .nan, .nan⟩, .fin (2 ^ 127)⟩ := by
  have hq : CTricycle.Estimate.q 1 CVirtualGyro.new
      ⟨⟨.fin 0, .fin 0, .fin 0⟩, .fin (-(2 ^ 127))⟩ (.fin (2 ^ 127)) = some .nan := by
    unfold CTricycle.Estimate.q
    rw [GetAngVel_new, fsub_big_overflow]
    exact AngleClamp_nan 0
  unfold CTricycle.Estimate
  rw [hq]
  simp [CTricycle.Estimate.fFrontWheelVel, fsub_big_overflow, almostZero, Fp.lt, epsilon,
    m_fFrontDistPerTick_val, fdiv, Fp.div, fmul, Fp.mul, fadd, Fp.add, Libm.cos, Libm.sin]

/-- With the stored time `2^127`, a call at the earlier time `-2^127` has the gap `-inf`;
whatever the ticks, with gyro output zero the heading and both coordinates become NaN. -/
theorem Estimate_gap_negative_overflow (L : Libm) (encoder_ticks : ℤ) :
    CTricycle.Estimate L 1 CVirtualGyro.new ⟨⟨.fin 0, .fin 0, .fin 0⟩, .fin (2 ^ 127)⟩
        (.fin (-(2 ^ 127))) (.fin 0) encoder_ticks (.fin 0)
      = some ⟨⟨.nan, .nan, .nan⟩, .fin (-(2 ^ 127))⟩ := by
  have hq : CTricycle.Estimate.q 1 CVirtualGyro.new
      ⟨⟨.fin 0, .fin 0, .fin 0⟩, .fin (2 ^ 127)⟩ (.fin (-(2 ^ 127))) = some .nan := by
    unfold CTricycle.Estimate.q
    rw [GetAngVel_new, fsub_negBig_overflow]
    exact AngleClamp_nan 0
  unfold CTricycle.Estimate
  rw [hq]
  simp [CTricycle.Estimate.fFrontWheelVel, fsub_negBig_overflow, almostZero, Fp.lt, epsilon,
    round32_zero, fmul, Fp.mul, fadd, Fp.add, Libm.cos, Libm.sin]

/-- Claim C11, as stated, fails: from the fresh state a call of `Estimate` at the finite
time `-2^127` (no ticks, gyro output zero) leads to the pose `(0, 0, 0)` with stored time
`-2^127`; the next call at the finite time `2^127`, again with no ticks and gyro output
zero, has the time gap `+inf` and returns the pose `(NaN, NaN, NaN)`. -/
theorem C11_zero_motion_gap_overflow :
    IsFloat (-(2 ^ 127)) ∧ IsFloat (2 ^ 127) ∧
      CVirtualGyro.GetAngVel CVirtualGyro.new = .fin 0 ∧
      ∀ L : Libm,
        CTricycle.Estimate L 1 CVirtualGyro.new CTricycle.new (.fin (-(2 ^ 127))) (.fin 0) 0
            (.fin 0)
          = some ⟨⟨.fin 0, .fin 0, .fin 0⟩, .fin (-(2 ^ 127))⟩ ∧
        CTricycle.Estimate L 1 CVirtualGyro.new
            ⟨⟨.fin 0, .fin 0, .fin 0⟩, .fin (-(2 ^ 127))⟩ (.fin (2 ^ 127)) (.fin 0) 0 (.fin 0)
          = some ⟨⟨.nan, .nan, .nan⟩, .fin (2 ^ 127)⟩ :=
  ⟨IsFloat_negBig, IsFloat_big, GetAngVel_new, fun L =>
    ⟨Estimate_new_at L _ IsFloat_negBig, Estimate_gap_overflow L⟩⟩

/-- Claim C11, amended. Zero motion: on an estimator state whose pose components are
finite `float`s with the heading in `[-M_PI, +M_PI)`, a call of `Estimate` with no ticks
and gyro output zero, at a finite steering angle and at a time whose `float` gap to the
stored time is finite, returns and leaves the pose equal in all three components. -/
theorem C11_Estimate_zero_motion_float (L : Libm) (fuel : ℕ) (gyro : CVirtualGyro Fp)
    (t : CTricycle Fp) (time : Fp) (x y q d s : ℚ)
    (hpose : t.m_pose = ⟨.fin x, .fin y, .fin q⟩)
    (hx : IsFloat x) (hy : IsFloat y) (hq : IsFloat q)
    (h₁ : -(884279719003555 / 281474976710656) ≤ q)
    (h₂ : q < 884279719003555 / 281474976710656)
    (hd : fsub time t.fPrevTime = .fin d)
    (hw : CVirtualGyro.GetAngVel gyro = .fin 0) :
    CTricycle.Estimate L (fuel + 1) gyro t time (.fin s) 0 (CVirtualGyro.GetAngVel gyro)
      = some ⟨t.m_pose, time⟩ := by
  rw [hpose]
  exact Estimate_zero_motion L fuel gyro t time _ x y q d s hpose hx hy hq h₁ h₂ hd hw

/-- The amended claim C11 on the pose `(1, 2, -1)` with stored time `1`, at time `3` and
steering angle `1`. -/
theorem C11_Estimate_zero_motion_float_witness :
    IsFloat 1 ∧ IsFloat 2 ∧ IsFloat (-1) ∧ fsub (.fin 3) (.fin 1) = .fin 2 ∧
      ∀ L : Libm,
        CTricycle.Estimate L 1 ⟨.fin 0, .fin 0, .fin 1, .fin 0⟩
            ⟨⟨.fin 1, .fin 2, .fin (-1)⟩, .fin 1⟩ (.fin 3) (.fin 1) 0 (.fin 0)
          = some ⟨⟨.fin 1, .fin 2, .fin (-1)⟩, .fin 3⟩ :=
  ⟨round32_one, round32_two, round32_negOne, by rw [fsub_fin]; norm_num [round32_two],
    fun L => C11_Estimate_zero_motion_float L 0 ⟨.fin 0, .fin 0, .fin 1, .fin 0⟩
      ⟨⟨.fin 1, .fin 2, .fin (-1)⟩, .fin 1⟩ (.fin 3) 1 2 (-1) 2 1 rfl round32_one round32_two
      round32_negOne (by norm_num) (by norm_num) (by rw [fsub_fin]; norm_num [round32_two])
      rfl⟩

/-- Claim C21, as stated, fails: from the fresh state a call of `Estimate` at the finite
time `2^127` leads to the pose `(0, 0, 0)` with stored time `2^127`; the out-of-order call
at the finite time `-2^127 < 2^127` (100 ticks, gyro output zero) has the gap `-inf` and
returns the pose `(NaN, NaN, NaN)`: the position is not left as it was. -/
theorem C21_out_of_order_gap_overflow :
    IsFloat (2 ^ 127) ∧ IsFloat (-(2 ^ 127)) ∧
      Fp.lt (.fin (-(2 ^ 127))) (.fin (2 ^ 127)) = true ∧
      ∀ L : Libm,
        CTricycle.Estimate L 1 CVirtualGyro.new CTricycle.new (.fin (2 ^ 127)) (.fin 0) 0
            (.fin 0)
          = some ⟨⟨.fin 0, .fin 0, .fin 0⟩, .fin (2 ^ 127)⟩ ∧
        CTricycle.Estimate L 1 CVirtualGyro.new
            ⟨⟨.fin 0, .fin 0, .fin 0⟩, .fin (2 ^ 127)⟩ (.fin (-(2 ^ 127))) (.fin 0) 100 (.fin 0)
          = some ⟨⟨.nan, .nan, .nan⟩, .fin (-(2 ^ 127))⟩ :=
  ⟨IsFloat_big, IsFloat_negBig, by simp only [Fp.lt]; norm_num, fun L =>
    ⟨Estimate_new_at L _ IsFloat_big, Estimate_gap_negative_overflow L 100⟩⟩

/-- Claim C21, amended. Out-of-order samples freeze the position when the gap is finite:
on a state with finite `float` coordinates, for a call of `Estimate` at a finite steering
angle with `time < previousTime`, a finite `float` gap `time - previousTime`, and a heading
update `AngleClamp(q + gyroAngularVelocity * dt)` that returns a finite value `q₂`, the call
returns, `x` and `y` are unchanged whatever `encoder_ticks` is, the heading is `q₂`, and
the stored time is set to the earlier time. -/
theorem C21_Estimate_out_of_order_float (L : Libm) (fuel : ℕ) (gyro : CVirtualGyro Fp)
    (t : CTricycle Fp) (time : Fp) (encoder_ticks : ℤ) (x y d s q₂ : ℚ)
    (hx : t.m_pose.x = .fin x) (hy : t.m_pose.y = .fin y)
    (hx' : IsFloat x) (hy' : IsFloat y)
    (hlt : Fp.lt time t.fPrevTime = true)
    (hd : fsub time t.fPrevTime = .fin d)
    (hq : AngleClamp fuel (fadd t.m_pose.q
      (fmul (CVirtualGyro.GetAngVel gyro) (fsub time t.fPrevTime))) = some (.fin q₂)) :
    CTricycle.Estimate L fuel gyro t time (.fin s) encoder_ticks (CVirtualGyro.GetAngVel gyro)
      = some ⟨⟨t.m_pose.x, t.m_pose.y, .fin q₂⟩, time⟩ := by
  rw [hx, hy]
  exact Estimate_out_of_order L fuel gyro t time encoder_ticks _ x y d s q₂ hx hy hx' hy'
    hlt hd hq

/-- The amended claim C21 on the pose `(1, 2, 0)` with stored time `2`, gyro output `1`,
at time `1` with 100 ticks: the position stays `(1, 2)`, the heading becomes `-1`. -/
theorem C21_Estimate_out_of_order_float_witness :
    IsFloat 1 ∧ IsFloat 2 ∧ Fp.lt (.fin 1) (.fin 2) = true ∧
      fsub (.fin 1) (.fin 2) = .fin (-1) ∧
      AngleClamp 1 (fadd (.fin 0) (fmul (.fin 1) (fsub (.fin 1) (.fin 2)))) = some (.fin (-1)) ∧
      ∀ L : Libm,
        CTricycle.Estimate L 1 ⟨.fin 1, .fin 0, .fin 2, .fin 0⟩
            ⟨⟨.fin 1, .fin 2, .fin 0⟩, .fin 2⟩ (.fin 1) (.fin 0) 100 (.fin 1)
          = some ⟨⟨.fin 1, .fin 2, .fin (-1)⟩, .fin 1⟩ := by
  have hd : fsub (.fin 1) (.fin 2) = .fin (-1) := by
    rw [fsub_fin]; norm_num [round32_negOne]
  have hq : AngleClamp 1 (fadd (.fin 0) (fmul (.fin 1) (fsub (.fin 1) (.fin 2))))
      = some (.fin (-1)) := by
    rw [hd]
    norm_num [round32_negOne]
    exact AngleClamp_fin_of_mem 0 (-1) (by norm_num) (by norm_num)
  exact ⟨round32_one, round32_two, by simp only [Fp.lt]; norm_num, hd, hq, fun L =>
    C21_Estimate_out_of_order_float L 1 ⟨.fin 1, .fin 0, .fin 2, .fin 0⟩
      ⟨⟨.fin 1, .fin 2, .fin 0⟩, .fin 2⟩ (.fin 1) 100 1 2 (-1) 0 (-1) rfl rfl round32_one
      round32_two (by simp only [Fp.lt]; norm_num) hd hq⟩

/-- Claim C1. The position formula fails on a negative time gap that is not near zero.
From the fresh state, `Estimate(2, 0, 0, 0)` leads to the pose `(0, 0, 0)` with stored time
`2`. The next call `Estimate(1, 0, 100, 0)` has the gap `1 - 2 = -1`, of magnitude
`1 >= epsilon`, yet `almostZero(-1)` holds (the guard compares without `fabs`), so the
velocity stays `0.f` and the call returns the position `(0, 0)`; the claimed position has
`x' = 0 + 100 * distancePerTick * cos(0) * cos(0)`, which is not `0` (in `float`
arithmetic `100 * m_fFrontDistPerTick` is about `0.2454`). -/
theorem C1_Estimate_negative_gap :
    fsub (.fin 1) (.fin 2) = .fin (-1) ∧ almostZero (.fin (-1)) = true ∧
      fmul (ofInt 100) CTricycle.m_fFrontDistPerTick = .fin (8235497 / 33554432) ∧
      (0 : ℝ) + 100 * ((2 * Real.pi * 0.2) / 512) * Real.cos 0 * Real.cos 0 ≠ 0 ∧
      ∀ L : Libm,
        CTricycle.Estimate L 1 CVirtualGyro.new CTricycle.new (.fin 2) (.fin 0) 0 (.fin 0)
          = some ⟨⟨.fin 0, .fin 0, .fin 0⟩, .fin 2⟩ ∧
        CTricycle.Estimate L 1 CVirtualGyro.new ⟨⟨.fin 0, .fin 0, .fin 0⟩, .fin 2⟩ (.fin 1)
            (.fin 0) 100 (.fin 0)
          = some ⟨⟨.fin 0, .fin 0, .fin 0⟩, .fin 1⟩ := by
  have hd : fsub (.fin 1) (.fin 2) = .fin (-1) := by
    rw [fsub_fin]; norm_num [round32_negOne]
  refine ⟨hd, almostZero_of_nonpos _ (by norm_num), ?_, ?_, fun L =>
    ⟨Estimate_new_at L 2 round32_two, ?_⟩⟩
  · rw [m_fFrontDistPerTick_val]
    norm_num [ofInt, round32_hundred, round32_hundredTicks]
  · have := Real.pi_pos
    simp only [Real.cos_zero]
    positivity
  · refine Estimate_out_of_order L 1 _ _ _ 100 _ 0 0 (-1) 0 0 rfl rfl round32_zero
      round32_zero (by simp only [Fp.lt]; norm_num) hd ?_
    rw [hd, GetAngVel_new]
    norm_num [round32_zero]
    exact AngleClamp_fin_of_mem 0 0 (by norm_num) (by norm_num)

/-! ## `CVirtualGyro::Update` on a negative time gap -/

/-- From the fresh state, `Update(2, 0, 0)` only stores the time. -/
theorem Update_new_two (L : Libm) :
    CVirtualGyro.Update L 1 CVirtualGyro.new (.fin 2) (.fin 0) 0
      = some ⟨.fin 0, .fin 0, .fin 2, .fin 0⟩ := by
  have hdelta : CVirtualGyro.Update.fDiffAngleRad L CVirtualGyro.new (.fin 0) 0 = .fin 0 := by
    simp [CVirtualGyro.Update.fDiffAngleRad, CVirtualGyro.new, CTricycle.GetFrontDistPerTick,
      m_fFrontDistPerTick_val, CTricycle.GetDistBtwFrontRear, CTricycle.m_fDistBtwFrontRear,
      DIST_BTW_FRONT_REAR, round32_zero, round32_one, round32_two, fdiv_fin]
  have h0 : AngleClamp 1 (.fin 0) = some (.fin 0) :=
    AngleClamp_fin_of_mem 0 0 (by norm_num) (by norm_num)
  have hd : AngleDiff 1 (.fin 0) (.fin 0) = some (.fin 0) := by
    have := AngleDiff_float_of_mem 0 (.fin 0) (.fin 0)
      (by rw [fsub_fin]; norm_num [round32_zero, Fp.lt, M_PI])
      (by rw [fsub_fin]; norm_num [round32_zero, Fp.lt, Fp.neg, M_PI])
    simpa [round32_zero] using this
  have hz : almostZero (.fin 2) = false := by
    simp only [almostZero, Fp.lt, epsilon]; norm_num
  unfold CVirtualGyro.Update
  rw [hdelta]
  simp [CVirtualGyro.new, round32_zero, round32_two, hd, h0, hz, fdiv_fin]

/-- With stored steering `0`, steering `0x1.921fb6p+1` and 2 ticks the angle step is
`m_fFrontDistPerTick` when `sinf(0x1.921fb6p+0)` is `1`. -/
theorem fDiffAngleRad_half_turn_steer (L : Libm) (hs : L.sinf (13176795 / 8388608) = 1)
    (g : CVirtualGyro Fp) (hg : g.fPrevSteerRad = .fin 0) :
    CVirtualGyro.Update.fDiffAngleRad L g (.fin (13176795 / 4194304)) 2
      = .fin (2635359 / 1073741824) := by
  simp only [CVirtualGyro.Update.fDiffAngleRad, hg, CTricycle.GetFrontDistPerTick,
    m_fFrontDistPerTick_val, CTricycle.GetDistBtwFrontRear, CTricycle.m_fDistBtwFrontRear,
    DIST_BTW_FRONT_REAR, ofInt]
  norm_num [fdiv_fin, round32_one, round32_two, round32_twoTicks, round32_distPerTick,
    round32_piFloat, round32_halfPiFloat, hs]

/-- What a returning call of `Update` stores as angular velocity: the result of
`AngleDiff`, which the `AngleClamp` after it leaves alone, divided by the time gap when
the guard `!almostZero(fDiffTime)` passes and undivided otherwise. -/
theorem Update_GetAngVel_float (L : Libm) (fuel : ℕ) (g g₁ : CVirtualGyro Fp)
    (fTime fSteerRad : Fp) (n : ℤ)
    (h : CVirtualGyro.Update L fuel g fTime fSteerRad n = some g₁) :
    ∃ d, AngleDiff fuel g.m_fAngleRad
          (fadd g.m_fAngleRad (CVirtualGyro.Update.fDiffAngleRad L g fSteerRad n)) = some d ∧
      CVirtualGyro.GetAngVel g₁
        = if !almostZero (fsub fTime g.fPrevTime) then fdiv d (fsub fTime g.fPrevTime)
          else d := by
  unfold CVirtualGyro.Update at h
  simp only [Option.bind_eq_some, Option.map_eq_some'] at h
  obtain ⟨d, hd, w, hw, a, _, rfl⟩ := h
  refine ⟨d, hd, ?_⟩
  have hwd : w = d := by
    cases fuel with
    | zero => simp [AngleClamp, AngleClamp.loopSub] at hw
    | succ k =>
      rcases AngleDiff_range (k + 1) _ _ d hd with rfl | ⟨v, rfl, _, h₁, h₂⟩
      · rw [AngleClamp_nan, Option.some.injEq] at hw
        exact hw.symm
      · rw [AngleClamp_fin_of_mem k v h₁ h₂, Option.some.injEq] at hw
        exact hw.symm
  simp only [CVirtualGyro.GetAngVel, hwd]

/-- Claim C4. The stored angular velocity is not the wrapped difference divided by the
time gap on a negative gap that is not near zero. From the fresh state `Update(2, 0, 0)`
leads to angle `0`, stored time `2`, stored steering `0`. The next call
`Update(1, 0x1.921fb6p+1, 2)` has the gap `1 - 2 = -1`, of magnitude `1 >= epsilon`, yet
`almostZero(-1)` holds (the guard compares without `fabs`), so the division is skipped:
with `sinf(0x1.921fb6p+0) = 1` the wrapped difference is `m_fFrontDistPerTick`
(`2635359 / 2^30`), the stored angular velocity is that same number, and the quotient by
the gap would be its negative. -/
theorem C4_Update_negative_gap :
    fsub (.fin 1) (.fin 2) = .fin (-1) ∧ almostZero (.fin (-1)) = true ∧
      fdiv (.fin (2635359 / 1073741824)) (.fin (-1)) = .fin (-(2635359 / 1073741824)) ∧
      ∀ L : Libm, L.sinf (13176795 / 8388608) = 1 →
        CVirtualGyro.Update L 1 CVirtualGyro.new (.fin 2) (.fin 0) 0
          = some ⟨.fin 0, .fin 0, .fin 2, .fin 0⟩ ∧
        AngleDiff 1 (.fin 0) (fadd (.fin 0)
            (CVirtualGyro.Update.fDiffAngleRad L ⟨.fin 0, .fin 0, .fin 2, .fin 0⟩
              (.fin (13176795 / 4194304)) 2))
          = some (.fin (2635359 / 1073741824)) ∧
        CVirtualGyro.Update L 1 ⟨.fin 0, .fin 0, .fin 2, .fin 0⟩ (.fin 1)
            (.fin (13176795 / 4194304)) 2
          = some ⟨.fin (2635359 / 1073741824), .fin (2635359 / 1073741824), .fin 1,
              .fin (13176795 / 4194304)⟩ := by
  have hd : fsub (.fin 1) (.fin 2) = .fin (-1) := by
    rw [fsub_fin]; norm_num [round32_negOne]
  have hz : almostZero (.fin (-1)) = true := almostZero_of_nonpos _ (by norm_num)
  refine ⟨hd, hz, ?_, fun L hs => ?_⟩
  · rw [fdiv_fin _ _ (by norm_num)]
    norm_num [round32_negDistPerTick]
  · have hdelta := fDiffAngleRad_half_turn_steer L hs ⟨.fin 0, .fin 0, .fin 2, .fin 0⟩ rfl
    have hsum : fadd (.fin 0) (.fin (2635359 / 1073741824)) = .fin (2635359 / 1073741824) := by
      rw [fadd_fin]; norm_num [round32_distPerTick]
    have hdiff : AngleDiff 1 (.fin 0) (.fin (2635359 / 1073741824))
        = some (.fin (2635359 / 1073741824)) := by
      have hsub : fsub (.fin (2635359 / 1073741824)) (.fin 0) = .fin (2635359 / 1073741824) := by
        rw [fsub_fin]; norm_num [round32_distPerTick]
      have := AngleDiff_float_of_mem 0 (.fin 0) (.fin (2635359 / 1073741824))
        (by rw [hsub]; simp only [Fp.lt, M_PI]; norm_num)
        (by rw [hsub]; simp only [Fp.lt, Fp.neg, M_PI]; norm_num)
      rw [this, hsub]
    have hclamp : AngleClamp 1 (.fin (2635359 / 1073741824))
        = some (.fin (2635359 / 1073741824)) :=
      AngleClamp_fin_of_mem 0 _ (by norm_num) (by norm_num)
    refine ⟨Update_new_two L, by rw [hdelta, hsum, hdiff], ?_⟩
    unfold CVirtualGyro.Update
    simp only [hdelta, hsum, hdiff, hclamp, hd, hz, Option.some_bind, Option.map_some',
      Bool.not_true, Bool.false_eq_true, if_false]

/-! ## The heading and the gyro angle after any calls -/

theorem Wrapped_zero : Wrapped (round32 0) := by
  rw [round32_zero]
  refine Or.inr ⟨?_, ?_⟩
  · simp only [Fp.le, Fp.neg, M_PI]; norm_num
  · simp only [Fp.lt, M_PI]; norm_num

theorem Update_wrapped (L : Libm) (fuel : ℕ) (g g₁ : CVirtualGyro Fp) (fTime fSteerRad : Fp)
    (n : ℤ) (h : CVirtualGyro.Update L fuel g fTime fSteerRad n = some g₁) :
    Wrapped g₁.m_fAngleRad := by
  unfold CVirtualGyro.Update at h
  simp only [Option.bind_eq_some, Option.map_eq_some'] at h
  obtain ⟨_, _, _, _, a, ha, rfl⟩ := h
  exact (AngleClamp_range fuel _ a (Fp.Rounded_fadd _ _) ha).wrapped

theorem Estimate_wrapped (L : Libm) (fuel : ℕ) (gyro : CVirtualGyro Fp) (t t₁ : CTricycle Fp)
    (time steering_angle : Fp) (n : ℤ) (w : Fp)
    (h : CTricycle.Estimate L fuel gyro t time steering_angle n w = some t₁) :
    Wrapped t₁.m_pose.q := by
  unfold CTricycle.Estimate at h
  simp only [Option.map_eq_some'] at h
  obtain ⟨q, hq, rfl⟩ := h
  exact (AngleClamp_range fuel _ q (Fp.Rounded_fadd _ _) hq).wrapped

theorem run_wrapped (L : Libm) (fuel : ℕ) (calls : List (Call Fp)) :
    ∀ w w₁ : Instances Fp, Wrapped w.tricycle.m_pose.q → Wrapped w.gyro.m_fAngleRad →
      Instances.run L fuel w calls = some w₁ →
      Wrapped w₁.tricycle.m_pose.q ∧ Wrapped w₁.gyro.m_fAngleRad := by
  induction calls with
  | nil =>
    intro w w₁ h₁ h₂ h
    simp only [Instances.run, Option.some.injEq] at h
    subst h
    exact ⟨h₁, h₂⟩
  | cons c rest ih =>
    intro w w₁ h₁ h₂ h
    simp only [Instances.run, Option.bind_eq_some] at h
    obtain ⟨w₂, hstep, hrest⟩ := h
    cases c with
    | Update fTime fSteerRad n =>
      simp only [Instances.step, Option.map_eq_some'] at hstep
      obtain ⟨g, hg, rfl⟩ := hstep
      exact ih ⟨w.tricycle, g⟩ w₁ h₁ (Update_wrapped L fuel _ g _ _ _ hg) hrest
    | Estimate time steering_angle n av =>
      simp only [Instances.step, Option.map_eq_some'] at hstep
      obtain ⟨t, ht, rfl⟩ := hstep
      exact ih ⟨t, w.gyro⟩ w₁ (Estimate_wrapped L fuel _ _ t _ _ _ _ ht) h₂ hrest

/-- The two calls `Estimate(-2^127, 0, 0, 0)`, `Estimate(2^127, 0, 0, 0)` from the fresh
state return, and the heading is then a NaN. -/
theorem run_gap_overflow (L : Libm) :
    Instances.run L 1 Instances.new
        [.Estimate (.fin (-(2 ^ 127))) (.fin 0) 0 (.fin 0),
         .Estimate (.fin (2 ^ 127)) (.fin 0) 0 (.fin 0)]
      = some ⟨⟨⟨.nan, .nan, .nan⟩, .fin (2 ^ 127)⟩, CVirtualGyro.new⟩ := by
  simp only [Instances.run, Instances.step, Instances.new,
    Estimate_new_at L _ IsFloat_negBig, Option.map_some', Option.some_bind,
    Estimate_gap_overflow L]

/-- Claim C5, as stated, fails: from the initial state the two calls
`Estimate(-2^127, 0, 0, 0)` and `Estimate(2^127, 0, 0, 0)`, all arguments finite `float`s,
return and leave the pose heading a NaN, which is not in `[-M_PI, +M_PI)`: the second time
gap is `+inf`, and `0 * inf` is a NaN. -/
theorem C5_heading_NaN :
    IsFloat (-(2 ^ 127)) ∧ IsFloat (2 ^ 127) ∧
      fsub (.fin (2 ^ 127)) (.fin (-(2 ^ 127))) = .inf false ∧
      Fp.le (Fp.neg M_PI) .nan = false ∧
      ∀ L : Libm, ∃ w,
        Instances.run L 1 Instances.new
            [.Estimate (.fin (-(2 ^ 127))) (.fin 0) 0 (.fin 0),
             .Estimate (.fin (2 ^ 127)) (.fin 0) 0 (.fin 0)] = some w ∧
          w.tricycle.m_pose.q = .nan :=
  ⟨IsFloat_negBig, IsFloat_big, fsub_big_overflow, rfl, fun L => ⟨_, run_gap_overflow L, rfl⟩⟩

/-- Claim C5, amended. Starting from the initial state, after any sequence of
`CVirtualGyro::Update` and `CTricycle::Estimate` calls that all return, the pose heading
and the gyro angle are each a NaN or in `[-M_PI, +M_PI)`. -/
theorem C5_heading_and_gyro_angle_float (L : Libm) (fuel : ℕ) (calls : List (Call Fp))
    (w : Instances Fp) (h : Instances.run L fuel Instances.new calls = some w) :
    Wrapped w.tricycle.m_pose.q ∧ Wrapped w.gyro.m_fAngleRad :=
  run_wrapped L fuel calls Instances.new w Wrapped_zero Wrapped_zero h

/-- The amended claim C5 on the calls `Update(2, 0, 0)`, `Estimate(2, 0, 0, 0)`. -/
theorem C5_heading_and_gyro_angle_float_witness :
    IsFloat 2 ∧ ∀ L : Libm,
      Instances.run L 1 Instances.new
          [.Update (.fin 2) (.fin 0) 0, .Estimate (.fin 2) (.fin 0) 0 (.fin 0)]
        = some ⟨⟨⟨.fin 0, .fin 0, .fin 0⟩, .fin 2⟩, ⟨.fin 0, .fin 0, .fin 2, .fin 0⟩⟩ ∧
      Wrapped (.fin 0) ∧ Wrapped (.fin 0) := by
  refine ⟨round32_two, fun L => ?_⟩
  have hrun : Instances.run L 1 Instances.new
      [.Update (.fin 2) (.fin 0) 0, .Estimate (.fin 2) (.fin 0) 0 (.fin 0)]
      = some ⟨⟨⟨.fin 0, .fin 0, .fin 0⟩, .fin 2⟩, ⟨.fin 0, .fin 0, .fin 2, .fin 0⟩⟩ := by
    have he := Estimate_zero_motion L 0 ⟨.fin 0, .fin 0, .fin 2, .fin 0⟩
      ⟨⟨.fin 0, .fin 0, .fin 0⟩, .fin 0⟩ (.fin 2) (.fin 0) 0 0 0 2 0 rfl round32_zero
      round32_zero round32_zero (by norm_num) (by norm_num)
      (by rw [fsub_fin]; norm_num [round32_two]) rfl
    simp only [Instances.run, Instances.step, Instances.new, Update_new_two L,
      Option.map_some', Option.some_bind, CTricycle_new_eq, he]
  exact ⟨hrun, C5_heading_and_gyro_angle_float L 1 _ _ hrun⟩

/-! ## The replay driver `CTestTricycle::Run` in `float` arithmetic -/

/-- On streams that have not failed, one `Write` of the singleton's own pose keeps the
streams aligned and unfailed and appends one row and one polygon. -/
theorem Write_float_aligned (L : Libm) (w : Instances Fp) (f : Streams) (time : Fp)
    (hp : f.poseFail = false) (hc : f.contourFail = false) (h : Streams.Aligned L f) :
    Streams.Aligned L (CTestTricycle.Write L w f time w.tricycle.m_pose) ∧
      (CTestTricycle.Write L w f time w.tricycle.m_pose).m_fsFilePose
        = f.m_fsFilePose ++ [⟨time, w.tricycle.m_pose.x, w.tricycle.m_pose.y,
            w.tricycle.m_pose.q⟩] ∧
      (CTestTricycle.Write L w f time w.tricycle.m_pose).m_fsFileContour.length
        = f.m_fsFileContour.length + 1 ∧
      (CTestTricycle.Write L w f time w.tricycle.m_pose).poseFail = false ∧
      (CTestTricycle.Write L w f time w.tricycle.m_pose).contourFail = false := by
  obtain ⟨hlen, hrows⟩ := h
  have hW : CTestTricycle.Write L w f time w.tricycle.m_pose
      = { f with
          m_fsFilePose := f.m_fsFilePose ++ [⟨time, w.tricycle.m_pose.x, w.tricycle.m_pose.y,
            w.tricycle.m_pose.q⟩]
          m_fsFileContour := f.m_fsFileContour ++
            [⟨⟨w.tricycle.m_pose.x, w.tricycle.m_pose.y⟩,
              (CTricycle.GetRobotContour L w.tricycle).posLW,
              (CTricycle.GetRobotContour L w.tricycle).posFW,
              (CTricycle.GetRobotContour L w.tricycle).posRW,
              ⟨w.tricycle.m_pose.x, w.tricycle.m_pose.y⟩⟩] } := by
    simp [CTestTricycle.Write, hp, hc]
  rw [hW]
  refine ⟨⟨by simp [hlen], fun i row blk h₁ h₂ => ?_⟩, rfl, by simp, hp, hc⟩
  simp only at h₁ h₂
  rcases lt_or_le i f.m_fsFilePose.length with hi | hi
  · rw [List.getElem?_append_left hi] at h₁
    rw [List.getElem?_append_left (hlen ▸ hi)] at h₂
    exact hrows i row blk h₁ h₂
  · rw [List.getElem?_append_right hi] at h₁
    rw [List.getElem?_append_right (hlen ▸ hi)] at h₂
    have hi0 : i - f.m_fsFilePose.length = 0 := by
      by_contra hne
      rw [List.getElem?_eq_none (by simp; omega)] at h₁
      exact absurd h₁ (by simp)
    rw [hi0, List.getElem?_cons_zero, Option.some.injEq] at h₁
    rw [← hlen, hi0, List.getElem?_cons_zero, Option.some.injEq] at h₂
    subst h₁ h₂
    refine ⟨rfl, rfl, fun t ht => ?_⟩
    have hp : t.m_pose = w.tricycle.m_pose := ht
    simp only [CTricycle.GetRobotContour, hp, and_self]

/-- When the loop of `Run` returns on unfailed streams, the streams are aligned, one
row longer per record, and the pose stream has only been appended to. -/
theorem Run_loop_float_aligned (L : Libm) (fuel : ℕ) (m_vRecord : List (SRecord Fp)) :
    ∀ s s₁ : Instances Fp × Streams, s.2.poseFail = false → s.2.contourFail = false →
      Streams.Aligned L s.2 → CTestTricycle.Run.loop L fuel s m_vRecord = some s₁ →
      Streams.Aligned L s₁.2 ∧
        s₁.2.m_fsFilePose.length = s.2.m_fsFilePose.length + m_vRecord.length ∧
        ∃ rows, s₁.2.m_fsFilePose = s.2.m_fsFilePose ++ rows := by
  induction m_vRecord with
  | nil =>
    intro s s₁ _ _ h hrun
    simp only [CTestTricycle.Run.loop, Option.some.injEq] at hrun
    subst hrun
    exact ⟨h, by simp, [], by simp⟩
  | cons it rest ih =>
    intro s s₁ hp hc h hrun
    simp only [CTestTricycle.Run.loop, Option.bind_eq_some] at hrun
    obtain ⟨s₂, hbody, hrest⟩ := hrun
    simp only [CTestTricycle.Run.body, Option.bind_eq_some, Option.map_eq_some'] at hbody
    obtain ⟨g, _, t, _, rfl⟩ := hbody
    have hw := Write_float_aligned L ⟨t, g⟩ s.2 it.time hp hc h
    obtain ⟨h₁, h₂, rows, h₃⟩ := ih _ s₁ hw.2.2.2.1 hw.2.2.2.2 hw.1 hrest
    refine ⟨h₁, ?_, ?_⟩
    · rw [h₂]
      simp only [hw.2.1, List.length_append, List.length_cons, List.length_nil]
      omega
    · rw [h₃]
      simp only [hw.2.1, List.append_assoc]
      exact ⟨_, rfl⟩

/-- The singletons after the loop of `Run`: the replay steps of the records. -/
theorem Run_loop_float_state (L : Libm) (fuel : ℕ) (m_vRecord : List (SRecord Fp)) :
    ∀ s s₁ : Instances Fp × Streams, CTestTricycle.Run.loop L fuel s m_vRecord = some s₁ →
      Instances.replay L fuel s.1 m_vRecord = some s₁.1 := by
  induction m_vRecord with
  | nil =>
    intro s s₁ hrun
    simp only [CTestTricycle.Run.loop, Option.some.injEq] at hrun
    subst hrun
    rfl
  | cons it rest ih =>
    intro s s₁ hrun
    simp only [CTestTricycle.Run.loop, Option.bind_eq_some] at hrun
    obtain ⟨s₂, hbody, hrest⟩ := hrun
    simp only [CTestTricycle.Run.body, Option.bind_eq_some, Option.map_eq_some'] at hbody
    obtain ⟨g, hg, t, ht, rfl⟩ := hbody
    have := ih _ s₁ hrest
    simp only [Instances.replay, Instances.replayStep, Instances.step, hg, ht,
      Option.map_some', Option.some_bind]
    exact this

/-- A `Write` on a failed stream writes nothing. -/
theorem Write_failed (L : Libm) (w : Instances Fp) (f : Streams) (time : Fp) (pose : SPose Fp)
    (h : f.poseFail = true ∨ f.contourFail = true) :
    CTestTricycle.Write L w f time pose = f := by
  rcases h with h | h <;> simp [CTestTricycle.Write, h]

/-- The record `(2, 0, 0)` from the fresh state: both calls return. -/
theorem Run_body_new (L : Libm) (f : Streams) :
    CTestTricycle.Run.body L 1 (Instances.new, f) ⟨.fin 2, .fin 0, 0⟩
      = some (⟨⟨⟨.fin 0, .fin 0, .fin 0⟩, .fin 2⟩, ⟨.fin 0, .fin 0, .fin 2, .fin 0⟩⟩,
          CTestTricycle.Write L
            ⟨⟨⟨.fin 0, .fin 0, .fin 0⟩, .fin 2⟩, ⟨.fin 0, .fin 0, .fin 2, .fin 0⟩⟩ f (.fin 2)
            ⟨.fin 0, .fin 0, .fin 0⟩) := by
  have he := Estimate_zero_motion L 0 ⟨.fin 0, .fin 0, .fin 2, .fin 0⟩
    ⟨⟨.fin 0, .fin 0, .fin 0⟩, .fin 0⟩ (.fin 2) (.fin 0) 0 0 0 2 0 rfl round32_zero
    round32_zero round32_zero (by norm_num) (by norm_num)
    (by rw [fsub_fin]; norm_num [round32_two]) rfl
  simp only [CTestTricycle.Run.body, Instances.new, Update_new_two L, Option.some_bind,
    CTricycle_new_eq, CVirtualGyro.GetAngVel, he, Option.map_some']

/-- Claim C18, as stated, fails: when the result files cannot be opened, `Write` returns
at its `fail()` guard each time; for the one-record list `(2, 0, 0)` the run returns
with no pose row and no contour block, not `N + 1 = 2` of each. -/
theorem C18_Run_failed_streams :
    CTestTricycle.CreateResultFiles false false = ⟨[], true, [], true⟩ ∧
      ∀ L : Libm, ∃ s,
        CTestTricycle.Run L 1 false false Instances.new [⟨.fin 2, .fin 0, 0⟩] = some s ∧
          s.2.m_fsFilePose.length = 0 ∧ s.2.m_fsFileContour.length = 0 := by
  refine ⟨rfl, fun L => ?_⟩
  have hf : ∀ (w : Instances Fp) (time : Fp) (pose : SPose Fp),
      CTestTricycle.Write L w ⟨[], true, [], true⟩ time pose = ⟨[], true, [], true⟩ :=
    fun w time pose => Write_failed L w _ time pose (Or.inl rfl)
  have hrun : CTestTricycle.Run L 1 false false Instances.new [⟨.fin 2, .fin 0, 0⟩]
      = some (⟨⟨⟨.fin 0, .fin 0, .fin 0⟩, .fin 2⟩, ⟨.fin 0, .fin 0, .fin 2, .fin 0⟩⟩,
          ⟨[], true, [], true⟩) := by
    simp only [CTestTricycle.Run, CTestTricycle.CreateResultFiles, Bool.not_false, hf,
      CTestTricycle.Run.loop, Run_body_new L, Option.some_bind]
  exact ⟨_, hrun, rfl, rfl⟩

/-- Claim C18, amended. Row alignment of the replay driver when both result files have
been opened and the run returns: for a list of `n` records `Run` writes `n + 1` pose rows
and `n + 1` contour blocks; the first row is the pose before any sample, at time `0`; at
every index the contour block starts and ends with the `(x, y)` of the pose row at that
index and its wheel points (left, front, right) are the `GetRobotContour` of that same
pose; and the singletons end in the state reached by calling, per record, `Update` and
then `Estimate` with the updated gyro's output. -/
theorem C18_Run_row_alignment_float (L : Libm) (fuel : ℕ) (w : Instances Fp)
    (m_vRecord : List (SRecord Fp)) (s : Instances Fp × Streams)
    (h : CTestTricycle.Run L fuel true true w m_vRecord = some s) :
    s.2.m_fsFilePose.length = m_vRecord.length + 1 ∧
      s.2.m_fsFileContour.length = m_vRecord.length + 1 ∧
      s.2.m_fsFilePose[0]?
        = some ⟨round32 0, w.tricycle.m_pose.x, w.tricycle.m_pose.y, w.tricycle.m_pose.q⟩ ∧
      (∀ (i : ℕ) (row : PoseRow Fp) (blk : ContourBlock Fp),
        s.2.m_fsFilePose[i]? = some row → s.2.m_fsFileContour[i]? = some blk →
          blk.p₀ = ⟨row.x, row.y⟩ ∧ blk.p₄ = ⟨row.x, row.y⟩ ∧
            ∀ t : CTricycle Fp, t.m_pose = ⟨row.x, row.y, row.q⟩ →
              blk.p₁ = (CTricycle.GetRobotContour L t).posLW ∧
              blk.p₂ = (CTricycle.GetRobotContour L t).posFW ∧
              blk.p₃ = (CTricycle.GetRobotContour L t).posRW) ∧
      Instances.replay L fuel w m_vRecord = some s.1 := by
  have h₀ : Streams.Aligned L (CTestTricycle.CreateResultFiles true true) :=
    ⟨rfl, fun i row blk h => by simp [CTestTricycle.CreateResultFiles] at h⟩
  have hw := Write_float_aligned L w (CTestTricycle.CreateResultFiles true true) (round32 0)
    rfl rfl h₀
  unfold CTestTricycle.Run at h
  obtain ⟨⟨hlen, hrows⟩, hn, rows, hpre⟩ := Run_loop_float_aligned L fuel m_vRecord _ s
    hw.2.2.2.1 hw.2.2.2.2 hw.1 h
  have hn' : s.2.m_fsFilePose.length = m_vRecord.length + 1 := by
    rw [hn, hw.2.1]
    simp [CTestTricycle.CreateResultFiles]
    omega
  refine ⟨hn', ?_, ?_, hrows, Run_loop_float_state L fuel m_vRecord _ s h⟩
  · rw [← hn']; exact hlen.symm
  · rw [hpre, hw.2.1]
    simp [CTestTricycle.CreateResultFiles]

/-- The amended claim C18 on the one-record list `(2, 0, 0)` from the fresh state. -/
theorem C18_Run_row_alignment_float_witness :
    IsFloat 2 ∧ ∀ L : Libm, ∃ s,
      CTestTricycle.Run L 1 true true Instances.new [⟨.fin 2, .fin 0, 0⟩] = some s ∧
        s.2.m_fsFilePose.length = 2 ∧ s.2.m_fsFileContour.length = 2 := by
  refine ⟨round32_two, fun L => ?_⟩
  have hrun : ∃ s, CTestTricycle.Run L 1 true true Instances.new [⟨.fin 2, .fin 0, 0⟩]
      = some s := by
    simp only [CTestTricycle.Run, CTestTricycle.Run.loop, Run_body_new L, Option.some_bind]
    exact ⟨_, rfl⟩
  obtain ⟨s, hs⟩ := hrun
  have := C18_Run_row_alignment_float L 1 Instances.new [⟨.fin 2, .fin 0, 0⟩] s hs
  exact ⟨s, hs, this.1, this.2.1⟩

/-! ## Heading integration and the gyro angle in `float` arithmetic -/

/-- The call `AngleClamp<float>(8.f)`: one pass of the subtracting loop, then
`0x1.b7812ap+0`, about `1.7168146`. -/
theorem AngleClamp_eight : AngleClamp 2 (.fin 8) = some (.fin (14401685 / 8388608)) := by
  have hstep : Fp.toFloat (dsub (.fin 8) (dadd M_PI M_PI)) = .fin (14401685 / 8388608) := by
    rw [subTurn_fin]
    norm_num [round64_eight, round32_eight]
  have h₁ : Fp.le M_PI (.fin 8) = true := by simp only [M_PI, Fp.le]; norm_num
  have h₂ : Fp.le M_PI (.fin (14401685 / 8388608)) = false := by
    simp only [M_PI, Fp.le]; norm_num
  have h₃ : Fp.lt (.fin (14401685 / 8388608)) (Fp.neg M_PI) = false := by
    simp only [M_PI, Fp.lt, Fp.neg]; norm_num
  simp [AngleClamp, AngleClamp.loopSub, AngleClamp.loopAdd, h₁, h₂, h₃, hstep]

/-- Two calls of `Estimate` at the times 1 and 2 with gyro output 4, from heading 0 and
stored time 0: the heading is `-0x1.243f6ap+1` after the first and `0x1.b7812cp+0` after
the second. -/
theorem EstimateEvery_two_steps (L : Libm) :
    CTricycle.EstimateEvery L 2 ⟨⟨.fin 0, .fin 0, .fin 0⟩, .fin 0⟩
        [(⟨.fin 4, .fin 0, .fin 0, .fin 0⟩, ⟨.fin 1, .fin 0, 0⟩),
         (⟨.fin 4, .fin 0, .fin 0, .fin 0⟩, ⟨.fin 2, .fin 0, 0⟩)]
      = some ⟨⟨.fin 0, .fin 0, .fin (7200843 / 4194304)⟩, .fin 2⟩ := by
  have hd₁ : fsub (.fin 1) (.fin 0) = .fin 1 := by
    rw [fsub_fin]; norm_num [round32_one]
  have hd₂ : fsub (.fin 2) (.fin 1) = .fin 1 := by
    rw [fsub_fin]; norm_num [round32_one]
  have h₁ := Estimate_no_ticks L 2 ⟨.fin 4, .fin 0, .fin 0, .fin 0⟩
    ⟨⟨.fin 0, .fin 0, .fin 0⟩, .fin 0⟩ (.fin 1) (.fin 4) 0 0 1 0 (-(9576373 / 4194304))
    rfl rfl round32_zero round32_zero hd₁ (by
      simp only [CVirtualGyro.GetAngVel, hd₁]
      norm_num [round32_fourSelf]
      exact AngleClamp_four)
  have h₂ := Estimate_no_ticks L 2 ⟨.fin 4, .fin 0, .fin 0, .fin 0⟩
    ⟨⟨.fin 0, .fin 0, .fin (-(9576373 / 4194304))⟩, .fin 1⟩ (.fin 2) (.fin 4) 0 0 1 0
    (7200843 / 4194304) rfl rfl round32_zero round32_zero hd₂ (by
      simp only [CVirtualGyro.GetAngVel, hd₂]
      norm_num [round32_fourSelf, round32_secondStep]
      exact AngleClamp_fin_of_mem 1 _ (by norm_num) (by norm_num))
  simp only [CTricycle.EstimateEvery, CVirtualGyro.GetAngVel, h₁, h₂, Option.some_bind]

/-- Claim C12, as stated, fails: with heading 0, stored time 0, `omega = 4` and `Dt = 1`,
two calls of `Estimate` at the times 1 and 2 leave the heading `7200843 / 2^22`
(`0x1.b7812cp+0`), while wrapping once, `AngleClamp<float>(0 + 2 * 4 * 1)`, gives
`14401685 / 2^23` (`0x1.b7812ap+0`), one unit in the last place less; and no integer
multiple of `2 * M_PI` leads from `8` to the heading reached. -/
theorem C12_heading_two_steps :
    (∀ L : Libm,
      CTricycle.EstimateEvery L 2 ⟨⟨.fin 0, .fin 0, .fin 0⟩, .fin 0⟩
          [(⟨.fin 4, .fin 0, .fin 0, .fin 0⟩, ⟨.fin 1, .fin 0, 0⟩),
           (⟨.fin 4, .fin 0, .fin 0, .fin 0⟩, ⟨.fin 2, .fin 0, 0⟩)]
        = some ⟨⟨.fin 0, .fin 0, .fin (7200843 / 4194304)⟩, .fin 2⟩) ∧
      AngleClamp 2 (.fin (0 + 2 * 4 * 1)) = some (.fin (14401685 / 8388608)) ∧
      (7200843 / 4194304 : ℚ) ≠ 14401685 / 8388608 ∧
      ¬ ∃ k : ℤ, (7200843 / 4194304 : ℚ)
        = (0 + 2 * 4 * 1) + k * (2 * (884279719003555 / 281474976710656)) := by
  refine ⟨EstimateEvery_two_steps, ?_, by norm_num, ?_⟩
  · norm_num
    exact AngleClamp_eight
  · rintro ⟨k, hk⟩
    have h₁ : -2 < k := by
      by_contra h
      have : (k : ℚ) ≤ -2 := by exact_mod_cast not_lt.mp h
      linarith
    have h₂ : k < 0 := by
      by_contra h
      have : (0 : ℚ) ≤ k := by exact_mod_cast not_lt.mp h
      linarith
    have h₃ : k = -1 := by omega
    subst h₃
    norm_num at hk

/-- Claim C12, amended. Heading integration in `float` arithmetic: when `Estimate` is
applied to a list of samples, each with the gyro output `ω` at its call, and every call
returns, the final heading is what the recurrence
`q ↦ AngleClamp(q + ω * (time - previousTime))` yields along the times of the samples,
whatever the steering angles, the ticks and the position; the wrap is taken at every
step, on rounded sums. -/
theorem C12_heading_recurrence (L : Libm) (fuel : ℕ) (ω : Fp)
    (samples : List (CVirtualGyro Fp × SRecord Fp))
    (hω : ∀ p ∈ samples, CVirtualGyro.GetAngVel p.1 = ω) (t t₁ : CTricycle Fp)
    (h : CTricycle.EstimateEvery L fuel t samples = some t₁) :
    headingAfter fuel ω t.fPrevTime t.m_pose.q (samples.map fun p => p.2.time)
      = some t₁.m_pose.q := by
  induction samples generalizing t with
  | nil =>
    simp only [CTricycle.EstimateEvery, Option.some.injEq] at h
    subst h
    rfl
  | cons p rest ih =>
    obtain ⟨g, it⟩ := p
    simp only [CTricycle.EstimateEvery, Option.bind_eq_some] at h
    obtain ⟨t₂, hstep, hrest⟩ := h
    have hg : CVirtualGyro.GetAngVel g = ω := hω (g, it) (List.mem_cons_self _ _)
    obtain ⟨hq, htime⟩ := Estimate_heading L fuel g t t₂ _ _ _ _ hstep
    have := ih (fun p hp => hω p (List.mem_cons_of_mem _ hp)) t₂ hrest
    rw [htime] at this
    rw [hg] at hq
    simp only [List.map_cons, headingAfter, hq, Option.some_bind]
    exact this

/-- The amended claim C12 on the two samples at the times 1 and 2 with gyro output 4. -/
theorem C12_heading_recurrence_witness :
    (∀ p ∈ [((⟨.fin 4, .fin 0, .fin 0, .fin 0⟩ : CVirtualGyro Fp),
              (⟨.fin 1, .fin 0, 0⟩ : SRecord Fp)),
            (⟨.fin 4, .fin 0, .fin 0, .fin 0⟩, ⟨.fin 2, .fin 0, 0⟩)],
        CVirtualGyro.GetAngVel p.1 = .fin 4) ∧
      ∀ L : Libm,
        CTricycle.EstimateEvery L 2 ⟨⟨.fin 0, .fin 0, .fin 0⟩, .fin 0⟩
            [(⟨.fin 4, .fin 0, .fin 0, .fin 0⟩, ⟨.fin 1, .fin 0, 0⟩),
             (⟨.fin 4, .fin 0, .fin 0, .fin 0⟩, ⟨.fin 2, .fin 0, 0⟩)]
          = some ⟨⟨.fin 0, .fin 0, .fin (7200843 / 4194304)⟩, .fin 2⟩ ∧
        headingAfter 2 (.fin 4) (.fin 0) (.fin 0) [.fin 1, .fin 2]
          = some (.fin (7200843 / 4194304)) := by
  have hω : ∀ p ∈ [((⟨.fin 4, .fin 0, .fin 0, .fin 0⟩ : CVirtualGyro Fp),
              (⟨.fin 1, .fin 0, 0⟩ : SRecord Fp)),
            (⟨.fin 4, .fin 0, .fin 0, .fin 0⟩, ⟨.fin 2, .fin 0, 0⟩)],
        CVirtualGyro.GetAngVel p.1 = .fin 4 := by
    intro p hp
    simp only [List.mem_cons, List.mem_singleton, List.not_mem_nil, or_false] at hp
    rcases hp with rfl | rfl <;> rfl
  exact ⟨hω, fun L => ⟨EstimateEvery_two_steps L,
    C12_heading_recurrence L 2 (.fin 4) _ hω _ _ (EstimateEvery_two_steps L)⟩⟩

/-- The replay step of the record `(3, 1, 100)` from the fresh state when `sinf(0.5)` is
`0x1.eaee88p-2`: the gyro angle is `0x1.e1f89ep-5`, the heading `0x1.e1f8a0p-5`. -/
theorem replayStep_three (L : Libm) (hs : L.sinf (1 / 2) = 4021713 / 8388608) :
    ∃ w, Instances.replayStep L 1 Instances.new ⟨.fin 3, .fin 1, 100⟩ = some w ∧
      w.gyro.m_fAngleRad = .fin (15793231 / 268435456) ∧
      w.tricycle.m_pose.q = .fin (987077 / 16777216) := by
  have hdelta : CVirtualGyro.Update.fDiffAngleRad L CVirtualGyro.new (.fin 1) 100
      = .fin (15793231 / 268435456) := by
    simp only [CVirtualGyro.Update.fDiffAngleRad, CVirtualGyro.new,
      CTricycle.GetFrontDistPerTick, m_fFrontDistPerTick_val, CTricycle.GetDistBtwFrontRear,
      CTricycle.m_fDistBtwFrontRear, DIST_BTW_FRONT_REAR, ofInt]
    norm_num [fdiv_fin, round32_zero, round32_one, round32_two, round32_hundred,
      round32_hundredTicks, round32_halfHundredTicks, round32_half, hs, round32_delta]
  have hsum : fadd (.fin 0) (.fin (15793231 / 268435456)) = .fin (15793231 / 268435456) := by
    rw [fadd_fin]; norm_num [round32_deltaSelf]
  have hdiff : AngleDiff 1 (.fin 0) (.fin (15793231 / 268435456))
      = some (.fin (15793231 / 268435456)) := by
    have hsub : fsub (.fin (15793231 / 268435456)) (.fin 0)
        = .fin (15793231 / 268435456) := by
      rw [fsub_fin]; norm_num [round32_deltaSelf]
    have := AngleDiff_float_of_mem 0 (.fin 0) (.fin (15793231 / 268435456))
      (by rw [hsub]; simp only [Fp.lt, M_PI]; norm_num)
      (by rw [hsub]; simp only [Fp.lt, Fp.neg, M_PI]; norm_num)
    rw [this, hsub]
  have hclamp : AngleClamp 1 (.fin (15793231 / 268435456))
      = some (.fin (15793231 / 268435456)) :=
    AngleClamp_fin_of_mem 0 _ (by norm_num) (by norm_num)
  have hd : fsub (.fin 3) (.fin 0) = .fin 3 := by
    rw [fsub_fin]; norm_num [round32_three]
  have hz : almostZero (.fin 3) = false := by
    simp only [almostZero, Fp.lt, epsilon]; norm_num
  have hw : fdiv (.fin (15793231 / 268435456)) (.fin 3) = .fin (10528821 / 536870912) := by
    rw [fdiv_fin _ _ (by norm_num)]; norm_num [round32_angVel]
  have hupd : CVirtualGyro.Update L 1 CVirtualGyro.new (.fin 3) (.fin 1) 100
      = some ⟨.fin (10528821 / 536870912), .fin (15793231 / 268435456), .fin 3, .fin 1⟩ := by
    unfold CVirtualGyro.Update
    rw [hdelta]
    simp only [CVirtualGyro.new, round32_zero, hsum, hdiff, hclamp, hd, hz, hw,
      Option.some_bind, Option.map_some', Bool.not_false, if_true]
  have hq : AngleClamp 1 (fadd (CTricycle.new).m_pose.q
      (fmul (CVirtualGyro.GetAngVel
          ⟨.fin (10528821 / 536870912), .fin (15793231 / 268435456), .fin 3, .fin 1⟩)
        (fsub (.fin 3) (CTricycle.new).fPrevTime))) = some (.fin (987077 / 16777216)) := by
    simp only [CTricycle_new_eq, CVirtualGyro.GetAngVel, hd]
    norm_num [round32_headingStep, round32_headingSelf]
    exact AngleClamp_fin_of_mem 0 _ (by norm_num) (by norm_num)
  obtain ⟨t₁, ht₁, hq₁, _⟩ := Estimate_of_heading L 1
    ⟨.fin (10528821 / 536870912), .fin (15793231 / 268435456), .fin 3, .fin 1⟩ CTricycle.new
    (.fin 3) (.fin 1) 100 (.fin (10528821 / 536870912)) _ hq
  refine ⟨⟨t₁, ⟨.fin (10528821 / 536870912), .fin (15793231 / 268435456), .fin 3, .fin 1⟩⟩,
    ?_, rfl, hq₁⟩
  simp only [Instances.replayStep, Instances.step, Instances.new, hupd, Option.map_some',
    Option.some_bind, CVirtualGyro.GetAngVel, ht₁]

/-- The replay step of the record `(0, 0x1.921fb6p+1, 2)` from the fresh state when
`sinf(0x1.921fb6p+0)` is `1`: the time gap is `0`, the gyro angle becomes
`m_fFrontDistPerTick`, the heading stays `0`. -/
theorem replayStep_zero_gap (L : Libm) (hs : L.sinf (13176795 / 8388608) = 1) :
    Instances.replayStep L 1 Instances.new ⟨.fin 0, .fin (13176795 / 4194304), 2⟩
      = some ⟨⟨⟨.fin 0, .fin 0, .fin 0⟩, .fin 0⟩,
          ⟨.fin (2635359 / 1073741824), .fin (2635359 / 1073741824), .fin 0,
            .fin (13176795 / 4194304)⟩⟩ := by
  have hdelta := fDiffAngleRad_half_turn_steer L hs ⟨.fin 0, .fin 0, .fin 0, .fin 0⟩ rfl
  have hsum : fadd (.fin 0) (.fin (2635359 / 1073741824)) = .fin (2635359 / 1073741824) := by
    rw [fadd_fin]; norm_num [round32_distPerTick]
  have hdiff : AngleDiff 1 (.fin 0) (.fin (2635359 / 1073741824))
      = some (.fin (2635359 / 1073741824)) := by
    have hsub : fsub (.fin (2635359 / 1073741824)) (.fin 0) = .fin (2635359 / 1073741824) := by
      rw [fsub_fin]; norm_num [round32_distPerTick]
    have := AngleDiff_float_of_mem 0 (.fin 0) (.fin (2635359 / 1073741824))
      (by rw [hsub]; simp only [Fp.lt, M_PI]; norm_num)
      (by rw [hsub]; simp only [Fp.lt, Fp.neg, M_PI]; norm_num)
    rw [this, hsub]
  have hclamp : AngleClamp 1 (.fin (2635359 / 1073741824))
      = some (.fin (2635359 / 1073741824)) :=
    AngleClamp_fin_of_mem 0 _ (by norm_num) (by norm_num)
  have hd : fsub (.fin 0) (.fin 0) = .fin 0 := by
    rw [fsub_fin]; norm_num [round32_zero]
  have hz : almostZero (.fin 0) = true := almostZero_of_nonpos 0 le_rfl
  have hupd : CVirtualGyro.Update L 1 CVirtualGyro.new (.fin 0) (.fin (13176795 / 4194304)) 2
      = some ⟨.fin (2635359 / 1073741824), .fin (2635359 / 1073741824), .fin 0,
          .fin (13176795 / 4194304)⟩ := by
    unfold CVirtualGyro.Update
    simp only [CVirtualGyro.new, round32_zero, hdelta, hsum, hdiff, hclamp, hd, hz,
      Option.some_bind, Option.map_some', Bool.not_true, Bool.false_eq_true, if_false]
  have hest := Estimate_frozen L 1
    ⟨.fin (2635359 / 1073741824), .fin (2635359 / 1073741824), .fin 0,
      .fin (13176795 / 4194304)⟩ ⟨⟨.fin 0, .fin 0, .fin 0⟩, .fin 0⟩ (.fin 0) 2
    (.fin (2635359 / 1073741824)) 0 0 0 (13176795 / 4194304) 0 rfl rfl round32_zero
    round32_zero hd hz (by
      simp only [CVirtualGyro.GetAngVel, hd]
      norm_num [round32_zero]
      exact AngleClamp_fin_of_mem 0 0 (by norm_num) (by norm_num))
  simp only [Instances.replayStep, Instances.step, Instances.new, hupd, Option.map_some',
    Option.some_bind, CVirtualGyro.GetAngVel, CTricycle_new_eq, hest]

/-- Claim C20, as stated, fails: the one-record list `(3, 1, 100)` has the time gap
`3 >= epsilon`, yet after its replay step, with `sinf(0.5) = 0x1.eaee88p-2`, the gyro angle
is `15793231 / 2^28` (`0x1.e1f89ep-5`) and the pose heading is `987077 / 2^24`
(`0x1.e1f8a0p-5`): the quotient by the gap multiplied back by the gap is one unit in the
last place off. -/
theorem C20_heading_off_by_rounding :
    fsub (.fin 3) (.fin 0) = .fin 3 ∧ almostZero (.fin 3) = false ∧
      (15793231 / 268435456 : ℚ) ≠ 987077 / 16777216 ∧
      ∀ L : Libm, L.sinf (1 / 2) = 4021713 / 8388608 →
        ∃ w, Instances.replayStep L 1 Instances.new ⟨.fin 3, .fin 1, 100⟩ = some w ∧
          w.gyro.m_fAngleRad = .fin (15793231 / 268435456) ∧
          w.tricycle.m_pose.q = .fin (987077 / 16777216) := by
  refine ⟨by rw [fsub_fin]; norm_num [round32_three], ?_, by norm_num, replayStep_three⟩
  simp only [almostZero, Fp.lt, epsilon]; norm_num

/-- Claim C20, amended. The pose heading and the gyro angle need not agree after a replay
step: for a time gap that passes the guard they can differ by rounding, and for the
sample list whose first sample `(0, 0x1.921fb6p+1, 2)` has the near-zero gap `0` and a
non-zero angle step (`m_fFrontDistPerTick`, with `sinf(0x1.921fb6p+0) = 1`), the replay
step leaves the gyro angle `m_fFrontDistPerTick` and the heading `0`. -/
theorem C20_heading_and_gyro_angle_differ :
    fsub (.fin 0) (.fin 0) = .fin 0 ∧ almostZero (.fin 0) = true ∧
      CTricycle.m_fFrontDistPerTick = .fin (2635359 / 1073741824) ∧
      ∀ L : Libm, L.sinf (13176795 / 8388608) = 1 →
        ∃ w, Instances.replayStep L 1 Instances.new ⟨.fin 0, .fin (13176795 / 4194304), 2⟩
            = some w ∧
          w.gyro.m_fAngleRad = .fin (2635359 / 1073741824) ∧
          w.tricycle.m_pose.q = .fin 0 :=
  ⟨by rw [fsub_fin]; norm_num [round32_zero], almostZero_of_nonpos 0 le_rfl,
    m_fFrontDistPerTick_val, fun L hs => ⟨_, replayStep_zero_gap L hs, rfl, rfl⟩⟩

end Binary32

end Tricycle
